import Mathlib

/-!
Verification of go-ipld-prime: the schema compiler and the generated Int node.

A shallow embedding of `schema/compiler/compiler.go` and `node/gendemo/tInt.go`.

Go values that are shared through pointers live in an explicit heap: a pointer is the
index of its target in the heap, `nil` is `none`, and allocation appends a cell.
A Go panic is an outcome of the call, returned together with the heap as it stands
when the panic is raised. One shared value is held by value instead: the field array of
a struct, see `TypeStruct`.
-/

set_option autoImplicit false

namespace Schema

/-! ## Go maps -/

/-- A Go map value, as the list of its entries in insertion order. -/
structure GoMap (κ ν : Type) where
  entries : List (κ × ν)
deriving DecidableEq, Repr

namespace GoMap

variable {κ ν : Type}

/-- The map returned by the Go builtin `make(map[K]V, n)`. -/
def make : GoMap κ ν := ⟨[]⟩

/-- The value of the first entry with key `k`. -/
def find [DecidableEq κ] (k : κ) : List (κ × ν) → Option ν
  | [] => none
  | e :: es => if e.1 = k then some e.2 else find k es

/-- The Go expression `v, exists := m[k]`: `none` stands for `exists == false`. -/
def get? [DecidableEq κ] (m : GoMap κ ν) (k : κ) : Option ν := find k m.entries

/-- The Go statement `m[k] = v`. -/
def set [DecidableEq κ] (m : GoMap κ ν) (k : κ) (v : ν) : GoMap κ ν :=
  if (m.get? k).isSome then
    ⟨m.entries.map (fun e => if e.1 = k then (k, v) else e)⟩
  else
    ⟨m.entries ++ [(k, v)]⟩

/-- The Go expression `len(m)`. -/
def len (m : GoMap κ ν) : Nat := m.entries.length

/-- The keys of the map. -/
def keys (m : GoMap κ ν) : List κ := m.entries.map (fun e => e.1)

end GoMap

/-! ## Data model of package `compiler` -/

abbrev TypeName := String
abbrev TypeReference := String
abbrev StructFieldName := String

/-- A `*TypeSystem`: the index of a TypeSystem object in the heap. -/
abbrev TsPtr := Nat

/-- A non-nil `schema.Type` interface value: the index of a Type object in the heap. -/
abbrev TypePtr := Nat

/-- The values the code hands to `panic`, and the runtime panic of a nil dereference. -/
inductive PanicValue where
  /-- The runtime error for a nil pointer dereference. -/
  | nilDereference
  /-- Error text `type name %q already used`. -/
  | typeNameUsed (name : TypeName)
  /-- Error text `type %q already has field named %q`. -/
  | fieldNameUsed (typ : TypeName) (field : StructFieldName)
  /-- Error text `field name %q duplicated`. -/
  | fieldNameDuplicated (field : StructFieldName)
  /-- Error text `discriminant string %q duplicated`. -/
  | discriminantDuplicated (discriminant : String)
  /-- The string `TODO`. -/
  | todo
  /-- The string `invalid state: cannot call Build on an assembler that is not finished`. -/
  | buildUnfinished
  /-- The string `invalid state: cannot assign into assembler that is already finished`. -/
  | alreadyFinished
  /-- The string `unreachable`. -/
  | unreachable
  /-- The string `unbox of a maybe rejected`. -/
  | unboxRejected
deriving DecidableEq, Repr

/-- How a call ends: it returns a value, or it panics. -/
inductive Outcome (α : Type) where
  | returned (a : α)
  | panicked (p : PanicValue)
deriving DecidableEq, Repr

/-- Modelled from the spec: the struct `StructField` is declared outside `src/`; its
fields are those of the composite literal in `MakeStructField`, in that order. -/
structure StructField where
  parent : Option TypePtr
  name : StructFieldName
  typ : TypeReference
  optional : Bool
  nullable : Bool
deriving DecidableEq, Repr

/-- Modelled from the spec: `StructRepresentation_Map_FieldDetails` is declared outside
`src/`; per field it carries an optional rename and an optional implicit value. -/
structure StructRepresentation_Map_FieldDetails where
  Rename : Option String
  Implicit : Option String
deriving DecidableEq, Repr

/-- Modelled from the spec: `StructRepresentation_Map` is declared outside `src/`; its
fields are those of the composite literal in `MakeStructRepresentation_Map`. -/
structure StructRepresentation_Map where
  parent : Option TypePtr
  fieldDetails : GoMap StructFieldName StructRepresentation_Map_FieldDetails
deriving DecidableEq, Repr

/-- The interface `StructRepresentation`: the map strategy, or some other strategy. -/
inductive StructRepresentation where
  | ofMap (r : StructRepresentation_Map)
  | other (strategy : String)
deriving DecidableEq, Repr

/-- Modelled from the spec: `UnionRepresentation_Keyed` is declared outside `src/`; its
fields are those of the composite literal in `MakeUnionRepresentation_Keyed`. -/
structure UnionRepresentation_Keyed where
  ts : Option TsPtr
  discriminantTable : GoMap String TypeName
deriving DecidableEq, Repr

/-- The interface `UnionRepresentation`: the keyed strategy, or some other strategy. -/
inductive UnionRepresentation where
  | ofKeyed (r : UnionRepresentation_Keyed)
  | other (strategy : String)
deriving DecidableEq, Repr

/-- Modelled from the spec: the struct `TypeBool` is declared outside `src/`; its fields
are those of the composite literal in `Compiler.TypeBool`. -/
structure TypeBool where
  ts : Option TsPtr
  name : TypeName
deriving DecidableEq, Repr

/-- Modelled from the spec: as `TypeBool`, from the literal in `Compiler.TypeString`. -/
structure TypeString where
  ts : Option TsPtr
  name : TypeName
deriving DecidableEq, Repr

/-- Modelled from the spec: as `TypeBool`, from the literal in `Compiler.TypeBytes`. -/
structure TypeBytes where
  ts : Option TsPtr
  name : TypeName
deriving DecidableEq, Repr

/-- Modelled from the spec: as `TypeBool`, from the literal in `Compiler.TypeInt`. -/
structure TypeInt where
  ts : Option TsPtr
  name : TypeName
deriving DecidableEq, Repr

/-- Modelled from the spec: as `TypeBool`, from the literal in `Compiler.TypeFloat`. -/
structure TypeFloat where
  ts : Option TsPtr
  name : TypeName
deriving DecidableEq, Repr

/-- Modelled from the spec: as `TypeBool`, from the literal in `Compiler.TypeLink`. -/
structure TypeLink where
  ts : Option TsPtr
  name : TypeName
  expectedTypeRef : TypeName
deriving DecidableEq, Repr

/-- Modelled from the spec: the struct `TypeStruct` is declared outside `src/`; its fields
are those of the composite literal in `Compiler.TypeStruct`. The slice `fields` is the
backing array taken over from the carrier; a `*StructField` stored in `fieldsMap` points
into that array and is the index of the element it points to.

Limit of the model: the array is held here by value, one copy per Type object. In Go the
slice shares the array of the carrier, so when one carrier is passed to two calls of
`Compiler.TypeStruct` both structs hold the same array, and the loop of the second call
overwrites the `parent` pointers that the first call wrote. That write to an older object
is not shown by this model. It touches nothing but `parent`; the theorems about objects
that existed before a call therefore compare them by `SchemaType.withoutParents`, or
speak of pointers only. -/
structure TypeStruct where
  ts : Option TsPtr
  name : TypeName
  fields : List StructField
  fieldsMap : GoMap StructFieldName Nat
  rstrat : StructRepresentation
deriving DecidableEq, Repr

/-- Modelled from the spec: as `TypeBool`, from the literal in `Compiler.TypeMap`. -/
structure TypeMap where
  ts : Option TsPtr
  name : TypeName
  keyTypeRef : TypeName
  valueTypeRef : TypeReference
  valueNullable : Bool
deriving DecidableEq, Repr

/-- Modelled from the spec: as `TypeBool`, from the literal in `Compiler.TypeList`. -/
structure TypeList where
  ts : Option TsPtr
  name : TypeName
  valueTypeRef : TypeReference
  valueNullable : Bool
deriving DecidableEq, Repr

/-- Modelled from the spec: the struct `TypeUnion` is declared outside `src/`; its fields
are those of the composite literal in `Compiler.TypeUnion`. -/
structure TypeUnion where
  ts : Option TsPtr
  name : TypeName
  members : List TypeName
  rstrat : UnionRepresentation
deriving DecidableEq, Repr

/-- A Type object in the heap: the target of a `schema.Type` interface value. -/
inductive SchemaType where
  | ofBool (t : TypeBool)
  | ofString (t : TypeString)
  | ofBytes (t : TypeBytes)
  | ofInt (t : TypeInt)
  | ofFloat (t : TypeFloat)
  | ofLink (t : TypeLink)
  | ofStruct (t : TypeStruct)
  | ofMap (t : TypeMap)
  | ofList (t : TypeList)
  | ofUnion (t : TypeUnion)
deriving DecidableEq, Repr

/-- Modelled from the spec: the method `Name` of each Type is declared outside `src/`;
it returns the TypeName the Type was declared with. -/
def SchemaType.Name : SchemaType → TypeName
  | .ofBool t => t.name
  | .ofString t => t.name
  | .ofBytes t => t.name
  | .ofInt t => t.name
  | .ofFloat t => t.name
  | .ofLink t => t.name
  | .ofStruct t => t.name
  | .ofMap t => t.name
  | .ofList t => t.name
  | .ofUnion t => t.name

/-- Modelled from the spec: the struct `TypeSystem` is declared outside `src/`; its two
fields are those of the composite literal in `Compiler.Init`: the lookup map and the
enumeration list. -/
structure TypeSystem where
  types : GoMap TypeReference TypePtr
  list : List TypePtr
deriving DecidableEq, Repr

/-- The Go heap: the TypeSystem objects and the Type objects, each addressed by index. -/
structure Heap where
  systems : List TypeSystem
  objs : List SchemaType
deriving DecidableEq, Repr

/-- The struct `Compiler`. -/
structure Compiler where
  ts : Option TsPtr
deriving DecidableEq, Repr

/-- The result of a call: the heap it leaves behind, and how it ended. -/
structure Res (α : Type) where
  heap : Heap
  ret : Outcome α
deriving DecidableEq, Repr

namespace Heap

/-- Dereference of a `schema.Type` value. -/
def typeAt (h : Heap) (p : TypePtr) : Option SchemaType := h.objs[p]?

/-- Dereference of a `*TypeSystem`; `none` for the nil pointer. -/
def systemAt (h : Heap) (p : Option TsPtr) : Option TypeSystem :=
  match p with
  | none => none
  | some a => h.systems[a]?

/-- Allocation of a Type object: the new heap and the address of the object. -/
def allocType (h : Heap) (t : SchemaType) : Heap × TypePtr :=
  ({ h with objs := h.objs ++ [t] }, h.objs.length)

/-- A write through a `schema.Type` pointer. -/
def setType (h : Heap) (p : TypePtr) (t : SchemaType) : Heap :=
  { h with objs := h.objs.set p t }

/-- A write through a `*TypeSystem`. -/
def setSystem (h : Heap) (p : TsPtr) (ts : TypeSystem) : Heap :=
  { h with systems := h.systems.set p ts }

end Heap

/-! ## The Compiler -/

/-- The method `Compiler.Init`. -/
def Compiler.Init (c : Compiler) (h : Heap) : Compiler × Heap :=
  ({ c with ts := some h.systems.length },
   { h with systems := h.systems ++ [{ types := GoMap.make, list := [] }] })

/-- The method `Compiler.Compile`: its body is `panic("TODO")`. The result carries the
Compiler as the call leaves it, and the pair the method would return. -/
def Compiler.Compile (c : Compiler) (h : Heap) :
    Compiler × Res (Option TsPtr × Option String) :=
  (c, ⟨h, .panicked .todo⟩)

/-- The method `Compiler.mustHaveNameFree`. -/
def Compiler.mustHaveNameFree (c : Compiler) (h : Heap) (name : TypeName) : Outcome Unit :=
  match h.systemAt c.ts with
  | none => .panicked .nilDereference
  | some ts =>
    if (ts.types.get? name).isSome then .panicked (.typeNameUsed name) else .returned ()

/-- The method `Compiler.addType`. -/
def Compiler.addType (c : Compiler) (h : Heap) (t : TypePtr) : Res Unit :=
  match h.typeAt t with
  | none => ⟨h, .panicked .nilDereference⟩
  | some obj =>
    match c.mustHaveNameFree h obj.Name with
    | .panicked p => ⟨h, .panicked p⟩
    | .returned () =>
      match c.ts, h.systemAt c.ts with
      | some a, some ts =>
        let ts1 := { ts with types := ts.types.set obj.Name t }
        let ts2 := { ts1 with list := ts1.list ++ [t] }
        ⟨h.setSystem a ts2, .returned ()⟩
      | _, _ => ⟨h, .panicked .nilDereference⟩

/-- The method `Compiler.addAnonType`. -/
def Compiler.addAnonType (c : Compiler) (h : Heap) (t : TypePtr) : Res Unit :=
  match h.typeAt t with
  | none => ⟨h, .panicked .nilDereference⟩
  | some obj =>
    match c.ts, h.systemAt c.ts with
    | some a, some ts => ⟨h.setSystem a { ts with types := ts.types.set obj.Name t }, .returned ()⟩
    | _, _ => ⟨h, .panicked .nilDereference⟩

/-- The method `Compiler.TypeBool`. -/
def Compiler.TypeBool (c : Compiler) (h : Heap) (name : TypeName) : Res Unit :=
  let a := h.allocType (.ofBool ⟨c.ts, name⟩)
  c.addType a.1 a.2

/-- The method `Compiler.TypeString`. -/
def Compiler.TypeString (c : Compiler) (h : Heap) (name : TypeName) : Res Unit :=
  let a := h.allocType (.ofString ⟨c.ts, name⟩)
  c.addType a.1 a.2

/-- The method `Compiler.TypeBytes`. -/
def Compiler.TypeBytes (c : Compiler) (h : Heap) (name : TypeName) : Res Unit :=
  let a := h.allocType (.ofBytes ⟨c.ts, name⟩)
  c.addType a.1 a.2

/-- The method `Compiler.TypeInt`. -/
def Compiler.TypeInt (c : Compiler) (h : Heap) (name : TypeName) : Res Unit :=
  let a := h.allocType (.ofInt ⟨c.ts, name⟩)
  c.addType a.1 a.2

/-- The method `Compiler.TypeFloat`. -/
def Compiler.TypeFloat (c : Compiler) (h : Heap) (name : TypeName) : Res Unit :=
  let a := h.allocType (.ofFloat ⟨c.ts, name⟩)
  c.addType a.1 a.2

/-- The method `Compiler.TypeLink`. -/
def Compiler.TypeLink (c : Compiler) (h : Heap) (name : TypeName)
    (expectedTypeRef : TypeName) : Res Unit :=
  let a := h.allocType (.ofLink ⟨c.ts, name, expectedTypeRef⟩)
  c.addType a.1 a.2

/-- The carrier type `structFieldList`. -/
structure structFieldList where
  x : List StructField
deriving DecidableEq, Repr

/-- The function `MakeStructFieldList`. -/
def MakeStructFieldList (fields : List StructField) : structFieldList := ⟨fields⟩

/-- The function `MakeStructField`. -/
def MakeStructField (name : StructFieldName) (typ : TypeReference)
    (optional nullable : Bool) : StructField :=
  ⟨none, name, typ, optional, nullable⟩

/-- The statement `fields.x[i].parent = &t` on the backing array. -/
def setParent (fs : List StructField) (i : Nat) (t : TypePtr) : List StructField :=
  match fs[i]? with
  | none => fs
  | some f => fs.set i { f with parent := some t }

/-- The `range` loop of `Compiler.TypeStruct`, from index `i` over the fields not yet
visited; `t` is the address of the struct being built. -/
def Compiler.TypeStruct.range (t : TypePtr) : Nat → List StructField → Heap → Res Unit
  | _, [], h => ⟨h, .returned ()⟩
  | i, f :: rest, h =>
    match h.typeAt t with
    | some (.ofStruct st) =>
      if (st.fieldsMap.get? f.name).isSome then
        ⟨h, .panicked (.fieldNameUsed st.name f.name)⟩
      else
        let st1 := { st with fieldsMap := st.fieldsMap.set f.name i }
        let st2 := { st1 with fields := setParent st1.fields i t }
        Compiler.TypeStruct.range t (i + 1) rest (h.setType t (.ofStruct st2))
    | _ => ⟨h, .panicked .nilDereference⟩

/-- The method `Compiler.TypeStruct`. The composite literal takes `fields.x`; see the
limit noted at `TypeStruct` for a carrier that is passed to more than one call. -/
def Compiler.TypeStruct (c : Compiler) (h : Heap) (name : TypeName)
    (fields : structFieldList) (rstrat : StructRepresentation) : Res Unit :=
  let a := h.allocType (.ofStruct
    { ts := c.ts, name := name, fields := fields.x, fieldsMap := GoMap.make, rstrat := rstrat })
  match c.addType a.1 a.2 with
  | ⟨h1, .panicked p⟩ => ⟨h1, .panicked p⟩
  | ⟨h1, .returned ()⟩ => Compiler.TypeStruct.range a.2 0 fields.x h1

/-- The carrier type `StructRepresentation_Map_FieldDetailsEntry`. -/
structure StructRepresentation_Map_FieldDetailsEntry where
  FieldName : StructFieldName
  Details : StructRepresentation_Map_FieldDetails
deriving DecidableEq, Repr

/-- The `range` loop of `MakeStructRepresentation_Map`. -/
def MakeStructRepresentation_Map.range :
    List StructRepresentation_Map_FieldDetailsEntry → StructRepresentation_Map →
      Outcome StructRepresentation_Map
  | [], rstrat => .returned rstrat
  | fd :: rest, rstrat =>
    if (rstrat.fieldDetails.get? fd.FieldName).isSome then
      .panicked (.fieldNameDuplicated fd.FieldName)
    else
      MakeStructRepresentation_Map.range rest
        { rstrat with fieldDetails := rstrat.fieldDetails.set fd.FieldName fd.Details }

/-- The function `MakeStructRepresentation_Map`. -/
def MakeStructRepresentation_Map
    (fieldDetails : List StructRepresentation_Map_FieldDetailsEntry) :
    Outcome StructRepresentation :=
  match MakeStructRepresentation_Map.range fieldDetails ⟨none, GoMap.make⟩ with
  | .panicked p => .panicked p
  | .returned rstrat => .returned (.ofMap rstrat)

/-- The method `Compiler.TypeMap`. -/
def Compiler.TypeMap (c : Compiler) (h : Heap) (name : TypeName) (keyTypeRef : TypeName)
    (valueTypeRef : TypeReference) (valueNullable : Bool) : Res Unit :=
  let a := h.allocType (.ofMap ⟨c.ts, name, keyTypeRef, valueTypeRef, valueNullable⟩)
  c.addType a.1 a.2

/-- The method `Compiler.TypeList`. -/
def Compiler.TypeList (c : Compiler) (h : Heap) (name : TypeName)
    (valueTypeRef : TypeReference) (valueNullable : Bool) : Res Unit :=
  let a := h.allocType (.ofList ⟨c.ts, name, valueTypeRef, valueNullable⟩)
  c.addType a.1 a.2

/-- The carrier type `unionMemberList`. -/
structure unionMemberList where
  x : List TypeName
deriving DecidableEq, Repr

/-- The method `Compiler.TypeUnion`. -/
def Compiler.TypeUnion (c : Compiler) (h : Heap) (name : TypeName)
    (members : unionMemberList) (rstrat : UnionRepresentation) : Res Unit :=
  let a := h.allocType (.ofUnion
    { ts := c.ts, name := name, members := members.x, rstrat := rstrat })
  c.addType a.1 a.2

/-- The function `MakeUnionMemberList`. -/
def MakeUnionMemberList (members : List TypeName) : unionMemberList := ⟨members⟩

/-- The carrier type `unionDiscriminantStringTable`. -/
structure unionDiscriminantStringTable where
  x : GoMap String TypeName
deriving DecidableEq, Repr

/-- The function `MakeUnionRepresentation_Keyed`. It returns a pointer to a fresh
object that no code writes to afterwards; the object is kept by value. -/
def MakeUnionRepresentation_Keyed (discriminantTable : unionDiscriminantStringTable) :
    UnionRepresentation :=
  .ofKeyed ⟨none, discriminantTable.x⟩

/-- The carrier type `UnionDiscriminantStringEntry`. -/
structure UnionDiscriminantStringEntry where
  Discriminant : String
  Member : TypeName
deriving DecidableEq, Repr

/-- The `range` loop of `MakeUnionDiscriminantStringTable`. -/
def MakeUnionDiscriminantStringTable.range :
    List UnionDiscriminantStringEntry → GoMap String TypeName →
      Outcome (GoMap String TypeName)
  | [], x => .returned x
  | y :: rest, x =>
    if (x.get? y.Discriminant).isSome then
      .panicked (.discriminantDuplicated y.Discriminant)
    else
      MakeUnionDiscriminantStringTable.range rest (x.set y.Discriminant y.Member)

/-- The function `MakeUnionDiscriminantStringTable`. -/
def MakeUnionDiscriminantStringTable (entries : List UnionDiscriminantStringEntry) :
    Outcome unionDiscriminantStringTable :=
  match MakeUnionDiscriminantStringTable.range entries GoMap.make with
  | .panicked p => .panicked p
  | .returned x => .returned ⟨x⟩

end Schema

namespace Schema

/-! ## Declarations as data, and the TypeSystem surface -/

/-- A call of one of the ten declare methods of the Compiler, with its arguments. -/
inductive Decl where
  | typeBool (name : TypeName)
  | typeString (name : TypeName)
  | typeBytes (name : TypeName)
  | typeInt (name : TypeName)
  | typeFloat (name : TypeName)
  | typeLink (name : TypeName) (expectedTypeRef : TypeName)
  | typeStruct (name : TypeName) (fields : structFieldList) (rstrat : StructRepresentation)
  | typeMap (name : TypeName) (keyTypeRef : TypeName) (valueTypeRef : TypeReference)
      (valueNullable : Bool)
  | typeList (name : TypeName) (valueTypeRef : TypeReference) (valueNullable : Bool)
  | typeUnion (name : TypeName) (members : unionMemberList) (rstrat : UnionRepresentation)
deriving DecidableEq, Repr

/-- The TypeName argument of a declare call. -/
def Decl.name : Decl → TypeName
  | .typeBool name => name
  | .typeString name => name
  | .typeBytes name => name
  | .typeInt name => name
  | .typeFloat name => name
  | .typeLink name _ => name
  | .typeStruct name _ _ => name
  | .typeMap name _ _ _ => name
  | .typeList name _ _ => name
  | .typeUnion name _ _ => name

/-- The declare call: dispatch to the method of the Compiler. -/
def Compiler.declare (c : Compiler) (h : Heap) : Decl → Res Unit
  | .typeBool name => c.TypeBool h name
  | .typeString name => c.TypeString h name
  | .typeBytes name => c.TypeBytes h name
  | .typeInt name => c.TypeInt h name
  | .typeFloat name => c.TypeFloat h name
  | .typeLink name expectedTypeRef => c.TypeLink h name expectedTypeRef
  | .typeStruct name fields rstrat => c.TypeStruct h name fields rstrat
  | .typeMap name keyTypeRef valueTypeRef valueNullable =>
    c.TypeMap h name keyTypeRef valueTypeRef valueNullable
  | .typeList name valueTypeRef valueNullable => c.TypeList h name valueTypeRef valueNullable
  | .typeUnion name members rstrat => c.TypeUnion h name members rstrat

/-- The field names of a field list, in order. -/
def structFieldList.names (fields : structFieldList) : List StructFieldName :=
  fields.x.map (fun f => f.name)

/-- The field list of a Struct declaration repeats no name; true of every other
declaration. -/
def Decl.fieldNamesDistinct : Decl → Prop
  | .typeStruct _ fields _ => fields.names.Nodup
  | _ => True

instance (d : Decl) : Decidable d.fieldNamesDistinct := by
  cases d <;> simp only [Decl.fieldNamesDistinct] <;> infer_instance

/-- The name-to-field mapping of a struct whose fields all have been linked: the
name of the field at position `i` is mapped to the pointer to position `i`. -/
def linkedFieldsMap (fields : List StructField) : GoMap StructFieldName Nat :=
  ⟨(fields.map (fun f => f.name)).zip (List.range fields.length)⟩

/-- The fields of a struct at address `t`, all linked to it. -/
def linkedFields (fields : List StructField) (t : TypePtr) : List StructField :=
  fields.map (fun f => { f with parent := some t })

/-- The Type object that carries exactly the shape data of a declaration, for the
Compiler field `ts` and the address `t` of the object itself. -/
def Decl.typeObject (ts : Option TsPtr) (t : TypePtr) : Decl → SchemaType
  | .typeBool name => .ofBool ⟨ts, name⟩
  | .typeString name => .ofString ⟨ts, name⟩
  | .typeBytes name => .ofBytes ⟨ts, name⟩
  | .typeInt name => .ofInt ⟨ts, name⟩
  | .typeFloat name => .ofFloat ⟨ts, name⟩
  | .typeLink name expectedTypeRef => .ofLink ⟨ts, name, expectedTypeRef⟩
  | .typeStruct name fields rstrat =>
    .ofStruct ⟨ts, name, linkedFields fields.x t, linkedFieldsMap fields.x, rstrat⟩
  | .typeMap name keyTypeRef valueTypeRef valueNullable =>
    .ofMap ⟨ts, name, keyTypeRef, valueTypeRef, valueNullable⟩
  | .typeList name valueTypeRef valueNullable => .ofList ⟨ts, name, valueTypeRef, valueNullable⟩
  | .typeUnion name members rstrat => .ofUnion ⟨ts, name, members.x, rstrat⟩

/-- Modelled from the spec: the lookup operation of the TypeSystem surface is declared
outside `src/`; it resolves a TypeReference through the lookup map. -/
def TypeSystem.lookup (ts : TypeSystem) (h : Heap) (ref : TypeReference) : Option SchemaType :=
  match ts.types.get? ref with
  | none => none
  | some p => h.typeAt p

/-- Modelled from the spec: the enumerate operation of the TypeSystem surface is declared
outside `src/`; it yields the Types of the enumeration list, in order. -/
def TypeSystem.enumerate (ts : TypeSystem) (h : Heap) : List (Option SchemaType) :=
  ts.list.map h.typeAt

/-- Every pointer held by the TypeSystem points to an object of the heap: Go has no
dangling pointers. -/
def TypeSystem.pointersValid (ts : TypeSystem) (h : Heap) : Prop :=
  (∀ e ∈ ts.types.entries, e.2 < h.objs.length) ∧ ∀ p ∈ ts.list, p < h.objs.length

instance (ts : TypeSystem) (h : Heap) : Decidable (ts.pointersValid h) := by
  unfold TypeSystem.pointersValid; infer_instance

end Schema

namespace Schema

/-- The `range` loop of `Compiler.TypeStruct` as it acts on the struct object alone. -/
def linkLoop (t : TypePtr) : Nat → List StructField → TypeStruct → TypeStruct × Outcome Unit
  | _, [], st => (st, .returned ())
  | i, f :: rest, st =>
    if (st.fieldsMap.get? f.name).isSome then
      (st, .panicked (.fieldNameUsed st.name f.name))
    else
      linkLoop t (i + 1) rest
        { st with fieldsMap := st.fieldsMap.set f.name i, fields := setParent st.fields i t }

end Schema

/-! ## Package `gendemo`: the generated Int node -/

namespace Gendemo

open Schema (Outcome PanicValue)

/-- Modelled from the spec: the type `schema.Maybe` is declared outside `src/`; it has
the three states Absent, Null and Value, Absent being the zero value of the type, and
room for further values that packages use as markers. -/
inductive Maybe where
  | Maybe_Absent
  | Maybe_Null
  | Maybe_Value
  | other (code : Nat)
deriving DecidableEq, Repr

/-- The zero value of `schema.Maybe`, as in `var m schema.Maybe`. -/
instance : Inhabited Maybe := ⟨.Maybe_Absent⟩

/-- The Go type `int`; the code stores and returns such values and never computes
with them, so no overflow arises. -/
abbrev GoInt := Int

/-- The struct `_Int`. -/
structure _Int where
  x : GoInt
deriving DecidableEq, Repr

/-- The zero value of `_Int`, as in `var w _Int`. -/
instance : Inhabited _Int := ⟨⟨0⟩⟩

/-- The type `Int = *_Int`: `none` is the nil pointer, `some a` the cell at index `a`. -/
abbrev IntPtr := Option Nat

/-- The type `*schema.Maybe`. -/
abbrev MaybePtr := Option Nat

/-- The Go heap of package `gendemo`: the `_Int` cells and the `schema.Maybe` cells. -/
structure NodeHeap where
  ints : List _Int
  maybes : List Maybe
deriving DecidableEq, Repr

/-- Modelled from the spec: Go `error` values come from packages outside `src/`;
these are the kinds the spec names. -/
inductive GoError where
  | ErrWrongKind (typeName : String) (methodName : String)
  | ErrNotNullable (typeName : String)
deriving DecidableEq, Repr

/-- An `ipld.Node` interface value: an Int node (also seen as `_Int__Repr`, the same
type), one of the distinguished nodes of package `ipld`, or a node of some other
implementation, given by what its methods `IsNull` and `AsInt` return. -/
inductive Node where
  | ofInt (n : IntPtr)
  | Null
  | Undef
  | other (isNull : Bool) (asInt : GoInt × Option GoError)
deriving DecidableEq, Repr

/-- The result of a call on the `gendemo` heap. -/
structure NodeRes (α : Type) where
  heap : NodeHeap
  ret : Outcome α
deriving DecidableEq, Repr

namespace NodeHeap

/-- Dereference of a `*_Int`. -/
def intAt (h : NodeHeap) (p : IntPtr) : Option _Int :=
  match p with
  | none => none
  | some a => h.ints[a]?

/-- Dereference of a `*schema.Maybe`. -/
def maybeAt (h : NodeHeap) (p : MaybePtr) : Option Maybe :=
  match p with
  | none => none
  | some a => h.maybes[a]?

/-- Allocation of an `_Int` cell. -/
def allocInt (h : NodeHeap) (c : _Int) : NodeHeap × IntPtr :=
  ({ h with ints := h.ints ++ [c] }, some h.ints.length)

/-- Allocation of a `schema.Maybe` cell. -/
def allocMaybe (h : NodeHeap) (m : Maybe) : NodeHeap × MaybePtr :=
  ({ h with maybes := h.maybes ++ [m] }, some h.maybes.length)

/-- A write through a non-nil `*_Int`. -/
def setInt (h : NodeHeap) (a : Nat) (c : _Int) : NodeHeap :=
  { h with ints := h.ints.set a c }

/-- A write through a non-nil `*schema.Maybe`. -/
def setMaybe (h : NodeHeap) (a : Nat) (m : Maybe) : NodeHeap :=
  { h with maybes := h.maybes.set a m }

end NodeHeap

/-- The method `Int.Int`. -/
def IntNode.Int (h : NodeHeap) (n : IntPtr) : Outcome GoInt :=
  match h.intAt n with
  | none => .panicked .nilDereference
  | some c => .returned c.x

/-- The method `_Int__Style.FromInt`. -/
def _Int__Style.FromInt (h : NodeHeap) (v : GoInt) : NodeRes (IntPtr × Option GoError) :=
  let n := h.allocInt ⟨v⟩
  ⟨n.1, .returned (n.2, none)⟩

/-- The method `Int.AsInt`. -/
def IntNode.AsInt (h : NodeHeap) (n : IntPtr) : Outcome (GoInt × Option GoError) :=
  match h.intAt n with
  | none => .panicked .nilDereference
  | some c => .returned (c.x, none)

/-- The method `Int.Representation`: the same pointer, seen as `*_Int__Repr`. -/
def IntNode.Representation (n : IntPtr) : Node := .ofInt n

/-- Modelled from the spec: the method `AsInt` of an `ipld.Node`; for an Int node it is
`Int.AsInt`, and the distinguished nodes of package `ipld`, declared outside `src/`,
fail with WrongKind. -/
def Node.AsInt (h : NodeHeap) : Node → Outcome (GoInt × Option GoError)
  | .ofInt n => IntNode.AsInt h n
  | .Null => .returned (0, some (.ErrWrongKind "null" "AsInt"))
  | .Undef => .returned (0, some (.ErrWrongKind "undefined" "AsInt"))
  | .other _ r => .returned r

/-- The struct `_Int__Assembler`. -/
structure _Int__Assembler where
  w : IntPtr
  m : MaybePtr
deriving DecidableEq, Repr

/-- The struct `_Int__Builder`, which embeds `_Int__Assembler`. -/
structure _Int__Builder where
  _Int__Assembler : _Int__Assembler
deriving DecidableEq, Repr

/-- The result of a method with a pointer receiver: the receiver as the call leaves it,
the heap, and how the call ended. -/
structure RecvRes (ρ α : Type) where
  recv : ρ
  heap : NodeHeap
  ret : Outcome α
deriving DecidableEq, Repr

/-- The method `_Int__Builder.Reset`. -/
def _Int__Builder.Reset (_nb : _Int__Builder) (h : NodeHeap) : _Int__Builder × NodeHeap :=
  let w := h.allocInt default
  let m := w.1.allocMaybe default
  (⟨{ w := w.2, m := m.2 }⟩, m.1)

/-- The method `_Int__Style.NewBuilder`. -/
def _Int__Style.NewBuilder (h : NodeHeap) : _Int__Builder × NodeHeap :=
  _Int__Builder.Reset ⟨{ w := none, m := none }⟩ h

/-- The method `_Int__Builder.Build`. -/
def _Int__Builder.Build (nb : _Int__Builder) (h : NodeHeap) : Outcome Node :=
  match h.maybeAt nb._Int__Assembler.m with
  | none => .panicked .nilDereference
  | some m =>
    if m ≠ .Maybe_Value then .panicked .buildUnfinished
    else .returned (.ofInt nb._Int__Assembler.w)

/-- The method `_Int__Assembler.AssignInt`. -/
def _Int__Assembler.AssignInt (na : _Int__Assembler) (h : NodeHeap) (v : GoInt) :
    RecvRes _Int__Assembler (Option GoError) :=
  match na.m, h.maybeAt na.m with
  | some ma, some m =>
    if m = .Maybe_Value ∨ m = .Maybe_Null then ⟨na, h, .panicked .alreadyFinished⟩
    else
      let a := if na.w = none then h.allocInt default else (h, na.w)
      let na1 := { na with w := a.2 }
      match na1.w, a.1.intAt na1.w with
      | some wa, some c => ⟨na1, (a.1.setInt wa { c with x := v }).setMaybe ma .Maybe_Value,
          .returned none⟩
      | _, _ => ⟨na1, a.1, .panicked .nilDereference⟩
  | _, _ => ⟨na, h, .panicked .nilDereference⟩

/-- The method `AssignInt` of a `_Int__Builder`, promoted from the embedded assembler. -/
def _Int__Builder.AssignInt (nb : _Int__Builder) (h : NodeHeap) (v : GoInt) :
    RecvRes _Int__Builder (Option GoError) :=
  let r := nb._Int__Assembler.AssignInt h v
  ⟨{ nb with _Int__Assembler := r.recv }, r.heap, r.ret⟩

/-! ### The remaining methods of `tInt.go` -/

/-- The constant `allowNull` of package `gendemo`, declared outside `src/`. The switch
of `AssignNull` lists it as a case next to the three states of `schema.Maybe`, so it is
a marker value different from all three; its code is taken to be 5. -/
def allowNull : Maybe := .other 5

/-- Modelled from the spec: the type `ipld.ReprKind` is declared outside `src/`; it
names the kind of a node. -/
inductive ReprKind where
  | ReprKind_Invalid
  | ReprKind_Map
  | ReprKind_List
  | ReprKind_Null
  | ReprKind_Bool
  | ReprKind_Int
  | ReprKind_Float
  | ReprKind_String
  | ReprKind_Bytes
  | ReprKind_Link
deriving DecidableEq, Repr

/-- The Go type `float64`: such values are passed on only, so a value is kept as its
bit pattern; the zero value has the pattern 0. -/
structure GoFloat where
  bits : Nat
deriving DecidableEq, Repr

/-- Modelled from the spec: the interface `ipld.Link` is declared outside `src/`; a
link is a content-addressed reference. -/
structure Link where
  address : String
deriving DecidableEq, Repr

/-- Modelled from the spec: the type `ipld.PathSegment` is declared outside `src/`. -/
structure PathSegment where
  s : String
deriving DecidableEq, Repr

/-- Modelled from the spec: the interface `ipld.MapIterator` is declared outside `src/`;
a value of this type is an iterator, and `none` is the nil interface value. -/
structure MapIterator where
  position : Nat
deriving DecidableEq, Repr

/-- Modelled from the spec: the interface `ipld.ListIterator`, as `MapIterator`. -/
structure ListIterator where
  position : Nat
deriving DecidableEq, Repr

/-- Modelled from the spec: the interface `ipld.MapAssembler` is declared outside `src/`;
`none` is the nil interface value. -/
structure MapAssembler where
  handle : Nat
deriving DecidableEq, Repr

/-- Modelled from the spec: the interface `ipld.ListAssembler`, as `MapAssembler`. -/
structure ListAssembler where
  handle : Nat
deriving DecidableEq, Repr

/-- Modelled from the spec: the method `LookupString` of `mixins.Int` is declared outside
`src/`; a mismatched-kind lookup fails with a WrongKind error. -/
def mixins.Int.LookupString (typeName : String) : Outcome (Option Node × Option GoError) :=
  .returned (none, some (.ErrWrongKind typeName "LookupString"))

/-- Modelled from the spec: the method `LookupNode` of `mixins.Int`, as `LookupString`. -/
def mixins.Int.LookupNode (typeName : String) : Outcome (Option Node × Option GoError) :=
  .returned (none, some (.ErrWrongKind typeName "LookupNode"))

/-- Modelled from the spec: the method `LookupIndex` of `mixins.Int`, as `LookupString`. -/
def mixins.Int.LookupIndex (typeName : String) (_idx : GoInt) :
    Outcome (Option Node × Option GoError) :=
  .returned (none, some (.ErrWrongKind typeName "LookupIndex"))

/-- Modelled from the spec: the method `LookupSegment` of `mixins.Int`, as
`LookupString`. -/
def mixins.Int.LookupSegment (typeName : String) (_seg : PathSegment) :
    Outcome (Option Node × Option GoError) :=
  .returned (none, some (.ErrWrongKind typeName "LookupSegment"))

/-- Modelled from the spec: the method `AsBool` of `mixins.Int` is declared outside
`src/`; an accessor of a kind that does not match fails with a WrongKind error. -/
def mixins.Int.AsBool (typeName : String) : Outcome (Bool × Option GoError) :=
  .returned (false, some (.ErrWrongKind typeName "AsBool"))

/-- Modelled from the spec: the method `AsFloat` of `mixins.Int`, as `AsBool`. -/
def mixins.Int.AsFloat (typeName : String) : Outcome (GoFloat × Option GoError) :=
  .returned (⟨0⟩, some (.ErrWrongKind typeName "AsFloat"))

/-- Modelled from the spec: the method `AsString` of `mixins.Int`, as `AsBool`. -/
def mixins.Int.AsString (typeName : String) : Outcome (String × Option GoError) :=
  .returned ("", some (.ErrWrongKind typeName "AsString"))

/-- Modelled from the spec: the method `AsBytes` of `mixins.Int`, as `AsBool`. -/
def mixins.Int.AsBytes (typeName : String) : Outcome (List Nat × Option GoError) :=
  .returned ([], some (.ErrWrongKind typeName "AsBytes"))

/-- Modelled from the spec: the method `AsLink` of `mixins.Int`, as `AsBool`. -/
def mixins.Int.AsLink (typeName : String) : Outcome (Option Link × Option GoError) :=
  .returned (none, some (.ErrWrongKind typeName "AsLink"))

/-- Modelled from the spec: the method `BeginMap` of `mixins.IntAssembler` is declared
outside `src/`; an assign operation of a kind that does not match fails with a WrongKind
error, reported to the caller. -/
def mixins.IntAssembler.BeginMap (typeName : String) (_sizeHint : GoInt) :
    Outcome (Option MapAssembler × Option GoError) :=
  .returned (none, some (.ErrWrongKind typeName "BeginMap"))

/-- Modelled from the spec: the method `BeginList` of `mixins.IntAssembler`, as
`BeginMap`. -/
def mixins.IntAssembler.BeginList (typeName : String) (_sizeHint : GoInt) :
    Outcome (Option ListAssembler × Option GoError) :=
  .returned (none, some (.ErrWrongKind typeName "BeginList"))

/-- Modelled from the spec: the method `AssignNull` of `mixins.IntAssembler` is declared
outside `src/`; an `AssignNull` that is not legal fails with a NotNullable error. -/
def mixins.IntAssembler.AssignNull (typeName : String) : Outcome (Option GoError) :=
  .returned (some (.ErrNotNullable typeName))

/-- Modelled from the spec: the method `AssignBool` of `mixins.IntAssembler`, as
`BeginMap`. -/
def mixins.IntAssembler.AssignBool (typeName : String) : Outcome (Option GoError) :=
  .returned (some (.ErrWrongKind typeName "AssignBool"))

/-- Modelled from the spec: the method `AssignFloat` of `mixins.IntAssembler`, as
`BeginMap`. -/
def mixins.IntAssembler.AssignFloat (typeName : String) : Outcome (Option GoError) :=
  .returned (some (.ErrWrongKind typeName "AssignFloat"))

/-- Modelled from the spec: the method `AssignString` of `mixins.IntAssembler`, as
`BeginMap`. -/
def mixins.IntAssembler.AssignString (typeName : String) : Outcome (Option GoError) :=
  .returned (some (.ErrWrongKind typeName "AssignString"))

/-- Modelled from the spec: the method `AssignBytes` of `mixins.IntAssembler`, as
`BeginMap`. -/
def mixins.IntAssembler.AssignBytes (typeName : String) : Outcome (Option GoError) :=
  .returned (some (.ErrWrongKind typeName "AssignBytes"))

/-- Modelled from the spec: the method `AssignLink` of `mixins.IntAssembler`, as
`BeginMap`. -/
def mixins.IntAssembler.AssignLink (typeName : String) : Outcome (Option GoError) :=
  .returned (some (.ErrWrongKind typeName "AssignLink"))

/-- The struct `_Int__Maybe`. -/
structure _Int__Maybe where
  m : Maybe
  v : IntPtr
deriving DecidableEq, Repr

/-- The type `MaybeInt = *_Int__Maybe`: `none` is the nil pointer; the methods only read
through the pointer, so a non-nil pointer is kept as the struct it points to. -/
abbrev MaybeInt := Option _Int__Maybe

/-- The method `MaybeInt.IsNull`. -/
def MaybeInt.IsNull (m : MaybeInt) : Outcome Bool :=
  match m with
  | none => .panicked .nilDereference
  | some s => .returned (decide (s.m = .Maybe_Null))

/-- The method `MaybeInt.IsUndefined`. -/
def MaybeInt.IsUndefined (m : MaybeInt) : Outcome Bool :=
  match m with
  | none => .panicked .nilDereference
  | some s => .returned (decide (s.m = .Maybe_Absent))

/-- The method `MaybeInt.Exists`. -/
def MaybeInt.Exists (m : MaybeInt) : Outcome Bool :=
  match m with
  | none => .panicked .nilDereference
  | some s => .returned (decide (s.m = .Maybe_Value))

/-- The method `MaybeInt.AsNode`. -/
def MaybeInt.AsNode (m : MaybeInt) : Outcome Node :=
  match m with
  | none => .panicked .nilDereference
  | some s =>
    match s.m with
    | .Maybe_Absent => .returned .Undef
    | .Maybe_Null => .returned .Null
    | .Maybe_Value => .returned (.ofInt s.v)
    | .other _ => .panicked .unreachable

/-- The method `MaybeInt.Must`. -/
def MaybeInt.Must (m : MaybeInt) : Outcome IntPtr :=
  match MaybeInt.Exists m with
  | .panicked p => .panicked p
  | .returned e =>
    if !e then .panicked .unboxRejected
    else
      match m with
      | none => .panicked .nilDereference
      | some s => .returned s.v

/-- The method `Int.ReprKind`. -/
def IntNode.ReprKind (_n : IntPtr) : ReprKind := .ReprKind_Int

/-- The method `Int.LookupString`; its parameter is unnamed in the source. -/
def IntNode.LookupString (_n : IntPtr) : Outcome (Option Node × Option GoError) :=
  mixins.Int.LookupString "gendemo.Int"

/-- The method `Int.LookupNode`; its parameter is unnamed in the source. -/
def IntNode.LookupNode (_n : IntPtr) : Outcome (Option Node × Option GoError) :=
  mixins.Int.LookupNode "gendemo.Int"

/-- The method `Int.LookupIndex`. -/
def IntNode.LookupIndex (_n : IntPtr) (_idx : GoInt) : Outcome (Option Node × Option GoError) :=
  mixins.Int.LookupIndex "gendemo.Int" 0

/-- The method `Int.LookupSegment`. -/
def IntNode.LookupSegment (_n : IntPtr) (seg : PathSegment) :
    Outcome (Option Node × Option GoError) :=
  mixins.Int.LookupSegment "gendemo.Int" seg

/-- The method `Int.MapIterator`. -/
def IntNode.MapIterator (_n : IntPtr) : Option MapIterator := none

/-- The method `Int.ListIterator`. -/
def IntNode.ListIterator (_n : IntPtr) : Option ListIterator := none

/-- The method `Int.Length`. -/
def IntNode.Length (_n : IntPtr) : GoInt := -1

/-- The method `Int.IsUndefined`. -/
def IntNode.IsUndefined (_n : IntPtr) : Bool := false

/-- The method `Int.IsNull`. -/
def IntNode.IsNull (_n : IntPtr) : Bool := false

/-- The method `Int.AsBool`. -/
def IntNode.AsBool (_n : IntPtr) : Outcome (Bool × Option GoError) :=
  mixins.Int.AsBool "gendemo.Int"

/-- The method `Int.AsFloat`. -/
def IntNode.AsFloat (_n : IntPtr) : Outcome (GoFloat × Option GoError) :=
  mixins.Int.AsFloat "gendemo.Int"

/-- The method `Int.AsString`. -/
def IntNode.AsString (_n : IntPtr) : Outcome (String × Option GoError) :=
  mixins.Int.AsString "gendemo.Int"

/-- The method `Int.AsBytes`. -/
def IntNode.AsBytes (_n : IntPtr) : Outcome (List Nat × Option GoError) :=
  mixins.Int.AsBytes "gendemo.Int"

/-- The method `Int.AsLink`. -/
def IntNode.AsLink (_n : IntPtr) : Outcome (Option Link × Option GoError) :=
  mixins.Int.AsLink "gendemo.Int"

/-- Modelled from the spec: the method `IsNull` of an `ipld.Node`; for an Int node it is
`Int.IsNull`, the distinguished node `ipld.Null` of package `ipld`, declared outside
`src/`, is the null node, and `ipld.Undef` is not null. -/
def Node.IsNull : Node → Bool
  | .ofInt n => IntNode.IsNull n
  | .Null => true
  | .Undef => false
  | .other isNull _ => isNull

/-- The method `_Int__Assembler.BeginMap`. -/
def _Int__Assembler.BeginMap (_na : _Int__Assembler) (_sizeHint : GoInt) :
    Outcome (Option MapAssembler × Option GoError) :=
  mixins.IntAssembler.BeginMap "gendemo.Int" 0

/-- The method `_Int__Assembler.BeginList`. -/
def _Int__Assembler.BeginList (_na : _Int__Assembler) (_sizeHint : GoInt) :
    Outcome (Option ListAssembler × Option GoError) :=
  mixins.IntAssembler.BeginList "gendemo.Int" 0

/-- The method `_Int__Assembler.AssignNull`. -/
def _Int__Assembler.AssignNull (na : _Int__Assembler) (h : NodeHeap) :
    RecvRes _Int__Assembler (Option GoError) :=
  match na.m, h.maybeAt na.m with
  | some ma, some m =>
    if m = allowNull then ⟨na, h.setMaybe ma .Maybe_Null, .returned none⟩
    else if m = .Maybe_Absent then ⟨na, h, mixins.IntAssembler.AssignNull "gendemo.Int"⟩
    else if m = .Maybe_Value ∨ m = .Maybe_Null then ⟨na, h, .panicked .alreadyFinished⟩
    else ⟨na, h, .panicked .unreachable⟩
  | _, _ => ⟨na, h, .panicked .nilDereference⟩

/-- The method `_Int__Assembler.AssignBool`; its parameter is unnamed in the source. -/
def _Int__Assembler.AssignBool (_na : _Int__Assembler) : Outcome (Option GoError) :=
  mixins.IntAssembler.AssignBool "gendemo.Int"

/-- The method `_Int__Assembler.AssignFloat`; its parameter is unnamed in the source. -/
def _Int__Assembler.AssignFloat (_na : _Int__Assembler) : Outcome (Option GoError) :=
  mixins.IntAssembler.AssignFloat "gendemo.Int"

/-- The method `_Int__Assembler.AssignString`; its parameter is unnamed in the source. -/
def _Int__Assembler.AssignString (_na : _Int__Assembler) : Outcome (Option GoError) :=
  mixins.IntAssembler.AssignString "gendemo.Int"

/-- The method `_Int__Assembler.AssignBytes`; its parameter is unnamed in the source. -/
def _Int__Assembler.AssignBytes (_na : _Int__Assembler) : Outcome (Option GoError) :=
  mixins.IntAssembler.AssignBytes "gendemo.Int"

/-- The method `_Int__Assembler.AssignLink`; its parameter is unnamed in the source. -/
def _Int__Assembler.AssignLink (_na : _Int__Assembler) : Outcome (Option GoError) :=
  mixins.IntAssembler.AssignLink "gendemo.Int"

/-- The method `_Int__Assembler.AssignNode`. -/
def _Int__Assembler.AssignNode (na : _Int__Assembler) (h : NodeHeap) (v : Node) :
    RecvRes _Int__Assembler (Option GoError) :=
  if v.IsNull then na.AssignNull h
  else
    match v with
    | .ofInt v2 =>
      match na.m, h.maybeAt na.m with
      | some ma, some m =>
        if m = .Maybe_Value ∨ m = .Maybe_Null then ⟨na, h, .panicked .alreadyFinished⟩
        else if na.w = none then
          ⟨{ na with w := v2 }, h.setMaybe ma .Maybe_Value, .returned none⟩
        else
          match na.w, h.intAt na.w, h.intAt v2 with
          | some wa, some _, some c2 =>
            ⟨na, (h.setInt wa c2).setMaybe ma .Maybe_Value, .returned none⟩
          | _, _, _ => ⟨na, h, .panicked .nilDereference⟩
      | _, _ => ⟨na, h, .panicked .nilDereference⟩
    | _ =>
      match Node.AsInt h v with
      | .panicked p => ⟨na, h, .panicked p⟩
      | .returned (_, some err) => ⟨na, h, .returned (some err)⟩
      | .returned (v2, none) => na.AssignInt h v2

/-! ### Calls on a Builder, and sequences of calls -/

/-- A call of one of the methods of a `_Int__Builder`: those promoted from the embedded
assembler, `Build` and `Reset`. -/
inductive BuilderOp where
  | BeginMap (sizeHint : GoInt)
  | BeginList (sizeHint : GoInt)
  | AssignNull
  | AssignBool
  | AssignInt (v : GoInt)
  | AssignFloat
  | AssignString
  | AssignBytes
  | AssignLink
  | AssignNode (v : Node)
  | Build
  | Reset
deriving DecidableEq, Repr

/-- The panic of an outcome, if it is one. -/
def panicOf {α : Type} : Outcome α → Option PanicValue
  | .returned _ => none
  | .panicked p => some p

/-- One call on a Builder: the Builder and the heap as the call leaves them (also when
it panics), and the panic if the call panicked. -/
def _Int__Builder.call (nb : _Int__Builder) (h : NodeHeap) :
    BuilderOp → (_Int__Builder × NodeHeap) × Option PanicValue
  | .BeginMap sizeHint => ((nb, h), panicOf (nb._Int__Assembler.BeginMap sizeHint))
  | .BeginList sizeHint => ((nb, h), panicOf (nb._Int__Assembler.BeginList sizeHint))
  | .AssignNull =>
    ((⟨(nb._Int__Assembler.AssignNull h).recv⟩, (nb._Int__Assembler.AssignNull h).heap),
      panicOf (nb._Int__Assembler.AssignNull h).ret)
  | .AssignBool => ((nb, h), panicOf nb._Int__Assembler.AssignBool)
  | .AssignInt v =>
    ((⟨(nb._Int__Assembler.AssignInt h v).recv⟩, (nb._Int__Assembler.AssignInt h v).heap),
      panicOf (nb._Int__Assembler.AssignInt h v).ret)
  | .AssignFloat => ((nb, h), panicOf nb._Int__Assembler.AssignFloat)
  | .AssignString => ((nb, h), panicOf nb._Int__Assembler.AssignString)
  | .AssignBytes => ((nb, h), panicOf nb._Int__Assembler.AssignBytes)
  | .AssignLink => ((nb, h), panicOf nb._Int__Assembler.AssignLink)
  | .AssignNode v =>
    ((⟨(nb._Int__Assembler.AssignNode h v).recv⟩, (nb._Int__Assembler.AssignNode h v).heap),
      panicOf (nb._Int__Assembler.AssignNode h v).ret)
  | .Build => ((nb, h), panicOf (nb.Build h))
  | .Reset => (nb.Reset h, none)

/-- A sequence of calls on a Builder, each on the state the previous one left (a panic
is recovered by the caller): the final Builder and heap. -/
def _Int__Builder.callAll : List BuilderOp → _Int__Builder × NodeHeap → _Int__Builder × NodeHeap
  | [], s => s
  | op :: ops, s => _Int__Builder.callAll ops (s.1.call s.2 op).1

/-- No call of the sequence panics. -/
def _Int__Builder.noPanic : List BuilderOp → _Int__Builder × NodeHeap → Bool
  | [], _ => true
  | op :: ops, s =>
    (s.1.call s.2 op).2.isNone && _Int__Builder.noPanic ops (s.1.call s.2 op).1

/-- The generic path of `AssignNode` in the words of the spec: a null node is handed to
`AssignNull`; otherwise the value is extracted with the accessor `AsInt` of the node and
handed to `AssignInt`. -/
def _Int__Assembler.AssignNodeGeneric (na : _Int__Assembler) (h : NodeHeap) (v : Node) :
    RecvRes _Int__Assembler (Option GoError) :=
  if v.IsNull then na.AssignNull h
  else
    match Node.AsInt h v with
    | .panicked p => ⟨na, h, .panicked p⟩
    | .returned (_, some err) => ⟨na, h, .returned (some err)⟩
    | .returned (v2, none) => na.AssignInt h v2

/-- The cell `a` holds `c`, and an assembler that writes to the cell `a` is finished
with a value. -/
def cellKept (a : Nat) (c : _Int) (na : _Int__Assembler) (h : NodeHeap) : Prop :=
  h.intAt (some a) = some c ∧ (na.w = some a → h.maybeAt na.m = some .Maybe_Value)

/-- The Maybe of the assembler is in state Absent or in state Value. -/
def absentOrValue (na : _Int__Assembler) (h : NodeHeap) : Prop :=
  h.maybeAt na.m = some .Maybe_Absent ∨ h.maybeAt na.m = some .Maybe_Value

/-- A Builder fresh from `NewBuilder`, on a heap that held one Int node already. -/
def sampleBuilder : _Int__Builder × NodeHeap := _Int__Style.NewBuilder ⟨[⟨3⟩], []⟩

/-- The Builder `sampleBuilder` after `AssignInt(7)`. -/
def sampleFinished : _Int__Builder × NodeHeap := (sampleBuilder.1.call sampleBuilder.2 (.AssignInt 7)).1

/-- An assembler whose slot allows null, as a parent sets one up: no value cell yet, and
the Maybe holds the marker `allowNull`. -/
def sampleNullable : _Int__Assembler × NodeHeap := (⟨none, some 0⟩, ⟨[⟨3⟩], [allowNull]⟩)

/-- The wrong-kind operations of an Int assembler. -/
def BuilderOp.isWrongKind : BuilderOp → Bool
  | .BeginMap _ => true
  | .BeginList _ => true
  | .AssignBool => true
  | .AssignFloat => true
  | .AssignString => true
  | .AssignBytes => true
  | .AssignLink => true
  | _ => false

end Gendemo

/-! ## Concrete states -/

namespace Schema

/-- A Compiler after `Init`, on a heap that was empty. -/
def sampleCompiler : Compiler := (Compiler.Init ⟨none⟩ ⟨[], []⟩).1

/-- The heap after that `Init`. -/
def sampleHeap : Heap := (Compiler.Init ⟨none⟩ ⟨[], []⟩).2

/-- The heap after `Init` and `TypeBool("A")`. -/
def sampleHeapA : Heap := (sampleCompiler.TypeBool sampleHeap "A").heap

/-- The TypeSystem object of `sampleHeapA`. -/
def sampleSystemA : TypeSystem := ⟨⟨[("A", 0)]⟩, [0]⟩

/-- The field list `x: Int, y: Int`. -/
def samplePointFields : structFieldList :=
  MakeStructFieldList [MakeStructField "x" "Int" false false, MakeStructField "y" "Int" false false]

/-- The field list `x: Int, x: Int`, which repeats a name. -/
def sampleRepeatFields : structFieldList :=
  MakeStructFieldList [MakeStructField "x" "Int" false false, MakeStructField "x" "Int" false true]

/-- The map representation strategy without field details. -/
def sampleMapRepresentation : StructRepresentation :=
  match MakeStructRepresentation_Map [] with
  | .returned r => r
  | .panicked _ => .other "panicked"

/-- The heap after `Init`, `TypeInt("Int")` and `TypeStruct("Point", x: Int, y: Int)`. -/
def sampleHeapPoint : Heap :=
  (sampleCompiler.TypeStruct (sampleCompiler.TypeInt sampleHeap "Int").heap "Point"
    samplePointFields sampleMapRepresentation).heap

/-- The keyed representation strategy with the table `a: A, b: B`. -/
def sampleKeyedRepresentation : UnionRepresentation :=
  match MakeUnionDiscriminantStringTable [⟨"a", "A"⟩, ⟨"b", "B"⟩] with
  | .returned t => MakeUnionRepresentation_Keyed t
  | .panicked _ => .other "panicked"

/-- The heap after `Init`, `TypeBool("B")` and `TypeUnion("U", [A, B])` keyed by
`a: A, b: B`; no type named `A` is declared. -/
def sampleHeapUnion : Heap :=
  (sampleCompiler.TypeUnion (sampleCompiler.TypeBool sampleHeap "B").heap "U"
    (MakeUnionMemberList ["A", "B"]) sampleKeyedRepresentation).heap

/-! ## Sequences of registration calls -/

/-- A registration call on the Compiler: one of the ten declare methods, or
`addAnonType`, either with a Type created for the call or with a Type that exists
already. -/
inductive RegOp where
  | declare (d : Decl)
  | anonNew (obj : SchemaType)
  | anonOld (t : TypePtr)
deriving DecidableEq, Repr

/-- One registration call. -/
def Compiler.register (c : Compiler) (h : Heap) : RegOp → Res Unit
  | .declare d => c.declare h d
  | .anonNew obj => c.addAnonType (h.allocType obj).1 (h.allocType obj).2
  | .anonOld t => c.addAnonType h t

/-- A sequence of registration calls of which none panics: the heap it leaves; `none`
when one of the calls panics. -/
def Compiler.registerAll (c : Compiler) : List RegOp → Heap → Option Heap
  | [], h => some h
  | op :: ops, h =>
    match (c.register h op).ret with
    | .returned () => Compiler.registerAll c ops (c.register h op).heap
    | .panicked _ => none

/-- The name of the Type a pointer points to. -/
def Heap.nameAt (h : Heap) (p : TypePtr) : Option TypeName :=
  match h.typeAt p with
  | none => none
  | some obj => some obj.Name

/-- The names the declare calls of a sequence were given, in the order of the calls. -/
def declaredNames : List RegOp → List TypeName
  | [] => []
  | .declare d :: ops => d.name :: declaredNames ops
  | _ :: ops => declaredNames ops

/-- The names of the Types in the enumeration list of the in-progress TypeSystem. -/
def Compiler.listedNames (c : Compiler) (h : Heap) : List (Option TypeName) :=
  match h.systemAt c.ts with
  | none => []
  | some ts => ts.list.map h.nameAt

/-- No `addAnonType` call of the sequence is given a Type that bears the name of a Type
which is in the enumeration list at the time of the call. -/
def Compiler.anonNamesFresh (c : Compiler) : List RegOp → Heap → Prop
  | [], _ => True
  | .declare d :: ops, h => Compiler.anonNamesFresh c ops (c.register h (.declare d)).heap
  | .anonNew obj :: ops, h =>
    some obj.Name ∉ c.listedNames h ∧
      Compiler.anonNamesFresh c ops (c.register h (.anonNew obj)).heap
  | .anonOld t :: ops, h =>
    h.nameAt t ∉ c.listedNames h ∧
      Compiler.anonNamesFresh c ops (c.register h (.anonOld t)).heap

/-- The weak registry invariant, for the names `D` declared so far: the Compiler has an
in-progress TypeSystem with valid pointers, the names of the Types in its enumeration
list are `D` in this order, they are pairwise distinct, and each is a key of the lookup
map. -/
def registryOrdered (c : Compiler) (h : Heap) (D : List TypeName) : Prop :=
  ∃ ts, h.systemAt c.ts = some ts ∧ ts.pointersValid h ∧
    ts.list.map h.nameAt = D.map some ∧ D.Nodup ∧ ∀ n ∈ D, (ts.types.get? n).isSome = true

/-- Every Type in the enumeration list is the Type the lookup map holds for its name. -/
def registryConsistent (c : Compiler) (h : Heap) : Prop :=
  ∀ ts, h.systemAt c.ts = some ts →
    ∀ p ∈ ts.list, ∀ n, h.nameAt p = some n → ts.types.get? n = some p

/-- The calls: `TypeBool("A")`, then `addAnonType` with a List type that is named `A`
too. -/
def sampleCollision : List RegOp :=
  [.declare (.typeBool "A"), .anonNew (.ofList ⟨some 0, "A", "Int", false⟩)]

end Schema

/-! # Theorems -/

namespace Schema

/-! ## Lemmas on Go maps -/

namespace GoMap

variable {κ ν : Type} [DecidableEq κ]

theorem get?_make (k : κ) : (GoMap.make : GoMap κ ν).get? k = none := rfl

theorem find_isSome_iff (es : List (κ × ν)) (k : κ) :
    (find k es).isSome = true ↔ k ∈ es.map (fun e => e.1) := by
  induction es with
  | nil => simp [find]
  | cons e es ih =>
    by_cases hk : e.1 = k
    · simp [find, hk]
    · have hk2 : ¬ k = e.1 := fun h => hk h.symm
      simp [find, hk, hk2, ih]

theorem get?_isSome_iff (m : GoMap κ ν) (k : κ) : (m.get? k).isSome = true ↔ k ∈ m.keys :=
  find_isSome_iff m.entries k

theorem get?_eq_none_iff (m : GoMap κ ν) (k : κ) : m.get? k = none ↔ k ∉ m.keys := by
  rw [← get?_isSome_iff]
  cases m.get? k <;> simp

theorem find_append (es fs : List (κ × ν)) (k : κ) :
    find k (es ++ fs) = (find k es).orElse (fun _ => find k fs) := by
  induction es with
  | nil => simp [find]
  | cons e es ih =>
    by_cases hk : e.1 = k
    · simp [find, hk]
    · simp [find, hk, ih]

theorem set_of_absent (m : GoMap κ ν) (k : κ) (v : ν) (h : m.get? k = none) :
    m.set k v = ⟨m.entries ++ [(k, v)]⟩ := by
  simp [set, h]

theorem find_replace_self (es : List (κ × ν)) (k : κ) (v : ν)
    (hs : (find k es).isSome = true) :
    find k (es.map (fun e => if e.1 = k then (k, v) else e)) = some v := by
  induction es with
  | nil => simp [find] at hs
  | cons e es ih =>
    by_cases hk : e.1 = k
    · simp [find, hk]
    · simp only [find, hk, if_false] at hs
      simp [find, hk, ih hs]

theorem find_replace_of_ne (es : List (κ × ν)) (k k2 : κ) (v : ν) (hne : k2 ≠ k) :
    find k2 (es.map (fun e => if e.1 = k then (k, v) else e)) = find k2 es := by
  have hne2 : ¬ k = k2 := fun h => hne h.symm
  induction es with
  | nil => simp [find]
  | cons e es ih =>
    by_cases hk : e.1 = k
    · have : ¬ e.1 = k2 := by rw [hk]; exact hne2
      simp [find, hk, hne2, this, ih]
    · simp [find, hk, ih]

theorem get?_set_self (m : GoMap κ ν) (k : κ) (v : ν) : (m.set k v).get? k = some v := by
  cases hs : m.get? k with
  | some w =>
    have hs2 : (m.get? k).isSome = true := by simp [hs]
    simp only [set, hs2, if_true]
    exact find_replace_self m.entries k v hs2
  | none =>
    rw [set_of_absent m k v hs]
    simp only [get?] at hs ⊢
    simp [find_append, hs, find]

theorem get?_set_of_ne (m : GoMap κ ν) (k k2 : κ) (v : ν) (hne : k2 ≠ k) :
    (m.set k v).get? k2 = m.get? k2 := by
  have hne2 : ¬ k = k2 := fun h => hne h.symm
  cases hs : m.get? k with
  | some w =>
    have hs2 : (m.get? k).isSome = true := by simp [hs]
    simp only [set, hs2, if_true]
    exact find_replace_of_ne m.entries k k2 v hne
  | none =>
    rw [set_of_absent m k v hs]
    simp only [get?]
    rw [find_append]
    cases hf : find k2 m.entries <;> simp [find, hne2]

end GoMap

end Schema

namespace Schema

/-! ## Lemmas on the heap -/

theorem Heap.typeAt_allocType_new (h : Heap) (t : SchemaType) :
    (h.allocType t).1.typeAt (h.allocType t).2 = some t := by
  simp [Heap.allocType, Heap.typeAt]

theorem Heap.typeAt_allocType_old (h : Heap) (t : SchemaType) (p : TypePtr)
    (hp : p < h.objs.length) : (h.allocType t).1.typeAt p = h.typeAt p := by
  simp [Heap.allocType, Heap.typeAt, List.getElem?_append_left hp]

theorem Heap.systemAt_allocType (h : Heap) (t : SchemaType) (p : Option TsPtr) :
    (h.allocType t).1.systemAt p = h.systemAt p := by
  cases p <;> rfl

theorem Heap.setType_of_typeAt (h : Heap) (p : TypePtr) (t : SchemaType)
    (hp : h.typeAt p = some t) : h.setType p t = h := by
  rcases h with ⟨ss, os⟩
  simp only [Heap.typeAt] at hp
  simp only [Heap.setType, Heap.mk.injEq, true_and]
  apply List.ext_getElem?
  intro n
  by_cases hn : p = n
  · subst hn
    rw [List.getElem?_set_self, hp]
    have := List.getElem?_eq_some.mp hp
    simp [this.1]
  · rw [List.getElem?_set_ne hn]

theorem Heap.setType_setType (h : Heap) (p : TypePtr) (t u : SchemaType) :
    (h.setType p t).setType p u = h.setType p u := by
  simp [Heap.setType, List.set_set]

theorem Heap.typeAt_setType (h : Heap) (p : TypePtr) (t u : SchemaType)
    (hp : h.typeAt p = some t) : (h.setType p u).typeAt p = some u := by
  simp only [Heap.typeAt] at hp
  have := List.getElem?_eq_some.mp hp
  simp [Heap.setType, Heap.typeAt, List.getElem?_set_self, this.1]

/-! ## Lemmas on `addType` -/

theorem Compiler.addType_of_used (c : Compiler) (h : Heap) (t : TypePtr) (obj : SchemaType)
    (ts : TypeSystem) (hobj : h.typeAt t = some obj) (hts : h.systemAt c.ts = some ts)
    (hused : (ts.types.get? obj.Name).isSome = true) :
    c.addType h t = ⟨h, .panicked (.typeNameUsed obj.Name)⟩ := by
  simp [Compiler.addType, Compiler.mustHaveNameFree, hobj, hts, hused]

theorem Compiler.addType_of_free (c : Compiler) (h : Heap) (t : TypePtr) (obj : SchemaType)
    (ts : TypeSystem) (a : TsPtr) (hobj : h.typeAt t = some obj) (hc : c.ts = some a)
    (hts : h.systemAt c.ts = some ts) (hfree : ts.types.get? obj.Name = none) :
    c.addType h t =
      ⟨h.setSystem a ⟨ts.types.set obj.Name t, ts.list ++ [t]⟩, .returned ()⟩ := by
  rw [hc] at hts
  simp [Compiler.addType, Compiler.mustHaveNameFree, hobj, hts, hfree, hc]

theorem Compiler.addType_of_nil (c : Compiler) (h : Heap) (t : TypePtr) (hc : c.ts = none) :
    c.addType h t = ⟨h, .panicked .nilDereference⟩ := by
  unfold Compiler.addType
  cases h.typeAt t with
  | none => rfl
  | some obj => simp [Compiler.mustHaveNameFree, hc, Heap.systemAt]

/-! ## Lemmas on the loop of `TypeStruct` -/

theorem TypeStruct.range_eq_linkLoop (t : TypePtr) (fs : List StructField) :
    ∀ (i : Nat) (h : Heap) (st : TypeStruct), h.typeAt t = some (.ofStruct st) →
      Compiler.TypeStruct.range t i fs h =
        ⟨h.setType t (.ofStruct (linkLoop t i fs st).1), (linkLoop t i fs st).2⟩ := by
  induction fs with
  | nil =>
    intro i h st hst
    simp [Compiler.TypeStruct.range, linkLoop, Heap.setType_of_typeAt h t _ hst]
  | cons f rest ih =>
    intro i h st hst
    by_cases hk : (st.fieldsMap.get? f.name).isSome = true
    · simp [Compiler.TypeStruct.range, linkLoop, hst, hk, Heap.setType_of_typeAt h t _ hst]
    · simp only [Compiler.TypeStruct.range, linkLoop, hst, hk]
      rw [ih (i + 1) _ _ (Heap.typeAt_setType h t _ _ hst), Heap.setType_setType]
      simp

theorem setParent_append (pre rest : List StructField) (f : StructField) (t : TypePtr) :
    setParent (pre ++ f :: rest) pre.length t = pre ++ { f with parent := some t } :: rest := by
  have hget : (pre ++ f :: rest)[pre.length]? = some f := by
    rw [List.getElem?_append_right (Nat.le_refl _)]
    simp
  unfold setParent
  rw [hget]
  simp

theorem linkLoop_of_distinct (t : TypePtr) (rest : List StructField) :
    ∀ (i : Nat) (pre : List StructField) (st : TypeStruct),
      st.fields = pre ++ rest → pre.length = i → (rest.map (fun f => f.name)).Nodup →
      (∀ f ∈ rest, f.name ∉ st.fieldsMap.keys) →
      linkLoop t i rest st =
        ({ st with
            fields := pre ++ linkedFields rest t
            fieldsMap := ⟨st.fieldsMap.entries ++
              (rest.map (fun f => f.name)).zip (List.range' i rest.length)⟩ },
         .returned ()) := by
  induction rest with
  | nil =>
    intro i pre st hf _ _ _
    rcases st with ⟨a, b, c, ⟨d⟩, e⟩
    simp only [List.append_nil] at hf
    simp [linkLoop, linkedFields, hf]
  | cons f rest ih =>
    intro i pre st hf hi hnd hdis
    have hfk : st.fieldsMap.get? f.name = none :=
      (GoMap.get?_eq_none_iff _ _).mpr (hdis f (List.mem_cons_self _ _))
    simp only [List.map_cons, List.nodup_cons] at hnd
    have hstep := ih (i + 1) (pre ++ [{ f with parent := some t }])
      { st with fieldsMap := st.fieldsMap.set f.name i, fields := setParent st.fields i t }
      (by simp only [hf, ← hi, setParent_append]; simp)
      (by simp [hi]) hnd.2
      (by
        intro g hg
        rw [GoMap.set_of_absent _ _ _ hfk]
        simp only [GoMap.keys, List.map_append, List.map_cons, List.map_nil, List.mem_append,
          List.mem_singleton, not_or]
        refine ⟨hdis g (List.mem_cons_of_mem _ hg), ?_⟩
        intro hgf
        exact hnd.1 (hgf ▸ List.mem_map_of_mem (fun f => f.name) hg))
    simp only [linkLoop, hfk, Option.isSome_none, Bool.false_eq_true, if_false]
    rw [hstep, GoMap.set_of_absent _ _ _ hfk]
    simp [linkedFields, List.range'_succ]

theorem linkLoop_of_repeat (t : TypePtr) (rest : List StructField) :
    ∀ (i : Nat) (st : TypeStruct),
      ¬ ((rest.map (fun f => f.name)).Nodup ∧ ∀ f ∈ rest, f.name ∉ st.fieldsMap.keys) →
      ∃ f ∈ rest, (linkLoop t i rest st).2 = .panicked (.fieldNameUsed st.name f.name) := by
  induction rest with
  | nil => intro i st hn; simp at hn
  | cons f rest ih =>
    intro i st hn
    by_cases hk : (st.fieldsMap.get? f.name).isSome = true
    · exact ⟨f, List.mem_cons_self _ _, by simp [linkLoop, hk]⟩
    · have hfk : st.fieldsMap.get? f.name = none := by
        simpa using hk
      have hnk : f.name ∉ st.fieldsMap.keys := (GoMap.get?_eq_none_iff _ _).mp hfk
      simp only [linkLoop, hk]
      obtain ⟨g, hg, hpanic⟩ := ih (i + 1)
        { st with fieldsMap := st.fieldsMap.set f.name i, fields := setParent st.fields i t }
        (by
          intro hc
          apply hn
          rw [GoMap.set_of_absent _ _ _ hfk] at hc
          simp only [GoMap.keys, List.map_append, List.map_cons, List.map_nil, List.mem_append,
            List.mem_singleton, not_or] at hc
          refine ⟨?_, ?_⟩
          · simp only [List.map_cons, List.nodup_cons]
            refine ⟨?_, hc.1⟩
            intro hmem
            obtain ⟨g, hg, hgn⟩ := List.mem_map.mp hmem
            exact (hc.2 g hg).2 hgn
          · intro g hg
            rcases List.mem_cons.mp hg with rfl | hg
            · exact hnk
            · exact (hc.2 g hg).1)
      exact ⟨g, List.mem_cons_of_mem _ hg, by simpa using hpanic⟩

end Schema

namespace Schema

theorem Heap.systemAt_some (h : Heap) (p : Option TsPtr) (ts : TypeSystem)
    (hts : h.systemAt p = some ts) : ∃ a, p = some a ∧ h.systems[a]? = some ts ∧
      a < h.systems.length := by
  cases p with
  | none => simp [Heap.systemAt] at hts
  | some a =>
    simp only [Heap.systemAt] at hts
    exact ⟨a, rfl, hts, (List.getElem?_eq_some.mp hts).1⟩

/-- A fresh object whose name is already registered: `addType` panics and changes nothing. -/
theorem Compiler.addType_alloc_of_used (c : Compiler) (h : Heap) (obj : SchemaType)
    (ts : TypeSystem) (hts : h.systemAt c.ts = some ts)
    (hused : (ts.types.get? obj.Name).isSome = true) :
    c.addType (h.allocType obj).1 (h.allocType obj).2 =
      ⟨⟨h.systems, h.objs ++ [obj]⟩, .panicked (.typeNameUsed obj.Name)⟩ := by
  rw [Compiler.addType_of_used c _ _ obj ts (Heap.typeAt_allocType_new h obj)
    (by rw [Heap.systemAt_allocType]; exact hts) hused]
  rfl

/-- A fresh object whose name is free: `addType` registers it. -/
theorem Compiler.addType_alloc_of_free (c : Compiler) (h : Heap) (obj : SchemaType)
    (ts : TypeSystem) (a : TsPtr) (hc : c.ts = some a) (hts : h.systemAt c.ts = some ts)
    (hfree : ts.types.get? obj.Name = none) :
    c.addType (h.allocType obj).1 (h.allocType obj).2 =
      ⟨⟨h.systems.set a ⟨ts.types.set obj.Name h.objs.length, ts.list ++ [h.objs.length]⟩,
        h.objs ++ [obj]⟩, .returned ()⟩ := by
  rw [Compiler.addType_of_free c _ _ obj ts a (Heap.typeAt_allocType_new h obj) hc
    (by rw [Heap.systemAt_allocType]; exact hts) hfree]
  rfl

theorem Compiler.TypeStruct_of_used (c : Compiler) (h : Heap) (name : TypeName)
    (fields : structFieldList) (rstrat : StructRepresentation) (ts : TypeSystem)
    (hts : h.systemAt c.ts = some ts) (hused : (ts.types.get? name).isSome = true) :
    c.TypeStruct h name fields rstrat =
      ⟨⟨h.systems, h.objs ++ [.ofStruct ⟨c.ts, name, fields.x, GoMap.make, rstrat⟩]⟩,
        .panicked (.typeNameUsed name)⟩ := by
  unfold Compiler.TypeStruct
  simp only
  rw [Compiler.addType_alloc_of_used c h _ ts hts (by simpa [SchemaType.Name] using hused)]
  simp [SchemaType.Name]

theorem Compiler.TypeStruct_of_free (c : Compiler) (h : Heap) (name : TypeName)
    (fields : structFieldList) (rstrat : StructRepresentation) (ts : TypeSystem) (a : TsPtr)
    (hc : c.ts = some a) (hts : h.systemAt c.ts = some ts)
    (hfree : ts.types.get? name = none) :
    c.TypeStruct h name fields rstrat =
      ⟨⟨h.systems.set a ⟨ts.types.set name h.objs.length, ts.list ++ [h.objs.length]⟩,
        h.objs ++ [.ofStruct (linkLoop h.objs.length 0 fields.x
          ⟨c.ts, name, fields.x, GoMap.make, rstrat⟩).1]⟩,
       (linkLoop h.objs.length 0 fields.x ⟨c.ts, name, fields.x, GoMap.make, rstrat⟩).2⟩ := by
  unfold Compiler.TypeStruct
  simp only
  rw [Compiler.addType_alloc_of_free c h _ ts a hc hts (by simpa [SchemaType.Name] using hfree)]
  simp only [Heap.allocType, SchemaType.Name]
  rw [TypeStruct.range_eq_linkLoop _ _ _ _ ⟨c.ts, name, fields.x, GoMap.make, rstrat⟩
    (by simp [Heap.typeAt])]
  simp [Heap.setType]

theorem Compiler.TypeStruct_of_nil (c : Compiler) (h : Heap) (name : TypeName)
    (fields : structFieldList) (rstrat : StructRepresentation) (hc : c.ts = none) :
    (c.TypeStruct h name fields rstrat).ret = .panicked .nilDereference := by
  unfold Compiler.TypeStruct
  simp only
  rw [Compiler.addType_of_nil c _ _ hc]

theorem linkLoop_start_of_distinct (t : TypePtr) (ts : Option TsPtr) (name : TypeName)
    (fields : List StructField) (rstrat : StructRepresentation)
    (hd : (fields.map (fun f => f.name)).Nodup) :
    linkLoop t 0 fields ⟨ts, name, fields, GoMap.make, rstrat⟩ =
      (⟨ts, name, linkedFields fields t, linkedFieldsMap fields, rstrat⟩, .returned ()) := by
  rw [linkLoop_of_distinct t fields 0 [] _ rfl rfl hd (by simp [GoMap.keys, GoMap.make])]
  simp [linkedFieldsMap, GoMap.make, List.range_eq_range']

/-- The heap and outcome of a declare call on a free name (and distinct field names). -/
theorem Compiler.declare_of_free (c : Compiler) (h : Heap) (d : Decl) (ts : TypeSystem)
    (a : TsPtr) (hc : c.ts = some a) (hts : h.systemAt c.ts = some ts)
    (hfree : ts.types.get? d.name = none) (hdist : d.fieldNamesDistinct) :
    c.declare h d =
      ⟨⟨h.systems.set a ⟨ts.types.set d.name h.objs.length, ts.list ++ [h.objs.length]⟩,
        h.objs ++ [d.typeObject c.ts h.objs.length]⟩, .returned ()⟩ := by
  cases d with
  | typeStruct name fields rstrat =>
    simp only [Compiler.declare, Decl.name, Decl.typeObject] at hfree ⊢
    rw [Compiler.TypeStruct_of_free c h name fields rstrat ts a hc hts hfree,
      linkLoop_start_of_distinct _ _ _ _ _ hdist]
  | _ =>
    simp only [Compiler.declare, Decl.name, Decl.typeObject, Compiler.TypeBool,
      Compiler.TypeString, Compiler.TypeBytes, Compiler.TypeInt, Compiler.TypeFloat,
      Compiler.TypeLink, Compiler.TypeMap, Compiler.TypeList, Compiler.TypeUnion] at hfree ⊢
    rw [Compiler.addType_alloc_of_free c h _ ts a hc hts (by simpa [SchemaType.Name] using hfree)]
    simp [SchemaType.Name]

/-- The heap and outcome of a declare call on a name already registered. -/
theorem Compiler.declare_of_used (c : Compiler) (h : Heap) (d : Decl) (ts : TypeSystem)
    (hts : h.systemAt c.ts = some ts) (hused : (ts.types.get? d.name).isSome = true) :
    ∃ obj, c.declare h d = ⟨⟨h.systems, h.objs ++ [obj]⟩, .panicked (.typeNameUsed d.name)⟩ := by
  cases d with
  | typeStruct name fields rstrat =>
    exact ⟨_, Compiler.TypeStruct_of_used c h name fields rstrat ts hts hused⟩
  | _ =>
    simp only [Compiler.declare, Decl.name, Compiler.TypeBool,
      Compiler.TypeString, Compiler.TypeBytes, Compiler.TypeInt, Compiler.TypeFloat,
      Compiler.TypeLink, Compiler.TypeMap, Compiler.TypeList, Compiler.TypeUnion] at hused ⊢
    rw [Compiler.addType_alloc_of_used c h _ ts hts (by simpa [SchemaType.Name] using hused)]
    exact ⟨_, rfl⟩

/-- C1: in every Compiler state whose in-progress TypeSystem already registers the given
TypeName, each of the ten declare operations panics with `type name already used`, and
the heap's TypeSystem objects (so the lookup map and the enumeration list of the
in-progress TypeSystem) and all Type objects that existed before are unchanged. -/
theorem declare_used_name_panics (c : Compiler) (h : Heap) (d : Decl) (ts : TypeSystem)
    (hts : h.systemAt c.ts = some ts) (hused : (ts.types.get? d.name).isSome = true) :
    (c.declare h d).ret = .panicked (.typeNameUsed d.name) ∧
    (c.declare h d).heap.systems = h.systems ∧
    (c.declare h d).heap.systemAt c.ts = some ts ∧
    h.objs <+: (c.declare h d).heap.objs := by
  obtain ⟨obj, ho⟩ := Compiler.declare_of_used c h d ts hts hused
  rw [ho]
  refine ⟨rfl, rfl, ?_, List.prefix_append _ _⟩
  cases hc : c.ts with
  | none => rw [hc] at hts; simp [Heap.systemAt] at hts
  | some a => rw [hc] at hts; exact hts

end Schema

namespace Schema

/-! ## The Compiler before `Init`, and the invariant on pointers -/

/-- On a Compiler whose field `ts` is nil (no `Init` yet), every declare call panics
with a nil dereference and leaves all TypeSystem objects as they are. -/
theorem Compiler.declare_of_nil (c : Compiler) (h : Heap) (d : Decl) (hc : c.ts = none) :
    (c.declare h d).ret = .panicked .nilDereference ∧
    (c.declare h d).heap.systems = h.systems := by
  cases d with
  | typeStruct name fields rstrat =>
    simp only [Compiler.declare, Compiler.TypeStruct]
    rw [Compiler.addType_of_nil c _ _ hc]
    exact ⟨rfl, rfl⟩
  | _ =>
    simp only [Compiler.declare, Compiler.TypeBool, Compiler.TypeString, Compiler.TypeBytes,
      Compiler.TypeInt, Compiler.TypeFloat, Compiler.TypeLink, Compiler.TypeMap,
      Compiler.TypeList, Compiler.TypeUnion]
    rw [Compiler.addType_of_nil c _ _ hc]
    exact ⟨rfl, rfl⟩

/-- After `Init` the Compiler holds an empty in-progress TypeSystem, whose pointers are
trivially valid. -/
theorem Compiler.Init_system (c : Compiler) (h : Heap) :
    (c.Init h).2.systemAt (c.Init h).1.ts = some ⟨GoMap.make, []⟩ ∧
    (⟨GoMap.make, []⟩ : TypeSystem).pointersValid (c.Init h).2 := by
  refine ⟨by simp [Compiler.Init, Heap.systemAt], ?_, ?_⟩ <;> simp [GoMap.make]

/-- The shape of the heap after any declare call on a Compiler with an in-progress
TypeSystem: one Type object was allocated, and the TypeSystem either is unchanged or has
registered the fresh object under the declared name, which was free. -/
theorem Compiler.declare_heap (c : Compiler) (h : Heap) (d : Decl) (ts : TypeSystem)
    (a : TsPtr) (hc : c.ts = some a) (hts : h.systemAt c.ts = some ts) :
    ∃ obj, (c.declare h d).heap.objs = h.objs ++ [obj] ∧
      ((c.declare h d).heap.systems = h.systems ∨
        (ts.types.get? d.name = none ∧ (c.declare h d).heap.systems =
          h.systems.set a ⟨ts.types.set d.name h.objs.length, ts.list ++ [h.objs.length]⟩)) := by
  cases hfree : ts.types.get? d.name with
  | some p =>
    obtain ⟨obj, ho⟩ := Compiler.declare_of_used c h d ts hts (by simp [hfree])
    exact ⟨obj, by rw [ho], Or.inl (by rw [ho])⟩
  | none =>
    by_cases hdist : d.fieldNamesDistinct
    · rw [Compiler.declare_of_free c h d ts a hc hts hfree hdist]
      exact ⟨_, rfl, Or.inr ⟨rfl, rfl⟩⟩
    · cases d with
      | typeStruct name fields rstrat =>
        simp only [Compiler.declare, Decl.name] at hfree ⊢
        rw [Compiler.TypeStruct_of_free c h name fields rstrat ts a hc hts hfree]
        exact ⟨_, rfl, Or.inr ⟨trivial, rfl⟩⟩
      | _ => exact absurd trivial hdist

/-- Validity of the pointers of the in-progress TypeSystem is kept by every declare call,
whether it returns or panics. -/
theorem Compiler.declare_pointersValid (c : Compiler) (h : Heap) (d : Decl) (ts : TypeSystem)
    (hts : h.systemAt c.ts = some ts) (hv : ts.pointersValid h) :
    ∃ ts2, (c.declare h d).heap.systemAt c.ts = some ts2 ∧
      ts2.pointersValid (c.declare h d).heap := by
  obtain ⟨a, hc, hsys, hlt⟩ := Heap.systemAt_some h c.ts ts hts
  obtain ⟨obj, hobjs, hsystems⟩ := Compiler.declare_heap c h d ts a hc hts
  rcases hsystems with hsame | ⟨hfree, hset⟩
  · refine ⟨ts, ?_, ?_, ?_⟩
    · rw [hc, Heap.systemAt, hsame]
      exact hsys
    · intro e he
      rw [hobjs, List.length_append]
      exact Nat.lt_add_right _ (hv.1 e he)
    · intro p hp
      rw [hobjs, List.length_append]
      exact Nat.lt_add_right _ (hv.2 p hp)
  · refine ⟨⟨ts.types.set d.name h.objs.length, ts.list ++ [h.objs.length]⟩, ?_, ?_, ?_⟩
    · rw [hc, Heap.systemAt, hset, List.getElem?_set_self hlt]
    · intro e he
      rw [GoMap.set_of_absent _ _ _ hfree] at he
      rw [hobjs, List.length_append]
      rcases List.mem_append.mp he with he | he
      · exact Nat.lt_add_right _ (hv.1 e he)
      · simp only [List.mem_singleton] at he
        subst he
        simp
    · intro p hp
      rw [hobjs, List.length_append]
      rcases List.mem_append.mp hp with hp | hp
      · exact Nat.lt_add_right _ (hv.2 p hp)
      · simp only [List.mem_singleton] at hp
        subst hp
        simp

end Schema

namespace Schema

end Schema

namespace Schema

theorem Compiler.TypeStruct_of_no_system (c : Compiler) (h : Heap) (name : TypeName)
    (fields : structFieldList) (rstrat : StructRepresentation)
    (hts : h.systemAt c.ts = none) :
    (c.TypeStruct h name fields rstrat).ret = .panicked .nilDereference := by
  unfold Compiler.TypeStruct
  simp only
  have : c.addType (h.allocType (.ofStruct ⟨c.ts, name, fields.x, GoMap.make, rstrat⟩)).1
      (h.allocType (.ofStruct ⟨c.ts, name, fields.x, GoMap.make, rstrat⟩)).2 =
      ⟨(h.allocType (.ofStruct ⟨c.ts, name, fields.x, GoMap.make, rstrat⟩)).1,
        .panicked .nilDereference⟩ := by
    simp [Compiler.addType, Heap.typeAt_allocType_new, Compiler.mustHaveNameFree,
      Heap.systemAt_allocType, hts]
  rw [this]

/-- When `TypeStruct` returns: there is an in-progress TypeSystem, the name was free, and
the field names are distinct. -/
theorem Compiler.TypeStruct_returned (c : Compiler) (h : Heap) (name : TypeName)
    (fields : structFieldList) (rstrat : StructRepresentation)
    (hok : (c.TypeStruct h name fields rstrat).ret = .returned ()) :
    ∃ ts a, c.ts = some a ∧ h.systemAt c.ts = some ts ∧ ts.types.get? name = none ∧
      fields.names.Nodup := by
  cases hts : h.systemAt c.ts with
  | none =>
    rw [Compiler.TypeStruct_of_no_system c h name fields rstrat hts] at hok
    cases hok
  | some ts =>
    obtain ⟨a, hc, _, _⟩ := Heap.systemAt_some h c.ts ts hts
    cases hfree : ts.types.get? name with
    | some p =>
      rw [Compiler.TypeStruct_of_used c h name fields rstrat ts hts (by simp [hfree])] at hok
      cases hok
    | none =>
      refine ⟨ts, a, hc, rfl, hfree, ?_⟩
      by_contra hnd
      rw [Compiler.TypeStruct_of_free c h name fields rstrat ts a hc hts hfree] at hok
      obtain ⟨f, _, hp⟩ := linkLoop_of_repeat h.objs.length fields.x 0
        ⟨c.ts, name, fields.x, GoMap.make, rstrat⟩
        (fun hc2 => hnd hc2.1)
      simp only at hok
      rw [hp] at hok
      cases hok

/-- C5: with an in-progress TypeSystem in which the type name is unused, `TypeStruct`
panics if and only if two fields of the list have the same name; it then panics inside
the call itself, with `type already has field named` for a field of the list, and it
returns normally exactly when the names are distinct. -/
theorem TypeStruct_panics_iff_repeated_field (c : Compiler) (h : Heap) (name : TypeName)
    (fields : structFieldList) (rstrat : StructRepresentation) (ts : TypeSystem)
    (hts : h.systemAt c.ts = some ts) (hfree : ts.types.get? name = none) :
    ((∃ p, (c.TypeStruct h name fields rstrat).ret = .panicked p) ↔ ¬ fields.names.Nodup) ∧
    ((c.TypeStruct h name fields rstrat).ret = .returned () ↔ fields.names.Nodup) ∧
    (¬ fields.names.Nodup → ∃ f ∈ fields.x,
      (c.TypeStruct h name fields rstrat).ret = .panicked (.fieldNameUsed name f.name)) := by
  obtain ⟨a, hc, _, _⟩ := Heap.systemAt_some h c.ts ts hts
  have hrep : ¬ fields.names.Nodup → ∃ f ∈ fields.x,
      (c.TypeStruct h name fields rstrat).ret = .panicked (.fieldNameUsed name f.name) := by
    intro hnd
    rw [Compiler.TypeStruct_of_free c h name fields rstrat ts a hc hts hfree]
    exact linkLoop_of_repeat h.objs.length fields.x 0
      ⟨c.ts, name, fields.x, GoMap.make, rstrat⟩ (fun hc2 => hnd hc2.1)
  have hdis : fields.names.Nodup → (c.TypeStruct h name fields rstrat).ret = .returned () := by
    intro hnd
    rw [Compiler.TypeStruct_of_free c h name fields rstrat ts a hc hts hfree,
      linkLoop_start_of_distinct _ _ _ _ _ hnd]
  refine ⟨⟨?_, ?_⟩, ⟨?_, hdis⟩, hrep⟩
  · rintro ⟨p, hp⟩ hnd
    rw [hdis hnd] at hp
    cases hp
  · intro hnd
    obtain ⟨f, _, hf⟩ := hrep hnd
    exact ⟨_, hf⟩
  · intro hok
    by_contra hnd
    obtain ⟨f, _, hf⟩ := hrep hnd
    rw [hf] at hok
    cases hok

theorem GoMap.find_zip_range' {κ : Type} [DecidableEq κ] (ks : List κ) (hnd : ks.Nodup) :
    ∀ (s i : Nat) (hi : i < ks.length),
      GoMap.find ks[i] (ks.zip (List.range' s ks.length)) = some (s + i) := by
  induction ks with
  | nil => intro s i hi; simp at hi
  | cons k ks ih =>
    intro s i hi
    simp only [List.nodup_cons] at hnd
    cases i with
    | zero => simp [List.range'_succ, GoMap.find]
    | succ j =>
      have hj : j < ks.length := by simpa using hi
      have hne : ¬ k = ks[j] := fun he => hnd.1 (he ▸ List.getElem_mem hj)
      simp only [List.length_cons, List.range'_succ, List.zip_cons_cons, GoMap.find,
        List.getElem_cons_succ, hne, if_false]
      have h2 := ih hnd.2 (s + 1) j hj
      unfold List.zip at h2
      rw [h2]
      congr 1
      omega

/-- C6: after a `TypeStruct` call that returned, the struct registered under the name is
the object at the fresh address; its field sequence is the given fields in the given
order (each with its name, target type, optional and nullable flags), its name-to-field
mapping has exactly as many entries as there are fields, looking up the name of the
field at position `i` yields the pointer to position `i` of the sequence, and the parent
back-reference of every field is the address of the registered struct. -/
theorem TypeStruct_registers_fields_in_order (c : Compiler) (h : Heap) (name : TypeName)
    (fields : structFieldList) (rstrat : StructRepresentation)
    (hok : (c.TypeStruct h name fields rstrat).ret = .returned ()) :
    ∃ (ts2 : TypeSystem) (st : TypeStruct),
      (c.TypeStruct h name fields rstrat).heap.systemAt c.ts = some ts2 ∧
      ts2.lookup (c.TypeStruct h name fields rstrat).heap name = some (.ofStruct st) ∧
      ts2.types.get? name = some h.objs.length ∧
      st.fields = fields.x.map (fun f => { f with parent := some h.objs.length }) ∧
      st.fields.length = fields.x.length ∧
      st.fieldsMap.len = fields.x.length ∧
      (∀ (i : Nat) (hi : i < fields.x.length),
        st.fieldsMap.get? fields.x[i].name = some i ∧
        st.fields[i]? = some ⟨some h.objs.length, fields.x[i].name, fields.x[i].typ,
          fields.x[i].optional, fields.x[i].nullable⟩) ∧
      ∀ f ∈ st.fields, f.parent = some h.objs.length := by
  obtain ⟨ts, a, hc, hts, hfree, hnd⟩ := Compiler.TypeStruct_returned c h name fields rstrat hok
  obtain ⟨_, _, _, hlt⟩ := Heap.systemAt_some h c.ts ts hts
  rw [Compiler.TypeStruct_of_free c h name fields rstrat ts a hc hts hfree,
    linkLoop_start_of_distinct _ _ _ _ _ hnd]
  refine ⟨⟨ts.types.set name h.objs.length, ts.list ++ [h.objs.length]⟩,
    ⟨c.ts, name, linkedFields fields.x h.objs.length, linkedFieldsMap fields.x, rstrat⟩,
    ?_, ?_, ?_, rfl, ?_, ?_, ?_, ?_⟩
  · have hlt2 : a < h.systems.length := by
      rw [hc] at hts
      exact (List.getElem?_eq_some.mp hts).1
    simp [hc, Heap.systemAt, List.getElem?_set_self, hlt2]
  · simp [TypeSystem.lookup, GoMap.get?_set_self, Heap.typeAt]
  · exact GoMap.get?_set_self _ _ _
  · simp [linkedFields]
  · simp [linkedFieldsMap, GoMap.len]
  · intro i hi
    constructor
    · have hi2 : i < (fields.x.map (fun f => f.name)).length := by simpa using hi
      have hnd2 : (fields.x.map (fun f => f.name)).Nodup := hnd
      have := GoMap.find_zip_range' (fields.x.map (fun f => f.name)) hnd2 0 i hi2
      simp only [List.getElem_map, List.length_map, Nat.zero_add] at this
      simpa [GoMap.get?, linkedFieldsMap, List.range_eq_range'] using this
    · simp [linkedFields, hi]
  · intro f hf
    simp only [linkedFields, List.mem_map] at hf
    obtain ⟨g, _, rfl⟩ := hf
    rfl

/-- C7: with an in-progress TypeSystem in which the type name is unused, `TypeUnion`
returns for every member list, repeats included: the union registered under the name
has exactly the given member sequence (order and duplicates kept) and the given
representation strategy, and it is appended to the enumeration list. -/
theorem TypeUnion_keeps_member_list (c : Compiler) (h : Heap) (name : TypeName)
    (members : List TypeName) (rstrat : UnionRepresentation) (ts : TypeSystem)
    (hts : h.systemAt c.ts = some ts) (hfree : ts.types.get? name = none) :
    (c.TypeUnion h name (MakeUnionMemberList members) rstrat).ret = .returned () ∧
    ∃ ts2 : TypeSystem,
      (c.TypeUnion h name (MakeUnionMemberList members) rstrat).heap.systemAt c.ts =
        some ts2 ∧
      ts2.lookup (c.TypeUnion h name (MakeUnionMemberList members) rstrat).heap name =
        some (.ofUnion ⟨c.ts, name, members, rstrat⟩) ∧
      ts2.list = ts.list ++ [h.objs.length] ∧
      (c.TypeUnion h name (MakeUnionMemberList members) rstrat).heap.typeAt h.objs.length =
        some (.ofUnion ⟨c.ts, name, members, rstrat⟩) := by
  obtain ⟨a, hc, _, hlt⟩ := Heap.systemAt_some h c.ts ts hts
  have hd := Compiler.declare_of_free c h (.typeUnion name (MakeUnionMemberList members) rstrat)
    ts a hc hts hfree trivial
  simp only [Compiler.declare, Decl.name, Decl.typeObject, MakeUnionMemberList] at hd
  simp only [MakeUnionMemberList]
  rw [hd]
  refine ⟨rfl, ⟨ts.types.set name h.objs.length, ts.list ++ [h.objs.length]⟩, ?_, ?_, rfl, ?_⟩
  · simp [hc, Heap.systemAt, List.getElem?_set_self, hlt]
  · simp [TypeSystem.lookup, GoMap.get?_set_self, Heap.typeAt]
  · simp [Heap.typeAt]

end Schema

namespace Schema

/-! ## Lemmas on the keyed carrier constructors -/

theorem GoMap.find_of_mem_nodup {κ ν : Type} [DecidableEq κ] (es : List (κ × ν))
    (hnd : (es.map (fun e => e.1)).Nodup) (k : κ) (v : ν) (hm : (k, v) ∈ es) :
    GoMap.find k es = some v := by
  induction es with
  | nil => simp at hm
  | cons e es ih =>
    simp only [List.map_cons, List.nodup_cons] at hnd
    rcases List.mem_cons.mp hm with rfl | hm
    · simp [GoMap.find]
    · have hne : ¬ e.1 = k := by
        intro he
        apply hnd.1
        rw [he]
        exact List.mem_map_of_mem (fun e => e.1) hm
      simp only [GoMap.find, hne, if_false]
      exact ih hnd.2 hm

theorem tableRange_of_distinct
    (entries : List UnionDiscriminantStringEntry) :
    ∀ x : GoMap String TypeName, (entries.map (fun y => y.Discriminant)).Nodup →
      (∀ y ∈ entries, y.Discriminant ∉ x.keys) →
      MakeUnionDiscriminantStringTable.range entries x =
        .returned ⟨x.entries ++ entries.map (fun y => (y.Discriminant, y.Member))⟩ := by
  induction entries with
  | nil => intro x _ _; simp [MakeUnionDiscriminantStringTable.range]
  | cons y rest ih =>
    intro x hnd hdis
    have hfk : x.get? y.Discriminant = none :=
      (GoMap.get?_eq_none_iff _ _).mpr (hdis y (List.mem_cons_self _ _))
    simp only [List.map_cons, List.nodup_cons] at hnd
    simp only [MakeUnionDiscriminantStringTable.range, hfk, Option.isSome_none,
      Bool.false_eq_true, if_false]
    rw [ih _ hnd.2, GoMap.set_of_absent _ _ _ hfk]
    · simp
    · intro g hg
      rw [GoMap.set_of_absent _ _ _ hfk]
      simp only [GoMap.keys, List.map_append, List.map_cons, List.map_nil, List.mem_append,
        List.mem_singleton, not_or]
      refine ⟨hdis g (List.mem_cons_of_mem _ hg), ?_⟩
      intro hgf
      exact hnd.1 (hgf ▸ List.mem_map_of_mem (fun y => y.Discriminant) hg)

theorem tableRange_of_repeat
    (entries : List UnionDiscriminantStringEntry) :
    ∀ x : GoMap String TypeName,
      ¬ ((entries.map (fun y => y.Discriminant)).Nodup ∧
        ∀ y ∈ entries, y.Discriminant ∉ x.keys) →
      ∃ y ∈ entries, MakeUnionDiscriminantStringTable.range entries x =
        .panicked (.discriminantDuplicated y.Discriminant) := by
  induction entries with
  | nil => intro x hn; simp at hn
  | cons y rest ih =>
    intro x hn
    by_cases hk : (x.get? y.Discriminant).isSome = true
    · exact ⟨y, List.mem_cons_self _ _, by simp [MakeUnionDiscriminantStringTable.range, hk]⟩
    · have hfk : x.get? y.Discriminant = none := by simpa using hk
      have hnk : y.Discriminant ∉ x.keys := (GoMap.get?_eq_none_iff _ _).mp hfk
      simp only [MakeUnionDiscriminantStringTable.range, hk]
      obtain ⟨g, hg, hpanic⟩ := ih (x.set y.Discriminant y.Member)
        (by
          intro hc
          apply hn
          rw [GoMap.set_of_absent _ _ _ hfk] at hc
          simp only [GoMap.keys, List.map_append, List.map_cons, List.map_nil, List.mem_append,
            List.mem_singleton, not_or] at hc
          refine ⟨?_, ?_⟩
          · simp only [List.map_cons, List.nodup_cons]
            refine ⟨?_, hc.1⟩
            intro hmem
            obtain ⟨g, hg, hgn⟩ := List.mem_map.mp hmem
            exact (hc.2 g hg).2 hgn
          · intro g hg
            rcases List.mem_cons.mp hg with rfl | hg
            · exact hnk
            · exact (hc.2 g hg).1)
      exact ⟨g, List.mem_cons_of_mem _ hg, by simpa using hpanic⟩

theorem detailsRange_of_distinct
    (fieldDetails : List StructRepresentation_Map_FieldDetailsEntry) :
    ∀ r : StructRepresentation_Map, (fieldDetails.map (fun fd => fd.FieldName)).Nodup →
      (∀ fd ∈ fieldDetails, fd.FieldName ∉ r.fieldDetails.keys) →
      MakeStructRepresentation_Map.range fieldDetails r =
        .returned ⟨r.parent, ⟨r.fieldDetails.entries ++
          fieldDetails.map (fun fd => (fd.FieldName, fd.Details))⟩⟩ := by
  induction fieldDetails with
  | nil => intro r _ _; simp [MakeStructRepresentation_Map.range]
  | cons y rest ih =>
    intro r hnd hdis
    have hfk : r.fieldDetails.get? y.FieldName = none :=
      (GoMap.get?_eq_none_iff _ _).mpr (hdis y (List.mem_cons_self _ _))
    simp only [List.map_cons, List.nodup_cons] at hnd
    simp only [MakeStructRepresentation_Map.range, hfk, Option.isSome_none,
      Bool.false_eq_true, if_false]
    rw [ih _ hnd.2, GoMap.set_of_absent _ _ _ hfk]
    · simp
    · intro g hg
      rw [GoMap.set_of_absent _ _ _ hfk]
      simp only [GoMap.keys, List.map_append, List.map_cons, List.map_nil, List.mem_append,
        List.mem_singleton, not_or]
      refine ⟨hdis g (List.mem_cons_of_mem _ hg), ?_⟩
      intro hgf
      exact hnd.1 (hgf ▸ List.mem_map_of_mem (fun fd => fd.FieldName) hg)

theorem detailsRange_of_repeat
    (fieldDetails : List StructRepresentation_Map_FieldDetailsEntry) :
    ∀ r : StructRepresentation_Map,
      ¬ ((fieldDetails.map (fun fd => fd.FieldName)).Nodup ∧
        ∀ fd ∈ fieldDetails, fd.FieldName ∉ r.fieldDetails.keys) →
      ∃ fd ∈ fieldDetails, MakeStructRepresentation_Map.range fieldDetails r =
        .panicked (.fieldNameDuplicated fd.FieldName) := by
  induction fieldDetails with
  | nil => intro r hn; simp at hn
  | cons y rest ih =>
    intro r hn
    by_cases hk : (r.fieldDetails.get? y.FieldName).isSome = true
    · exact ⟨y, List.mem_cons_self _ _, by simp [MakeStructRepresentation_Map.range, hk]⟩
    · have hfk : r.fieldDetails.get? y.FieldName = none := by simpa using hk
      have hnk : y.FieldName ∉ r.fieldDetails.keys := (GoMap.get?_eq_none_iff _ _).mp hfk
      simp only [MakeStructRepresentation_Map.range, hk]
      obtain ⟨g, hg, hpanic⟩ := ih
        { r with fieldDetails := r.fieldDetails.set y.FieldName y.Details }
        (by
          intro hc
          apply hn
          simp only at hc
          rw [GoMap.set_of_absent _ _ _ hfk] at hc
          simp only [GoMap.keys, List.map_append, List.map_cons, List.map_nil, List.mem_append,
            List.mem_singleton, not_or] at hc
          refine ⟨?_, ?_⟩
          · simp only [List.map_cons, List.nodup_cons]
            refine ⟨?_, hc.1⟩
            intro hmem
            obtain ⟨g, hg, hgn⟩ := List.mem_map.mp hmem
            exact (hc.2 g hg).2 hgn
          · intro g hg
            rcases List.mem_cons.mp hg with rfl | hg
            · exact hnk
            · exact (hc.2 g hg).1)
      exact ⟨g, List.mem_cons_of_mem _ hg, by simpa using hpanic⟩

/-- C9: `MakeUnionDiscriminantStringTable` panics if and only if two entries share a
discriminant string, and `MakeStructRepresentation_Map` panics if and only if two
entries share a field name; the panic names a repeated key. Otherwise the call returns
a table with exactly one entry per given entry, in which each given key is mapped to
the member, resp. the field details, supplied with it, and which has no other key. -/
theorem keyed_constructors_panic_iff_repeated_key
    (entries : List UnionDiscriminantStringEntry)
    (fieldDetails : List StructRepresentation_Map_FieldDetailsEntry) :
    (((∃ p, MakeUnionDiscriminantStringTable entries = .panicked p) ↔
        ¬ (entries.map (fun y => y.Discriminant)).Nodup) ∧
      (¬ (entries.map (fun y => y.Discriminant)).Nodup →
        ∃ y ∈ entries, MakeUnionDiscriminantStringTable entries =
          .panicked (.discriminantDuplicated y.Discriminant)) ∧
      ((entries.map (fun y => y.Discriminant)).Nodup →
        ∃ tbl, MakeUnionDiscriminantStringTable entries = .returned tbl ∧
          tbl.x.len = entries.length ∧
          tbl.x.keys = entries.map (fun y => y.Discriminant) ∧
          ∀ y ∈ entries, tbl.x.get? y.Discriminant = some y.Member)) ∧
    (((∃ p, MakeStructRepresentation_Map fieldDetails = .panicked p) ↔
        ¬ (fieldDetails.map (fun fd => fd.FieldName)).Nodup) ∧
      (¬ (fieldDetails.map (fun fd => fd.FieldName)).Nodup →
        ∃ fd ∈ fieldDetails, MakeStructRepresentation_Map fieldDetails =
          .panicked (.fieldNameDuplicated fd.FieldName)) ∧
      ((fieldDetails.map (fun fd => fd.FieldName)).Nodup →
        ∃ r, MakeStructRepresentation_Map fieldDetails = .returned (.ofMap r) ∧
          r.fieldDetails.len = fieldDetails.length ∧
          r.fieldDetails.keys = fieldDetails.map (fun fd => fd.FieldName) ∧
          ∀ fd ∈ fieldDetails, r.fieldDetails.get? fd.FieldName = some fd.Details)) := by
  have hU1 : ¬ (entries.map (fun y => y.Discriminant)).Nodup →
      ∃ y ∈ entries, MakeUnionDiscriminantStringTable entries =
        .panicked (.discriminantDuplicated y.Discriminant) := by
    intro hnd
    obtain ⟨y, hy, hp⟩ := tableRange_of_repeat entries GoMap.make
      (fun hc => hnd hc.1)
    exact ⟨y, hy, by simp [MakeUnionDiscriminantStringTable, hp]⟩
  have hU2 : (entries.map (fun y => y.Discriminant)).Nodup →
      ∃ tbl, MakeUnionDiscriminantStringTable entries = .returned tbl ∧
        tbl.x.len = entries.length ∧
        tbl.x.keys = entries.map (fun y => y.Discriminant) ∧
        ∀ y ∈ entries, tbl.x.get? y.Discriminant = some y.Member := by
    intro hnd
    have hr := tableRange_of_distinct entries GoMap.make hnd
      (by simp [GoMap.keys, GoMap.make])
    refine ⟨⟨⟨entries.map (fun y => (y.Discriminant, y.Member))⟩⟩, ?_, ?_, ?_, ?_⟩
    · unfold MakeUnionDiscriminantStringTable
      rw [hr]
      simp [GoMap.make]
    · simp [GoMap.len]
    · simp [GoMap.keys]
    · intro y hy
      apply GoMap.find_of_mem_nodup
      · simpa [Function.comp_def] using hnd
      · exact List.mem_map_of_mem (fun y => (y.Discriminant, y.Member)) hy
  have hS1 : ¬ (fieldDetails.map (fun fd => fd.FieldName)).Nodup →
      ∃ fd ∈ fieldDetails, MakeStructRepresentation_Map fieldDetails =
        .panicked (.fieldNameDuplicated fd.FieldName) := by
    intro hnd
    obtain ⟨y, hy, hp⟩ := detailsRange_of_repeat fieldDetails
      ⟨none, GoMap.make⟩ (fun hc => hnd hc.1)
    exact ⟨y, hy, by simp [MakeStructRepresentation_Map, hp]⟩
  have hS2 : (fieldDetails.map (fun fd => fd.FieldName)).Nodup →
      ∃ r, MakeStructRepresentation_Map fieldDetails = .returned (.ofMap r) ∧
        r.fieldDetails.len = fieldDetails.length ∧
        r.fieldDetails.keys = fieldDetails.map (fun fd => fd.FieldName) ∧
        ∀ fd ∈ fieldDetails, r.fieldDetails.get? fd.FieldName = some fd.Details := by
    intro hnd
    have hr := detailsRange_of_distinct fieldDetails ⟨none, GoMap.make⟩
      hnd (by simp [GoMap.keys, GoMap.make])
    refine ⟨⟨none, ⟨fieldDetails.map (fun fd => (fd.FieldName, fd.Details))⟩⟩, ?_, ?_, ?_, ?_⟩
    · unfold MakeStructRepresentation_Map
      rw [hr]
      simp [GoMap.make]
    · simp [GoMap.len]
    · simp [GoMap.keys]
    · intro y hy
      apply GoMap.find_of_mem_nodup
      · simpa [Function.comp_def] using hnd
      · exact List.mem_map_of_mem (fun fd => (fd.FieldName, fd.Details)) hy
  refine ⟨⟨⟨?_, ?_⟩, hU1, hU2⟩, ⟨⟨?_, ?_⟩, hS1, hS2⟩⟩
  · rintro ⟨p, hp⟩ hnd
    obtain ⟨tbl, ht, _⟩ := hU2 hnd
    rw [ht] at hp
    cases hp
  · intro hnd
    obtain ⟨y, _, hy⟩ := hU1 hnd
    exact ⟨_, hy⟩
  · rintro ⟨p, hp⟩ hnd
    obtain ⟨r, ht, _⟩ := hS2 hnd
    rw [ht] at hp
    cases hp
  · intro hnd
    obtain ⟨y, _, hy⟩ := hS1 hnd
    exact ⟨_, hy⟩

end Schema

namespace Schema

/-- Witness of C1: after `Init` and `TypeBool("A")`, declaring an Int named `A`. -/
theorem declare_used_name_panics_witness :
    (sampleHeapA.systemAt sampleCompiler.ts = some sampleSystemA ∧
      (sampleSystemA.types.get? (Decl.typeInt "A").name).isSome = true) ∧
    ((sampleCompiler.declare sampleHeapA (.typeInt "A")).ret = .panicked (.typeNameUsed "A") ∧
      (sampleCompiler.declare sampleHeapA (.typeInt "A")).heap.systems = sampleHeapA.systems ∧
      (sampleCompiler.declare sampleHeapA (.typeInt "A")).heap.systemAt sampleCompiler.ts =
        some sampleSystemA ∧
      sampleHeapA.objs <+: (sampleCompiler.declare sampleHeapA (.typeInt "A")).heap.objs) :=
  ⟨⟨by decide, by decide⟩,
    declare_used_name_panics sampleCompiler sampleHeapA (.typeInt "A") sampleSystemA
      (by decide) (by decide)⟩

/-- C3: `Compile` panics with `TODO` in every state; in particular after the well-formed
declarations `Int` and `Point{x: Int, y: Int}`, which both returned and leave no dangling
reference, it panics instead of returning the TypeSystem and an empty error list. -/
theorem Compile_panics_on_well_formed_declarations :
    (∀ (c : Compiler) (h : Heap), (c.Compile h).2.ret = .panicked .todo) ∧
    (sampleCompiler.TypeInt sampleHeap "Int").ret = .returned () ∧
    (sampleCompiler.TypeStruct (sampleCompiler.TypeInt sampleHeap "Int").heap "Point"
      samplePointFields sampleMapRepresentation).ret = .returned () ∧
    (sampleCompiler.Compile sampleHeapPoint).2.ret = .panicked .todo :=
  ⟨fun _ _ => rfl, by decide, by decide, rfl⟩

/-- C4: after the declarations `B` and `Union U{A, B}` keyed by `a: A, b: B`, where no
type `A` is declared, `Compile` panics with `TODO`: it returns no error list at all, so
no entry naming the dangling reference `A`. -/
theorem Compile_panics_on_dangling_reference :
    (sampleCompiler.TypeUnion (sampleCompiler.TypeBool sampleHeap "B").heap "U"
      (MakeUnionMemberList ["A", "B"]) sampleKeyedRepresentation).ret = .returned () ∧
    sampleHeapUnion.typeAt 1 =
      some (.ofUnion ⟨some 0, "U", ["A", "B"],
        .ofKeyed ⟨none, ⟨[("a", "A"), ("b", "B")]⟩⟩⟩) ∧
    (∃ ts, sampleHeapUnion.systemAt sampleCompiler.ts = some ts ∧
      ts.lookup sampleHeapUnion "U" = sampleHeapUnion.typeAt 1 ∧
      ts.lookup sampleHeapUnion "A" = none) ∧
    (sampleCompiler.Compile sampleHeapUnion).2.ret = .panicked .todo :=
  ⟨by decide, by decide, ⟨⟨⟨[("B", 0), ("U", 1)]⟩, [0, 1]⟩, by decide, by decide, by decide⟩,
    rfl⟩

/-- The body of `Compile` is the statement `panic("TODO")`: in every state the call
changes neither the Compiler nor the heap. After `Init` and `TypeBool("A")` it panics, the
field `ts` still points to the in-progress TypeSystem, and a later `TypeBool("B")` on that
Compiler returns and adds `B` to it. No call of `Compile` returns, so this says nothing
about the state after a successful one. -/
theorem Compile_does_not_clear_ts :
    (∀ (c : Compiler) (h : Heap), (c.Compile h).1 = c ∧ (c.Compile h).2.heap = h) ∧
    (sampleCompiler.Compile sampleHeapA).2.ret = .panicked .todo ∧
    (sampleCompiler.Compile sampleHeapA).1.ts = some 0 ∧
    ((sampleCompiler.Compile sampleHeapA).1.TypeBool
      (sampleCompiler.Compile sampleHeapA).2.heap "B").ret = .returned () ∧
    ((sampleCompiler.Compile sampleHeapA).1.TypeBool
      (sampleCompiler.Compile sampleHeapA).2.heap "B").heap.systemAt (some 0) =
        some ⟨⟨[("A", 0), ("B", 1)]⟩, [0, 1]⟩ ∧
    sampleHeapA.systemAt (some 0) = some ⟨⟨[("A", 0)]⟩, [0]⟩ :=
  ⟨fun _ _ => ⟨rfl, rfl⟩, rfl, by decide, by decide, by decide, by decide⟩

/-- Witness of C5: after `Init`, the struct `S` with the fields `x, x` panics, and with
the fields `x, y` it returns. -/
theorem TypeStruct_panics_iff_repeated_field_witness :
    (sampleHeap.systemAt sampleCompiler.ts = some ⟨GoMap.make, []⟩ ∧
      (⟨GoMap.make, []⟩ : TypeSystem).types.get? "S" = none) ∧
    ¬ sampleRepeatFields.names.Nodup ∧
    (∃ p, (sampleCompiler.TypeStruct sampleHeap "S" sampleRepeatFields (.other "tuple")).ret =
      .panicked p) :=
  ⟨⟨by decide, by decide⟩, by decide,
    (TypeStruct_panics_iff_repeated_field sampleCompiler sampleHeap "S" sampleRepeatFields
      (.other "tuple") ⟨GoMap.make, []⟩ (by decide) (by decide)).1.mpr (by decide)⟩

/-- Witness of C6: after `Init`, the struct `Point` with the fields `x, y`. -/
theorem TypeStruct_registers_fields_in_order_witness :
    (sampleCompiler.TypeStruct sampleHeap "Point" samplePointFields (.other "tuple")).ret =
      .returned () ∧
    ∃ (ts2 : TypeSystem) (st : TypeStruct),
      (sampleCompiler.TypeStruct sampleHeap "Point" samplePointFields
        (.other "tuple")).heap.systemAt sampleCompiler.ts = some ts2 ∧
      ts2.lookup (sampleCompiler.TypeStruct sampleHeap "Point" samplePointFields
        (.other "tuple")).heap "Point" = some (.ofStruct st) ∧
      ts2.types.get? "Point" = some 0 ∧
      st.fields = samplePointFields.x.map (fun f => { f with parent := some 0 }) ∧
      st.fields.length = 2 ∧
      st.fieldsMap.len = 2 ∧
      (∀ (i : Nat) (hi : i < samplePointFields.x.length),
        st.fieldsMap.get? samplePointFields.x[i].name = some i ∧
        st.fields[i]? = some ⟨some 0, samplePointFields.x[i].name, samplePointFields.x[i].typ,
          samplePointFields.x[i].optional, samplePointFields.x[i].nullable⟩) ∧
      ∀ f ∈ st.fields, f.parent = some 0 :=
  ⟨by decide,
    TypeStruct_registers_fields_in_order sampleCompiler sampleHeap "Point" samplePointFields
      (.other "tuple") (by decide)⟩

/-- Witness of C7: after `Init`, the union `U` with the member list `A, A`. -/
theorem TypeUnion_keeps_member_list_witness :
    (sampleHeap.systemAt sampleCompiler.ts = some ⟨GoMap.make, []⟩ ∧
      (⟨GoMap.make, []⟩ : TypeSystem).types.get? "U" = none) ∧
    (sampleCompiler.TypeUnion sampleHeap "U" (MakeUnionMemberList ["A", "A"])
      sampleKeyedRepresentation).ret = .returned () ∧
    (sampleCompiler.TypeUnion sampleHeap "U" (MakeUnionMemberList ["A", "A"])
      sampleKeyedRepresentation).heap.typeAt 0 =
        some (.ofUnion ⟨some 0, "U", ["A", "A"], sampleKeyedRepresentation⟩) :=
  have hw := TypeUnion_keeps_member_list sampleCompiler sampleHeap "U" ["A", "A"]
    sampleKeyedRepresentation ⟨GoMap.make, []⟩ (by decide) (by decide)
  ⟨⟨by decide, by decide⟩, hw.1, by
    obtain ⟨_, _, _, _, h4⟩ := hw.2
    exact h4⟩

/-- Witness of C9: the entries `a: A, b: B` give a table of two entries, and the
entries `a: A, a: B` make the constructor panic. -/
theorem keyed_constructors_panic_iff_repeated_key_witness :
    (∃ tbl, MakeUnionDiscriminantStringTable [⟨"a", "A"⟩, ⟨"b", "B"⟩] = .returned tbl ∧
      tbl.x.len = 2 ∧ tbl.x.keys = ["a", "b"] ∧
      ∀ y ∈ ([⟨"a", "A"⟩, ⟨"b", "B"⟩] : List UnionDiscriminantStringEntry),
        tbl.x.get? y.Discriminant = some y.Member) ∧
    (∃ fd ∈ ([⟨"x", ⟨some "X", none⟩⟩, ⟨"x", ⟨none, none⟩⟩] :
        List StructRepresentation_Map_FieldDetailsEntry),
      MakeStructRepresentation_Map [⟨"x", ⟨some "X", none⟩⟩, ⟨"x", ⟨none, none⟩⟩] =
        .panicked (.fieldNameDuplicated fd.FieldName)) :=
  ⟨(keyed_constructors_panic_iff_repeated_key [⟨"a", "A"⟩, ⟨"b", "B"⟩] []).1.2.2 (by decide),
    (keyed_constructors_panic_iff_repeated_key []
      [⟨"x", ⟨some "X", none⟩⟩, ⟨"x", ⟨none, none⟩⟩]).2.2.1 (by decide)⟩

end Schema

namespace Gendemo

open Schema (Outcome PanicValue)

/-- C10: round trip for the Int kind. For every heap and every integer `v`, `NewBuilder`
followed by `AssignInt(v)` returns a nil error; `Build` then returns an Int node `n`
with `n.AsInt() = (v, nil)` and `n.Int() = v`, and the node `n.Representation()` has the
same `AsInt`; likewise `FromInt(v)` returns a node and a nil error, and `Int()` of that
node is `v`. -/
theorem int_round_trip (h : NodeHeap) (v : GoInt) :
    ((_Int__Style.NewBuilder h).1.AssignInt (_Int__Style.NewBuilder h).2 v).ret =
      .returned none ∧
    (∃ n : IntPtr,
      ((_Int__Style.NewBuilder h).1.AssignInt (_Int__Style.NewBuilder h).2 v).recv.Build
        ((_Int__Style.NewBuilder h).1.AssignInt (_Int__Style.NewBuilder h).2 v).heap =
          .returned (.ofInt n) ∧
      Node.AsInt ((_Int__Style.NewBuilder h).1.AssignInt (_Int__Style.NewBuilder h).2 v).heap
        (.ofInt n) = .returned (v, none) ∧
      IntNode.Int ((_Int__Style.NewBuilder h).1.AssignInt (_Int__Style.NewBuilder h).2 v).heap
        n = .returned v ∧
      Node.AsInt ((_Int__Style.NewBuilder h).1.AssignInt (_Int__Style.NewBuilder h).2 v).heap
        (IntNode.Representation n) = .returned (v, none)) ∧
    ∃ p : IntPtr, (_Int__Style.FromInt h v).ret = .returned (p, none) ∧
      IntNode.Int (_Int__Style.FromInt h v).heap p = .returned v := by
  refine ⟨?_, ⟨some h.ints.length, ?_, ?_, ?_, ?_⟩, ⟨some h.ints.length, ?_, ?_⟩⟩ <;>
    simp [_Int__Style.NewBuilder, _Int__Builder.Reset, _Int__Builder.AssignInt,
      _Int__Assembler.AssignInt, _Int__Builder.Build, NodeHeap.allocInt, NodeHeap.allocMaybe,
      NodeHeap.maybeAt, NodeHeap.intAt, NodeHeap.setInt, NodeHeap.setMaybe, Node.AsInt,
      IntNode.AsInt, IntNode.Int, IntNode.Representation, _Int__Style.FromInt, default]

end Gendemo

namespace Gendemo

open Schema (Outcome PanicValue)

/-! ## Build, Maybe and the node accessors -/

/-- C11: `Build` on a Builder panics if and only if the Maybe of its assembler is not in
state Value; when the state is Value it returns the assembled node, the one the
assembler wrote to. In particular `Build` on a Builder fresh from `NewBuilder`, or
freshly `Reset`, panics with `cannot call Build on an assembler that is not finished`. -/
theorem Build_panics_iff_not_Value (nb : _Int__Builder) (h : NodeHeap) :
    ((∃ p, nb.Build h = .panicked p) ↔ h.maybeAt nb._Int__Assembler.m ≠ some .Maybe_Value) ∧
    (h.maybeAt nb._Int__Assembler.m = some .Maybe_Value →
      nb.Build h = .returned (.ofInt nb._Int__Assembler.w)) ∧
    (_Int__Style.NewBuilder h).1.Build (_Int__Style.NewBuilder h).2 =
      .panicked .buildUnfinished ∧
    (nb.Reset h).1.Build (nb.Reset h).2 = .panicked .buildUnfinished := by
  refine ⟨?_, ?_, ?_, ?_⟩
  · unfold _Int__Builder.Build
    cases hm : h.maybeAt nb._Int__Assembler.m with
    | none => simp
    | some m =>
      by_cases hv : m = .Maybe_Value
      · simp [hv]
      · simp [hv]
  · intro hv
    simp [_Int__Builder.Build, hv]
  · simp [_Int__Style.NewBuilder, _Int__Builder.Reset, _Int__Builder.Build, NodeHeap.allocInt,
      NodeHeap.allocMaybe, NodeHeap.maybeAt, default]
  · simp [_Int__Builder.Reset, _Int__Builder.Build, NodeHeap.allocInt,
      NodeHeap.allocMaybe, NodeHeap.maybeAt, default]

/-- C14: for every MaybeInt, `AsNode` returns the distinguished Undefined node in state
Absent, the distinguished Null node in state Null, and the wrapped Int node in state
Value; and in state Null `Exists` is false and `IsNull` is true. -/
theorem MaybeInt_AsNode_by_state (v : IntPtr) :
    MaybeInt.AsNode (some ⟨.Maybe_Absent, v⟩) = .returned .Undef ∧
    MaybeInt.AsNode (some ⟨.Maybe_Null, v⟩) = .returned .Null ∧
    MaybeInt.AsNode (some ⟨.Maybe_Value, v⟩) = .returned (.ofInt v) ∧
    MaybeInt.Exists (some ⟨.Maybe_Null, v⟩) = .returned false ∧
    MaybeInt.IsNull (some ⟨.Maybe_Null, v⟩) = .returned true :=
  ⟨rfl, rfl, rfl, rfl, rfl⟩

/-- C15: for every MaybeInt, `Must` panics if and only if the state is not Value, which
is exactly when `Exists` is false (so in the states Absent and Null); in state Value
`Must` returns the wrapped Int. -/
theorem MaybeInt_Must_panics_iff_not_Value (s : _Int__Maybe) :
    ((∃ p, MaybeInt.Must (some s) = .panicked p) ↔ s.m ≠ .Maybe_Value) ∧
    (MaybeInt.Exists (some s) = .returned false ↔ s.m ≠ .Maybe_Value) ∧
    (s.m ≠ .Maybe_Value → MaybeInt.Must (some s) = .panicked .unboxRejected) ∧
    (s.m = .Maybe_Value → MaybeInt.Must (some s) = .returned s.v) ∧
    (∀ v, MaybeInt.Must (some ⟨.Maybe_Absent, v⟩) = .panicked .unboxRejected ∧
      MaybeInt.Must (some ⟨.Maybe_Null, v⟩) = .panicked .unboxRejected ∧
      MaybeInt.Must (some ⟨.Maybe_Value, v⟩) = .returned v) := by
  refine ⟨?_, ?_, ?_, ?_, fun v => ⟨rfl, rfl, rfl⟩⟩
  · by_cases hv : s.m = .Maybe_Value <;> simp [MaybeInt.Must, MaybeInt.Exists, hv]
  · by_cases hv : s.m = .Maybe_Value <;> simp [MaybeInt.Exists, hv]
  · intro hv
    simp [MaybeInt.Must, MaybeInt.Exists, hv]
  · intro hv
    simp [MaybeInt.Must, MaybeInt.Exists, hv]

/-- C19, the claim as stated fails: for the Int node built by `FromInt(5)`, `MapIterator`
and `ListIterator` return the nil iterator; their result has no error part, so no
WrongKind error is reported. -/
theorem Int_iterators_are_nil :
    IntNode.MapIterator (some 0) = none ∧ IntNode.ListIterator (some 0) = none ∧
    (_Int__Style.FromInt ⟨[], []⟩ 5).ret = .returned (some 0, none) :=
  ⟨rfl, rfl, rfl⟩

/-- C19, amended: for every Int node, `LookupString`, `LookupIndex`, `LookupNode`,
`LookupSegment`, `AsBool`, `AsFloat`, `AsString`, `AsBytes` and `AsLink` return a
WrongKind error and no usable value; `MapIterator` and `ListIterator` return the nil
iterator; `AsInt` of a node whose cell holds `c` returns `c.x` and a nil error, and it
returns an error for no node. -/
theorem Int_mismatched_kind_accessors (h : NodeHeap) (n : IntPtr) (idx : GoInt)
    (seg : PathSegment) :
    IntNode.LookupString n = .returned (none, some (.ErrWrongKind "gendemo.Int" "LookupString")) ∧
    IntNode.LookupIndex n idx =
      .returned (none, some (.ErrWrongKind "gendemo.Int" "LookupIndex")) ∧
    IntNode.LookupNode n = .returned (none, some (.ErrWrongKind "gendemo.Int" "LookupNode")) ∧
    IntNode.LookupSegment n seg =
      .returned (none, some (.ErrWrongKind "gendemo.Int" "LookupSegment")) ∧
    IntNode.AsBool n = .returned (false, some (.ErrWrongKind "gendemo.Int" "AsBool")) ∧
    IntNode.AsFloat n = .returned (⟨0⟩, some (.ErrWrongKind "gendemo.Int" "AsFloat")) ∧
    IntNode.AsString n = .returned ("", some (.ErrWrongKind "gendemo.Int" "AsString")) ∧
    IntNode.AsBytes n = .returned ([], some (.ErrWrongKind "gendemo.Int" "AsBytes")) ∧
    IntNode.AsLink n = .returned (none, some (.ErrWrongKind "gendemo.Int" "AsLink")) ∧
    IntNode.MapIterator n = none ∧
    IntNode.ListIterator n = none ∧
    (∀ c, h.intAt n = some c → IntNode.AsInt h n = .returned (c.x, none)) ∧
    (∀ x e, IntNode.AsInt h n ≠ .returned (x, some e)) := by
  refine ⟨rfl, rfl, rfl, rfl, rfl, rfl, rfl, rfl, rfl, rfl, rfl, ?_, ?_⟩
  · intro c hc
    simp [IntNode.AsInt, hc]
  · intro x e
    unfold IntNode.AsInt
    cases h.intAt n <;> simp

/-- C20: for every Int node, whatever its value, `Length` returns the sentinel `-1` and
not `0`, `ReprKind` is Int, and the node is neither null nor undefined; so for the node
`FromInt(v)` returns, for every `v`, the value 0 included. -/
theorem Int_Length_is_sentinel (h : NodeHeap) (n : IntPtr) (v : GoInt) :
    IntNode.Length n = -1 ∧ IntNode.Length n ≠ 0 ∧
    IntNode.ReprKind n = .ReprKind_Int ∧
    IntNode.IsNull n = false ∧ IntNode.IsUndefined n = false ∧
    (∃ p, (_Int__Style.FromInt h v).ret = .returned (p, none) ∧
      IntNode.Int (_Int__Style.FromInt h v).heap p = .returned v ∧
      IntNode.Length p = -1 ∧ IntNode.ReprKind p = .ReprKind_Int ∧
      IntNode.IsNull p = false ∧ IntNode.IsUndefined p = false) := by
  refine ⟨rfl, by simp [IntNode.Length], rfl, rfl, rfl, some h.ints.length, rfl, ?_, rfl, rfl, rfl,
    rfl⟩
  simp [_Int__Style.FromInt, IntNode.Int, NodeHeap.allocInt, NodeHeap.intAt]

end Gendemo

namespace Gendemo

open Schema (Outcome PanicValue)

/-! ## Lemmas on the heap of package `gendemo` -/

theorem NodeHeap.intAt_some (h : NodeHeap) (a : Nat) (c : _Int)
    (hc : h.intAt (some a) = some c) : a < h.ints.length ∧ h.ints[a]? = some c := by
  simp only [NodeHeap.intAt] at hc
  exact ⟨(List.getElem?_eq_some.mp hc).1, hc⟩

theorem NodeHeap.maybeAt_some (h : NodeHeap) (p : MaybePtr) (m : Maybe)
    (hm : h.maybeAt p = some m) : ∃ a, p = some a ∧ a < h.maybes.length ∧
      h.maybes[a]? = some m := by
  cases p with
  | none => simp [NodeHeap.maybeAt] at hm
  | some a =>
    simp only [NodeHeap.maybeAt] at hm
    exact ⟨a, rfl, (List.getElem?_eq_some.mp hm).1, hm⟩

theorem NodeHeap.intAt_setMaybe (h : NodeHeap) (a : Nat) (m : Maybe) (p : IntPtr) :
    (h.setMaybe a m).intAt p = h.intAt p := by
  cases p <;> rfl

theorem NodeHeap.maybeAt_setInt (h : NodeHeap) (a : Nat) (c : _Int) (p : MaybePtr) :
    (h.setInt a c).maybeAt p = h.maybeAt p := by
  cases p <;> rfl

theorem NodeHeap.maybeAt_setMaybe_self (h : NodeHeap) (a : Nat) (m : Maybe)
    (ha : a < h.maybes.length) : (h.setMaybe a m).maybeAt (some a) = some m := by
  simp [NodeHeap.setMaybe, NodeHeap.maybeAt, List.getElem?_set_self ha]

theorem NodeHeap.intAt_setInt_self (h : NodeHeap) (a : Nat) (c : _Int)
    (ha : a < h.ints.length) : (h.setInt a c).intAt (some a) = some c := by
  simp [NodeHeap.setInt, NodeHeap.intAt, List.getElem?_set_self ha]

theorem NodeHeap.intAt_setInt_of_ne (h : NodeHeap) (a b : Nat) (c : _Int) (hne : a ≠ b) :
    (h.setInt a c).intAt (some b) = h.intAt (some b) := by
  simp [NodeHeap.setInt, NodeHeap.intAt, List.getElem?_set_ne hne]

theorem NodeHeap.intAt_allocInt_old (h : NodeHeap) (c : _Int) (b : Nat)
    (hb : b < h.ints.length) : (h.allocInt c).1.intAt (some b) = h.intAt (some b) := by
  simp [NodeHeap.allocInt, NodeHeap.intAt, List.getElem?_append_left hb]

theorem NodeHeap.intAt_allocInt_new (h : NodeHeap) (c : _Int) :
    (h.allocInt c).1.intAt (h.allocInt c).2 = some c := by
  simp [NodeHeap.allocInt, NodeHeap.intAt]

/-! ## Lemmas on the assign methods -/

/-- In a finished assembler `AssignInt` panics and changes nothing. -/
theorem AssignInt_of_finished (na : _Int__Assembler) (h : NodeHeap) (m : Maybe) (v : GoInt)
    (hm : h.maybeAt na.m = some m) (hfin : m = .Maybe_Value ∨ m = .Maybe_Null) :
    na.AssignInt h v = ⟨na, h, .panicked .alreadyFinished⟩ := by
  obtain ⟨ma, hp, _, _⟩ := NodeHeap.maybeAt_some h na.m m hm
  unfold _Int__Assembler.AssignInt
  rw [hm, hp]
  simp [hfin]

/-- In a finished assembler `AssignNull` panics and changes nothing. -/
theorem AssignNull_of_finished (na : _Int__Assembler) (h : NodeHeap) (m : Maybe)
    (hm : h.maybeAt na.m = some m) (hfin : m = .Maybe_Value ∨ m = .Maybe_Null) :
    na.AssignNull h = ⟨na, h, .panicked .alreadyFinished⟩ := by
  obtain ⟨ma, hp, _, _⟩ := NodeHeap.maybeAt_some h na.m m hm
  unfold _Int__Assembler.AssignNull
  rw [hm, hp]
  rcases hfin with rfl | rfl <;> simp [allowNull]

/-- The outcome of `AssignInt` in an assembler that is not finished and whose value
cell exists. -/
theorem AssignInt_of_unfinished (na : _Int__Assembler) (h : NodeHeap) (m : Maybe) (v : GoInt)
    (ma wa : Nat) (c : _Int) (hp : na.m = some ma) (hm : h.maybeAt na.m = some m)
    (hv : m ≠ .Maybe_Value) (hn : m ≠ .Maybe_Null) (hw : na.w = some wa)
    (hc : h.intAt na.w = some c) :
    na.AssignInt h v = ⟨na, (h.setInt wa ⟨v⟩).setMaybe ma .Maybe_Value, .returned none⟩ := by
  rcases na with ⟨w0, m0⟩
  simp only at hp hw hm hc
  subst hp hw
  unfold _Int__Assembler.AssignInt
  simp only [hm, hv, hn, or_self, if_false]
  simp [hc]

/-- The outcome of `AssignInt` in an assembler that is not finished and has no value
cell yet: a cell is allocated. -/
theorem AssignInt_of_detached (na : _Int__Assembler) (h : NodeHeap) (m : Maybe) (v : GoInt)
    (ma : Nat) (hp : na.m = some ma) (hm : h.maybeAt na.m = some m)
    (hv : m ≠ .Maybe_Value) (hn : m ≠ .Maybe_Null) (hw : na.w = none) :
    na.AssignInt h v =
      ⟨{ na with w := some h.ints.length },
        ((h.allocInt default).1.setInt h.ints.length ⟨v⟩).setMaybe ma .Maybe_Value,
        .returned none⟩ := by
  rcases na with ⟨w0, m0⟩
  simp only at hp hw hm
  subst hp hw
  unfold _Int__Assembler.AssignInt
  simp only [hm, hv, hn, or_self, if_false, if_true]
  simp [NodeHeap.allocInt, NodeHeap.intAt, default]

end Gendemo

namespace Gendemo

open Schema (Outcome PanicValue)

/-- In a finished assembler `AssignNode` of an Int node panics and changes nothing. -/
theorem AssignNode_ofInt_of_finished (na : _Int__Assembler) (h : NodeHeap) (m : Maybe)
    (n : IntPtr) (hm : h.maybeAt na.m = some m)
    (hfin : m = .Maybe_Value ∨ m = .Maybe_Null) :
    na.AssignNode h (.ofInt n) = ⟨na, h, .panicked .alreadyFinished⟩ := by
  obtain ⟨ma, hp, _, _⟩ := NodeHeap.maybeAt_some h na.m m hm
  unfold _Int__Assembler.AssignNode
  simp only [Node.IsNull, IntNode.IsNull, Bool.false_eq_true, if_false]
  rw [hm, hp]
  simp [hfin]

/-- An Int node never returns an error from `AsInt`. -/
theorem IntNode.AsInt_no_error (h : NodeHeap) (n : IntPtr) (x : GoInt) (e : GoError) :
    IntNode.AsInt h n ≠ .returned (x, some e) := by
  unfold IntNode.AsInt
  cases h.intAt n <;> simp

/-- C12, the claim as stated fails: in the Builder that `AssignInt(7)` has finished (its
Maybe is in state Value), the wrong-kind operation `AssignBool` returns a WrongKind
error and does not panic, and so does `AssignNode` of the Undefined node. -/
theorem finished_assembler_wrong_kind_returns_error :
    sampleFinished.2.maybeAt sampleFinished.1._Int__Assembler.m = some .Maybe_Value ∧
    sampleFinished.1._Int__Assembler.AssignBool =
      .returned (some (.ErrWrongKind "gendemo.Int" "AssignBool")) ∧
    (sampleFinished.1.call sampleFinished.2 .AssignBool).2 = none ∧
    (sampleFinished.1._Int__Assembler.AssignNode sampleFinished.2 .Undef).ret =
      .returned (some (.ErrWrongKind "undefined" "AsInt")) := by
  decide

/-- C12, amended: in an assembler that has finished (Maybe in state Value or Null),
`AssignInt`, `AssignNull`, and `AssignNode` of a null node, of an Int node or of any
node whose `AsInt` succeeds panic with `already finished`; `AssignNode` of a non-null
node whose `AsInt` returns an error returns that error; the wrong-kind operations
`AssignBool`, `AssignFloat`, `AssignString`, `AssignBytes`, `AssignLink`, `BeginMap` and
`BeginList` return their WrongKind error. In every case the assembler and the heap, so
the stored value, are unchanged. -/
theorem finished_assembler_assign_outcomes (na : _Int__Assembler) (h : NodeHeap) (m : Maybe)
    (hm : h.maybeAt na.m = some m) (hfin : m = .Maybe_Value ∨ m = .Maybe_Null) :
    (∀ v, na.AssignInt h v = ⟨na, h, .panicked .alreadyFinished⟩) ∧
    na.AssignNull h = ⟨na, h, .panicked .alreadyFinished⟩ ∧
    (∀ v, v.IsNull = true → na.AssignNode h v = ⟨na, h, .panicked .alreadyFinished⟩) ∧
    (∀ n, na.AssignNode h (.ofInt n) = ⟨na, h, .panicked .alreadyFinished⟩) ∧
    (∀ v i, v.IsNull = false → Node.AsInt h v = .returned (i, none) →
      na.AssignNode h v = ⟨na, h, .panicked .alreadyFinished⟩) ∧
    (∀ v i e, v.IsNull = false → Node.AsInt h v = .returned (i, some e) →
      na.AssignNode h v = ⟨na, h, .returned (some e)⟩) ∧
    na.AssignBool = .returned (some (.ErrWrongKind "gendemo.Int" "AssignBool")) ∧
    na.AssignFloat = .returned (some (.ErrWrongKind "gendemo.Int" "AssignFloat")) ∧
    na.AssignString = .returned (some (.ErrWrongKind "gendemo.Int" "AssignString")) ∧
    na.AssignBytes = .returned (some (.ErrWrongKind "gendemo.Int" "AssignBytes")) ∧
    na.AssignLink = .returned (some (.ErrWrongKind "gendemo.Int" "AssignLink")) ∧
    (∀ sizeHint, na.BeginMap sizeHint =
      .returned (none, some (.ErrWrongKind "gendemo.Int" "BeginMap"))) ∧
    (∀ sizeHint, na.BeginList sizeHint =
      .returned (none, some (.ErrWrongKind "gendemo.Int" "BeginList"))) := by
  refine ⟨fun v => AssignInt_of_finished na h m v hm hfin,
    AssignNull_of_finished na h m hm hfin, ?_,
    fun n => AssignNode_ofInt_of_finished na h m n hm hfin, ?_, ?_,
    rfl, rfl, rfl, rfl, rfl, fun _ => rfl, fun _ => rfl⟩
  · intro v hv
    unfold _Int__Assembler.AssignNode
    simp only [hv, if_true]
    exact AssignNull_of_finished na h m hm hfin
  · intro v i hv hi
    cases v with
    | ofInt n => exact AssignNode_ofInt_of_finished na h m n hm hfin
    | Null => simp [Node.IsNull] at hv
    | Undef => simp [Node.AsInt] at hi
    | other isNull r =>
      simp only [Node.IsNull] at hv
      simp only [Node.AsInt, Outcome.returned.injEq] at hi
      unfold _Int__Assembler.AssignNode
      simp only [Node.IsNull, hv, Bool.false_eq_true, if_false, Node.AsInt, hi]
      exact AssignInt_of_finished na h m i hm hfin
  · intro v i e hv hi
    cases v with
    | ofInt n => exact absurd hi (IntNode.AsInt_no_error h n i e)
    | Null => simp [Node.IsNull] at hv
    | Undef =>
      simp only [Node.AsInt, Outcome.returned.injEq, Prod.mk.injEq, Option.some.injEq] at hi
      unfold _Int__Assembler.AssignNode
      simp [Node.IsNull, Node.AsInt, hi.2]
    | other isNull r =>
      simp only [Node.IsNull] at hv
      simp only [Node.AsInt, Outcome.returned.injEq] at hi
      unfold _Int__Assembler.AssignNode
      simp [Node.IsNull, hv, Node.AsInt, hi]

/-- Witness of C12: the Builder that `AssignInt(7)` has finished. -/
theorem finished_assembler_assign_outcomes_witness :
    (sampleFinished.2.maybeAt sampleFinished.1._Int__Assembler.m = some .Maybe_Value) ∧
    sampleFinished.1._Int__Assembler.AssignInt sampleFinished.2 9 =
      ⟨sampleFinished.1._Int__Assembler, sampleFinished.2, .panicked .alreadyFinished⟩ ∧
    sampleFinished.1._Int__Assembler.AssignNull sampleFinished.2 =
      ⟨sampleFinished.1._Int__Assembler, sampleFinished.2, .panicked .alreadyFinished⟩ :=
  have hw := finished_assembler_assign_outcomes sampleFinished.1._Int__Assembler
    sampleFinished.2 .Maybe_Value (by decide) (Or.inl rfl)
  ⟨by decide, hw.1 9, hw.2.1⟩

end Gendemo

namespace Gendemo

open Schema (Outcome PanicValue)

/-! ## The shapes of the results of the assign methods -/

/-- The result of `AssignInt`: nothing changed, or the value was written to the cell of
the assembler, or it was written to a cell allocated by the call. -/
theorem AssignInt_cases (na : _Int__Assembler) (h : NodeHeap) (v : GoInt) :
    ((na.AssignInt h v).recv = na ∧ (na.AssignInt h v).heap = h ∧
      ∃ p, (na.AssignInt h v).ret = .panicked p) ∨
    (∃ ma wa m c, na.m = some ma ∧ na.w = some wa ∧ h.maybeAt na.m = some m ∧
      m ≠ .Maybe_Value ∧ m ≠ .Maybe_Null ∧ h.intAt na.w = some c ∧
      na.AssignInt h v = ⟨na, (h.setInt wa ⟨v⟩).setMaybe ma .Maybe_Value, .returned none⟩) ∨
    (∃ ma m, na.m = some ma ∧ na.w = none ∧ h.maybeAt na.m = some m ∧
      m ≠ .Maybe_Value ∧ m ≠ .Maybe_Null ∧
      na.AssignInt h v = ⟨{ na with w := some h.ints.length },
        ((h.allocInt default).1.setInt h.ints.length ⟨v⟩).setMaybe ma .Maybe_Value,
        .returned none⟩) := by
  cases hm : h.maybeAt na.m with
  | none =>
    left
    unfold _Int__Assembler.AssignInt
    rw [hm]
    cases na.m <;> exact ⟨rfl, rfl, _, rfl⟩
  | some m =>
    obtain ⟨ma, hp, _, _⟩ := NodeHeap.maybeAt_some h na.m m hm
    by_cases hfin : m = .Maybe_Value ∨ m = .Maybe_Null
    · left
      rw [AssignInt_of_finished na h m v hm hfin]
      exact ⟨rfl, rfl, _, rfl⟩
    · simp only [not_or] at hfin
      cases hw : na.w with
      | none =>
        right; right
        exact ⟨ma, m, hp, rfl, rfl, hfin.1, hfin.2,
          AssignInt_of_detached na h m v ma hp hm hfin.1 hfin.2 hw⟩
      | some wa =>
        cases hc : h.intAt (some wa) with
        | none =>
          left
          rcases na with ⟨w0, m0⟩
          simp only at hp hw hm
          subst hp hw
          unfold _Int__Assembler.AssignInt
          simp only [hm, hfin.1, hfin.2, or_self, if_false]
          simp [hc]
        | some c =>
          right; left
          exact ⟨ma, wa, m, c, hp, rfl, rfl, hfin.1, hfin.2, rfl,
            AssignInt_of_unfinished na h m v ma wa c hp hm hfin.1 hfin.2 hw (hw ▸ hc)⟩

/-- The result of `AssignNull`: nothing changed, or the Maybe held `allowNull` and now
is in state Null. -/
theorem AssignNull_cases (na : _Int__Assembler) (h : NodeHeap) :
    ((na.AssignNull h).recv = na ∧ (na.AssignNull h).heap = h) ∨
    (∃ ma, na.m = some ma ∧ h.maybeAt na.m = some allowNull ∧
      na.AssignNull h = ⟨na, h.setMaybe ma .Maybe_Null, .returned none⟩) := by
  cases hm : h.maybeAt na.m with
  | none =>
    left
    unfold _Int__Assembler.AssignNull
    rw [hm]
    cases na.m <;> exact ⟨rfl, rfl⟩
  | some m =>
    obtain ⟨ma, hp, _, _⟩ := NodeHeap.maybeAt_some h na.m m hm
    by_cases ha : m = allowNull
    · right
      refine ⟨ma, hp, by rw [ha], ?_⟩
      unfold _Int__Assembler.AssignNull
      rw [hm, hp]
      simp [ha]
    · left
      unfold _Int__Assembler.AssignNull
      rw [hm, hp]
      simp only [ha, if_false]
      split
      · exact ⟨rfl, rfl⟩
      · split <;> exact ⟨rfl, rfl⟩

/-- The result of `AssignNode`: nothing changed, or it is the result of `AssignNull`, or
that of `AssignInt`, or the Int node was adopted as the cell of the assembler, or its
value was copied to the cell of the assembler. -/
theorem AssignNode_cases (na : _Int__Assembler) (h : NodeHeap) (v : Node) :
    ((na.AssignNode h v).recv = na ∧ (na.AssignNode h v).heap = h) ∨
    na.AssignNode h v = na.AssignNull h ∨
    (∃ i, na.AssignNode h v = na.AssignInt h i) ∨
    (∃ ma m v2, v = .ofInt v2 ∧ na.m = some ma ∧ na.w = none ∧ h.maybeAt na.m = some m ∧
      m ≠ .Maybe_Value ∧ m ≠ .Maybe_Null ∧
      na.AssignNode h v = ⟨{ na with w := v2 }, h.setMaybe ma .Maybe_Value, .returned none⟩) ∨
    (∃ ma wa m v2 c2, v = .ofInt v2 ∧ na.m = some ma ∧ na.w = some wa ∧
      h.maybeAt na.m = some m ∧ m ≠ .Maybe_Value ∧ m ≠ .Maybe_Null ∧
      (h.intAt na.w).isSome = true ∧ h.intAt v2 = some c2 ∧
      na.AssignNode h v = ⟨na, (h.setInt wa c2).setMaybe ma .Maybe_Value, .returned none⟩) := by
  by_cases hnull : v.IsNull = true
  · right; left
    unfold _Int__Assembler.AssignNode
    simp [hnull]
  · simp only [Bool.not_eq_true] at hnull
    cases v with
    | Null => simp [Node.IsNull] at hnull
    | Undef =>
      left
      unfold _Int__Assembler.AssignNode
      simp [Node.IsNull, Node.AsInt]
    | other isNull r =>
      simp only [Node.IsNull] at hnull
      rcases r with ⟨i, e⟩
      cases e with
      | none =>
        right; right; left
        refine ⟨i, ?_⟩
        unfold _Int__Assembler.AssignNode
        simp [Node.IsNull, hnull, Node.AsInt]
      | some e =>
        left
        unfold _Int__Assembler.AssignNode
        simp [Node.IsNull, hnull, Node.AsInt]
    | ofInt v2 =>
      cases hm : h.maybeAt na.m with
      | none =>
        left
        unfold _Int__Assembler.AssignNode
        simp only [Node.IsNull, IntNode.IsNull, Bool.false_eq_true, if_false]
        rw [hm]
        cases na.m <;> exact ⟨rfl, rfl⟩
      | some m =>
        obtain ⟨ma, hp, _, _⟩ := NodeHeap.maybeAt_some h na.m m hm
        by_cases hfin : m = .Maybe_Value ∨ m = .Maybe_Null
        · left
          rw [AssignNode_ofInt_of_finished na h m v2 hm hfin]
          exact ⟨rfl, rfl⟩
        · have hfin2 := hfin
          simp only [not_or] at hfin2
          rcases na with ⟨w0, m0⟩
          simp only at hp hm
          subst hp
          cases w0 with
          | none =>
            right; right; right; left
            refine ⟨ma, m, v2, rfl, rfl, rfl, rfl, hfin2.1, hfin2.2, ?_⟩
            unfold _Int__Assembler.AssignNode
            simp [Node.IsNull, IntNode.IsNull, hm, hfin]
          | some wa =>
            cases hc : h.intAt (some wa) with
            | none =>
              left
              unfold _Int__Assembler.AssignNode
              simp [Node.IsNull, IntNode.IsNull, hm, hfin, hc]
            | some c =>
              cases hc2 : h.intAt v2 with
              | none =>
                left
                unfold _Int__Assembler.AssignNode
                simp [Node.IsNull, IntNode.IsNull, hm, hfin, hc, hc2]
              | some c2 =>
                right; right; right; right
                refine ⟨ma, wa, m, v2, c2, rfl, rfl, rfl, rfl, hfin2.1, hfin2.2, ?_, hc2, ?_⟩
                · simp [hc]
                · unfold _Int__Assembler.AssignNode
                  simp [Node.IsNull, IntNode.IsNull, hm, hfin, hc, hc2]

end Gendemo

namespace Gendemo

open Schema (Outcome PanicValue)

/-! ## Two invariants of the calls on a Builder -/

theorem maybeAt_after_write (h : NodeHeap) (wa ma : Nat) (c : _Int) (m : Maybe)
    (hm : h.maybeAt (some ma) = some m) :
    ((h.setInt wa c).setMaybe ma .Maybe_Value).maybeAt (some ma) = some .Maybe_Value := by
  obtain ⟨_, hp, hlt, _⟩ := NodeHeap.maybeAt_some h (some ma) m hm
  cases hp
  exact NodeHeap.maybeAt_setMaybe_self _ _ _ hlt

theorem maybeAt_after_alloc_write (h : NodeHeap) (wa ma : Nat) (c d : _Int) (m : Maybe)
    (hm : h.maybeAt (some ma) = some m) :
    (((h.allocInt d).1.setInt wa c).setMaybe ma .Maybe_Value).maybeAt (some ma) =
      some .Maybe_Value := by
  obtain ⟨_, hp, hlt, _⟩ := NodeHeap.maybeAt_some h (some ma) m hm
  cases hp
  exact NodeHeap.maybeAt_setMaybe_self _ _ _ hlt

theorem AssignInt_cellKept (a : Nat) (c : _Int) (na : _Int__Assembler) (h : NodeHeap)
    (v : GoInt) (hk : cellKept a c na h) :
    cellKept a c (na.AssignInt h v).recv (na.AssignInt h v).heap := by
  obtain ⟨hlt, _⟩ := NodeHeap.intAt_some h a c hk.1
  rcases AssignInt_cases na h v with ⟨hr, hh, _⟩ | ⟨ma, wa, m, c0, hp, hw, hm, hv, _, _, he⟩ |
    ⟨ma, m, hp, hw, hm, hv, _, he⟩
  · rw [hr, hh]; exact hk
  · rw [he]
    have hne : wa ≠ a := by
      intro hwa
      rw [hwa] at hw
      rw [hk.2 hw] at hm
      exact hv (Option.some.inj hm).symm
    refine ⟨?_, ?_⟩
    · rw [NodeHeap.intAt_setMaybe, NodeHeap.intAt_setInt_of_ne _ _ _ _ hne]
      exact hk.1
    · intro hwa
      rw [hw] at hwa
      exact absurd (Option.some.inj hwa) hne
  · rw [he]
    refine ⟨?_, ?_⟩
    · rw [NodeHeap.intAt_setMaybe, NodeHeap.intAt_setInt_of_ne _ _ _ _ (Nat.ne_of_gt hlt),
        NodeHeap.intAt_allocInt_old _ _ _ hlt]
      exact hk.1
    · intro hwa
      simp only [Option.some.injEq] at hwa
      omega

theorem AssignNull_cellKept (a : Nat) (c : _Int) (na : _Int__Assembler) (h : NodeHeap)
    (hk : cellKept a c na h) :
    cellKept a c (na.AssignNull h).recv (na.AssignNull h).heap := by
  rcases AssignNull_cases na h with ⟨hr, hh⟩ | ⟨ma, hp, hm, he⟩
  · rw [hr, hh]; exact hk
  · rw [he]
    refine ⟨?_, ?_⟩
    · rw [NodeHeap.intAt_setMaybe]
      exact hk.1
    · intro hwa
      rw [hk.2 hwa] at hm
      simp [allowNull] at hm

theorem AssignNode_cellKept (a : Nat) (c : _Int) (na : _Int__Assembler) (h : NodeHeap)
    (v : Node) (hk : cellKept a c na h) :
    cellKept a c (na.AssignNode h v).recv (na.AssignNode h v).heap := by
  rcases AssignNode_cases na h v with ⟨hr, hh⟩ | he | ⟨i, he⟩ |
    ⟨ma, m, v2, _, hp, hw, hm, hv, _, he⟩ | ⟨ma, wa, m, v2, c2, _, hp, hw, hm, hv, _, _, _, he⟩
  · rw [hr, hh]; exact hk
  · rw [he]; exact AssignNull_cellKept a c na h hk
  · rw [he]; exact AssignInt_cellKept a c na h i hk
  · rw [he]
    refine ⟨?_, ?_⟩
    · rw [NodeHeap.intAt_setMaybe]
      exact hk.1
    · intro _
      simp only
      rw [hp] at hm ⊢
      obtain ⟨_, hq, hlt, _⟩ := NodeHeap.maybeAt_some h (some ma) m hm
      cases hq
      exact NodeHeap.maybeAt_setMaybe_self _ _ _ hlt
  · rw [he]
    have hne : wa ≠ a := by
      intro hwa
      rw [hwa] at hw
      rw [hk.2 hw] at hm
      exact hv (Option.some.inj hm).symm
    refine ⟨?_, ?_⟩
    · rw [NodeHeap.intAt_setMaybe, NodeHeap.intAt_setInt_of_ne _ _ _ _ hne]
      exact hk.1
    · intro hwa
      rw [hw] at hwa
      exact absurd (Option.some.inj hwa) hne

theorem Reset_cellKept (a : Nat) (c : _Int) (nb : _Int__Builder) (h : NodeHeap)
    (hc : h.intAt (some a) = some c) :
    cellKept a c (nb.Reset h).1._Int__Assembler (nb.Reset h).2 := by
  obtain ⟨hlt, _⟩ := NodeHeap.intAt_some h a c hc
  refine ⟨?_, ?_⟩
  · simp only [_Int__Builder.Reset, NodeHeap.allocMaybe]
    have := NodeHeap.intAt_allocInt_old h default a hlt
    simpa [NodeHeap.intAt, NodeHeap.allocInt] using this.trans hc
  · intro hw
    simp only [_Int__Builder.Reset, NodeHeap.allocInt, NodeHeap.allocMaybe,
      Option.some.injEq] at hw
    omega

/-- Every call on a Builder keeps a cell that the Builder has finished, or that it does
not write to. -/
theorem call_cellKept (a : Nat) (c : _Int) (nb : _Int__Builder) (h : NodeHeap) (op : BuilderOp)
    (hk : cellKept a c nb._Int__Assembler h) :
    cellKept a c (nb.call h op).1.1._Int__Assembler (nb.call h op).1.2 := by
  cases op with
  | AssignNull => exact AssignNull_cellKept a c _ h hk
  | AssignInt v => exact AssignInt_cellKept a c _ h v hk
  | AssignNode v => exact AssignNode_cellKept a c _ h v hk
  | Reset => exact Reset_cellKept a c nb h hk.1
  | _ => exact hk

theorem callAll_cellKept (a : Nat) (c : _Int) (ops : List BuilderOp) :
    ∀ (s : _Int__Builder × NodeHeap), cellKept a c s.1._Int__Assembler s.2 →
      cellKept a c (_Int__Builder.callAll ops s).1._Int__Assembler
        (_Int__Builder.callAll ops s).2 := by
  induction ops with
  | nil => intro s hk; exact hk
  | cons op ops ih =>
    intro s hk
    exact ih _ (call_cellKept a c s.1 s.2 op hk)

theorem AssignInt_absentOrValue (na : _Int__Assembler) (h : NodeHeap) (v : GoInt)
    (hk : absentOrValue na h) :
    absentOrValue (na.AssignInt h v).recv (na.AssignInt h v).heap := by
  rcases AssignInt_cases na h v with ⟨hr, hh, _⟩ | ⟨ma, wa, m, c0, hp, hw, hm, _, _, _, he⟩ |
    ⟨ma, m, hp, hw, hm, _, _, he⟩
  · rw [hr, hh]; exact hk
  · rw [he]
    right
    rw [hp] at hm ⊢
    exact maybeAt_after_write h wa ma _ m hm
  · rw [he]
    right
    simp only
    rw [hp] at hm ⊢
    exact maybeAt_after_alloc_write h _ ma _ _ m hm

theorem AssignNull_absentOrValue (na : _Int__Assembler) (h : NodeHeap)
    (hk : absentOrValue na h) :
    absentOrValue (na.AssignNull h).recv (na.AssignNull h).heap := by
  rcases AssignNull_cases na h with ⟨hr, hh⟩ | ⟨ma, hp, hm, he⟩
  · rw [hr, hh]; exact hk
  · rcases hk with hk | hk <;> rw [hk] at hm <;> simp [allowNull] at hm

theorem AssignNode_absentOrValue (na : _Int__Assembler) (h : NodeHeap) (v : Node)
    (hk : absentOrValue na h) :
    absentOrValue (na.AssignNode h v).recv (na.AssignNode h v).heap := by
  rcases AssignNode_cases na h v with ⟨hr, hh⟩ | he | ⟨i, he⟩ |
    ⟨ma, m, v2, _, hp, hw, hm, _, _, he⟩ | ⟨ma, wa, m, v2, c2, _, hp, hw, hm, _, _, _, _, he⟩
  · rw [hr, hh]; exact hk
  · rw [he]; exact AssignNull_absentOrValue na h hk
  · rw [he]; exact AssignInt_absentOrValue na h i hk
  · rw [he]
    right
    simp only
    rw [hp] at hm ⊢
    obtain ⟨_, hq, hlt, _⟩ := NodeHeap.maybeAt_some h (some ma) m hm
    cases hq
    exact NodeHeap.maybeAt_setMaybe_self _ _ _ hlt
  · rw [he]
    right
    rw [hp] at hm ⊢
    exact maybeAt_after_write h wa ma _ m hm

theorem Reset_absent (nb : _Int__Builder) (h : NodeHeap) :
    (nb.Reset h).2.maybeAt (nb.Reset h).1._Int__Assembler.m = some .Maybe_Absent := by
  simp [_Int__Builder.Reset, NodeHeap.allocInt, NodeHeap.allocMaybe, NodeHeap.maybeAt, default]

theorem call_absentOrValue (nb : _Int__Builder) (h : NodeHeap) (op : BuilderOp)
    (hk : absentOrValue nb._Int__Assembler h) :
    absentOrValue (nb.call h op).1.1._Int__Assembler (nb.call h op).1.2 := by
  cases op with
  | AssignNull => exact AssignNull_absentOrValue _ h hk
  | AssignInt v => exact AssignInt_absentOrValue _ h v hk
  | AssignNode v => exact AssignNode_absentOrValue _ h v hk
  | Reset => exact Or.inl (Reset_absent nb h)
  | _ => exact hk

theorem callAll_absentOrValue (ops : List BuilderOp) :
    ∀ (s : _Int__Builder × NodeHeap), absentOrValue s.1._Int__Assembler s.2 →
      absentOrValue (_Int__Builder.callAll ops s).1._Int__Assembler
        (_Int__Builder.callAll ops s).2 := by
  induction ops with
  | nil => intro s hk; exact hk
  | cons op ops ih =>
    intro s hk
    exact ih _ (call_absentOrValue s.1 s.2 op hk)

end Gendemo

namespace Gendemo

open Schema (Outcome PanicValue)

/-! ## AssignNull, Reset, immutability and AssignNode -/

/-- C13: `AssignNull` on an unfinished assembler. When the Maybe holds `allowNull` (the
slot allows null), it returns a nil error, the Maybe becomes Null, and the value cells
and the assembler are unchanged. When the Maybe is in state Absent (the slot does not
allow null), it returns a NotNullable error and changes nothing. A root Builder, after
`NewBuilder` and any sequence of calls, is in state Absent or Value, so an unfinished
one is in state Absent; in particular `AssignNull` on a fresh Builder returns the
NotNullable error. -/
theorem AssignNull_by_nullability (na : _Int__Assembler) (h h0 : NodeHeap)
    (ops : List BuilderOp) :
    (h.maybeAt na.m = some allowNull →
      (na.AssignNull h).ret = .returned none ∧
      (na.AssignNull h).heap.maybeAt na.m = some .Maybe_Null ∧
      (na.AssignNull h).heap.ints = h.ints ∧
      (na.AssignNull h).recv = na) ∧
    (h.maybeAt na.m = some .Maybe_Absent →
      na.AssignNull h = ⟨na, h, .returned (some (.ErrNotNullable "gendemo.Int"))⟩) ∧
    absentOrValue (_Int__Builder.callAll ops (_Int__Style.NewBuilder h0)).1._Int__Assembler
      (_Int__Builder.callAll ops (_Int__Style.NewBuilder h0)).2 ∧
    ((_Int__Style.NewBuilder h0).1._Int__Assembler.AssignNull (_Int__Style.NewBuilder h0).2).ret
      = .returned (some (.ErrNotNullable "gendemo.Int")) := by
  refine ⟨?_, ?_, ?_, ?_⟩
  · intro hm
    obtain ⟨ma, hp, hlt, _⟩ := NodeHeap.maybeAt_some h na.m allowNull hm
    have he : na.AssignNull h = ⟨na, h.setMaybe ma .Maybe_Null, .returned none⟩ := by
      unfold _Int__Assembler.AssignNull
      rw [hm, hp]
      simp
    rw [he]
    refine ⟨rfl, ?_, rfl, rfl⟩
    rw [hp]
    exact NodeHeap.maybeAt_setMaybe_self _ _ _ hlt
  · intro hm
    obtain ⟨ma, hp, _, _⟩ := NodeHeap.maybeAt_some h na.m .Maybe_Absent hm
    unfold _Int__Assembler.AssignNull
    rw [hm, hp]
    simp [allowNull, mixins.IntAssembler.AssignNull]
  · exact callAll_absentOrValue ops _ (Or.inl (Reset_absent _ h0))
  · simp [_Int__Style.NewBuilder, _Int__Builder.Reset, _Int__Assembler.AssignNull,
      NodeHeap.allocInt, NodeHeap.allocMaybe, NodeHeap.maybeAt, default, allowNull,
      mixins.IntAssembler.AssignNull]

/-- Witness of C13: the assembler of a nullable slot, and a fresh Builder. -/
theorem AssignNull_by_nullability_witness :
    sampleNullable.2.maybeAt sampleNullable.1.m = some allowNull ∧
    (sampleNullable.1.AssignNull sampleNullable.2).ret = .returned none ∧
    (sampleNullable.1.AssignNull sampleNullable.2).heap.maybeAt sampleNullable.1.m =
      some .Maybe_Null ∧
    sampleBuilder.2.maybeAt sampleBuilder.1._Int__Assembler.m = some .Maybe_Absent ∧
    sampleBuilder.1._Int__Assembler.AssignNull sampleBuilder.2 =
      ⟨sampleBuilder.1._Int__Assembler, sampleBuilder.2,
        .returned (some (.ErrNotNullable "gendemo.Int"))⟩ :=
  have hn := (AssignNull_by_nullability sampleNullable.1 sampleNullable.2 ⟨[], []⟩ []).1
    (by decide)
  have hb := (AssignNull_by_nullability sampleBuilder.1._Int__Assembler sampleBuilder.2
    ⟨[], []⟩ []).2.1 (by decide)
  ⟨by decide, hn.1, hn.2.1, by decide, hb⟩

/-- The Builder that `Reset` leaves, on any heap: cells fresh, state Absent, value 0;
`Build` panics, and `AssignInt(v)` followed by `Build` gives a node with value `v`. -/
theorem Reset_observed (nb : _Int__Builder) (h : NodeHeap) (v : GoInt) :
    (nb.Reset h).1._Int__Assembler.w = some h.ints.length ∧
    (nb.Reset h).1._Int__Assembler.m = some h.maybes.length ∧
    h.ints <+: (nb.Reset h).2.ints ∧ h.maybes <+: (nb.Reset h).2.maybes ∧
    (nb.Reset h).2.maybeAt (nb.Reset h).1._Int__Assembler.m = some .Maybe_Absent ∧
    (nb.Reset h).2.intAt (nb.Reset h).1._Int__Assembler.w = some ⟨0⟩ ∧
    (nb.Reset h).1.Build (nb.Reset h).2 = .panicked .buildUnfinished ∧
    ((nb.Reset h).1.AssignInt (nb.Reset h).2 v).ret = .returned none ∧
    ((nb.Reset h).1.AssignInt (nb.Reset h).2 v).recv.Build
      ((nb.Reset h).1.AssignInt (nb.Reset h).2 v).heap = .returned (.ofInt (some h.ints.length)) ∧
    Node.AsInt ((nb.Reset h).1.AssignInt (nb.Reset h).2 v).heap (.ofInt (some h.ints.length)) =
      .returned (v, none) := by
  refine ⟨rfl, rfl, ?_, ?_, ?_, ?_, ?_, ?_, ?_, ?_⟩ <;>
    simp [_Int__Builder.Reset, _Int__Builder.AssignInt, _Int__Assembler.AssignInt,
      _Int__Builder.Build, NodeHeap.allocInt, NodeHeap.allocMaybe, NodeHeap.maybeAt,
      NodeHeap.intAt, NodeHeap.setInt, NodeHeap.setMaybe, Node.AsInt, IntNode.AsInt, default]

/-- C16: after any sequence of calls on a Builder from `NewBuilder` (assigns, `Build`,
`Reset`, whether they panic or not), `Reset` leaves exactly the Builder and heap that
`NewBuilder` would give on that heap. And in every state of Builder and heap, so after
every history, `Reset` leaves a Builder whose two cells are freshly allocated, whose
Maybe is in state Absent and whose stored value is 0; `Build` on it panics, and
`AssignInt(v)` followed by `Build` returns a node whose `AsInt` is `v`. -/
theorem Reset_is_fresh_builder (h0 : NodeHeap) (ops : List BuilderOp) (v : GoInt) :
    ((_Int__Builder.callAll ops (_Int__Style.NewBuilder h0)).1.Reset
        (_Int__Builder.callAll ops (_Int__Style.NewBuilder h0)).2 =
      _Int__Style.NewBuilder (_Int__Builder.callAll ops (_Int__Style.NewBuilder h0)).2) ∧
    (∀ (nb : _Int__Builder) (h : NodeHeap),
      (nb.Reset h).1._Int__Assembler.w = some h.ints.length ∧
      (nb.Reset h).1._Int__Assembler.m = some h.maybes.length ∧
      h.ints <+: (nb.Reset h).2.ints ∧ h.maybes <+: (nb.Reset h).2.maybes ∧
      (nb.Reset h).2.maybeAt (nb.Reset h).1._Int__Assembler.m = some .Maybe_Absent ∧
      (nb.Reset h).2.intAt (nb.Reset h).1._Int__Assembler.w = some ⟨0⟩ ∧
      (nb.Reset h).1.Build (nb.Reset h).2 = .panicked .buildUnfinished ∧
      ((nb.Reset h).1.AssignInt (nb.Reset h).2 v).ret = .returned none ∧
      ((nb.Reset h).1.AssignInt (nb.Reset h).2 v).recv.Build
        ((nb.Reset h).1.AssignInt (nb.Reset h).2 v).heap =
          .returned (.ofInt (some h.ints.length)) ∧
      Node.AsInt ((nb.Reset h).1.AssignInt (nb.Reset h).2 v).heap
        (.ofInt (some h.ints.length)) = .returned (v, none)) :=
  ⟨rfl, fun nb h => Reset_observed nb h v⟩

end Gendemo

namespace Gendemo

open Schema (Outcome PanicValue)

/-- When `Build` returns, the Maybe is in state Value and the node is the cell of the
assembler. -/
theorem Build_returned (nb : _Int__Builder) (h : NodeHeap) (n : Node)
    (hb : nb.Build h = .returned n) :
    h.maybeAt nb._Int__Assembler.m = some .Maybe_Value ∧ n = .ofInt nb._Int__Assembler.w := by
  unfold _Int__Builder.Build at hb
  cases hm : h.maybeAt nb._Int__Assembler.m with
  | none => rw [hm] at hb; cases hb
  | some m =>
    rw [hm] at hb
    by_cases hv : m = .Maybe_Value
    · subst hv
      simp only [ne_eq, not_true_eq_false, if_false, Outcome.returned.injEq] at hb
      exact ⟨rfl, hb.symm⟩
    · simp [hv] at hb

/-- C17: a finished value is immutable. Once `Build` has returned the node `n` and
`n.AsInt()` is `v`, then after every sequence of further calls on that Builder
(`AssignInt`, `AssignNull`, `AssignNode`, the wrong-kind assigns, `Build`, `Reset` and
assigns after it), whether some of them panic or none does, `n.AsInt()` still returns
`v` and a nil error. -/
theorem built_node_is_immutable (nb : _Int__Builder) (h : NodeHeap) (n : IntPtr) (v : GoInt)
    (hb : nb.Build h = .returned (.ofInt n))
    (hv : Node.AsInt h (.ofInt n) = .returned (v, none)) (ops : List BuilderOp) :
    Node.AsInt (_Int__Builder.callAll ops (nb, h)).2 (.ofInt n) = .returned (v, none) ∧
    (_Int__Builder.noPanic ops (nb, h) = true →
      IntNode.AsInt (_Int__Builder.callAll ops (nb, h)).2 n = .returned (v, none)) := by
  obtain ⟨hm, hn⟩ := Build_returned nb h _ hb
  simp only [Node.ofInt.injEq] at hn
  have hc : ∃ a, n = some a ∧ h.intAt (some a) = some ⟨v⟩ := by
    simp only [Node.AsInt, IntNode.AsInt] at hv
    cases n with
    | none => simp [NodeHeap.intAt] at hv
    | some a =>
      refine ⟨a, rfl, ?_⟩
      cases hc : h.intAt (some a) with
      | none => rw [hc] at hv; cases hv
      | some c =>
        rw [hc] at hv
        simp only [Outcome.returned.injEq, Prod.mk.injEq, and_true] at hv
        rcases c with ⟨x⟩
        simp only at hv
        rw [hv]
  obtain ⟨a, rfl, hca⟩ := hc
  have hk : cellKept a ⟨v⟩ nb._Int__Assembler h := ⟨hca, fun _ => hm⟩
  have hfin := (callAll_cellKept a ⟨v⟩ ops (nb, h) hk).1
  have hres : IntNode.AsInt (_Int__Builder.callAll ops (nb, h)).2 (some a) =
      .returned (v, none) := by
    simp [IntNode.AsInt, hfin]
  exact ⟨hres, fun _ => hres⟩

/-- Witness of C17: the Builder finished by `AssignInt(7)`, then `AssignInt(9)` (which
panics), `Reset`, `AssignNode` of the built node, `AssignInt(5)` and `Build`. -/
theorem built_node_is_immutable_witness :
    sampleFinished.1.Build sampleFinished.2 = .returned (.ofInt (some 1)) ∧
    Node.AsInt sampleFinished.2 (.ofInt (some 1)) = .returned (7, none) ∧
    Node.AsInt (_Int__Builder.callAll
      [.AssignInt 9, .Reset, .AssignNode (.ofInt (some 1)), .Build, .Reset, .AssignInt 5, .Build]
      (sampleFinished.1, sampleFinished.2)).2 (.ofInt (some 1)) = .returned (7, none) :=
  ⟨by decide, by decide,
    (built_node_is_immutable sampleFinished.1 sampleFinished.2 (some 1) 7 (by decide) (by decide)
      [.AssignInt 9, .Reset, .AssignNode (.ofInt (some 1)), .Build, .Reset, .AssignInt 5,
        .Build]).1⟩

/-- What `AssignInt` leaves in an unfinished assembler whose value cell is absent or
exists: a nil error, the value stored, the Maybe in state Value. -/
theorem AssignInt_observed (na : _Int__Assembler) (h : NodeHeap) (m : Maybe) (i : GoInt)
    (hm : h.maybeAt na.m = some m) (hv : m ≠ .Maybe_Value) (hn : m ≠ .Maybe_Null)
    (hw : na.w = none ∨ (h.intAt na.w).isSome = true) :
    (na.AssignInt h i).ret = .returned none ∧
    (na.AssignInt h i).heap.intAt (na.AssignInt h i).recv.w = some ⟨i⟩ ∧
    (na.AssignInt h i).heap.maybeAt (na.AssignInt h i).recv.m = some .Maybe_Value ∧
    (na.AssignInt h i).recv.m = na.m := by
  obtain ⟨ma, hp, hlt, _⟩ := NodeHeap.maybeAt_some h na.m m hm
  cases hwn : na.w with
  | none =>
    rw [AssignInt_of_detached na h m i ma hp hm hv hn hwn]
    refine ⟨rfl, ?_, ?_, rfl⟩
    · simp [NodeHeap.allocInt, NodeHeap.intAt, NodeHeap.setInt, NodeHeap.setMaybe]
    · simp only
      rw [hp]
      exact NodeHeap.maybeAt_setMaybe_self _ _ _ hlt
  | some wa =>
    rcases hw with hw | hw
    · rw [hwn] at hw; cases hw
    · cases hc : h.intAt na.w with
      | none => rw [hc] at hw; cases hw
      | some c =>
        rw [AssignInt_of_unfinished na h m i ma wa c hp hm hv hn hwn hc]
        rw [hwn] at hc
        obtain ⟨hwlt, _⟩ := NodeHeap.intAt_some h wa c hc
        refine ⟨rfl, ?_, ?_, rfl⟩
        · simp only
          rw [hwn, NodeHeap.intAt_setMaybe]
          exact NodeHeap.intAt_setInt_self _ _ _ hwlt
        · simp only
          rw [hp]
          exact NodeHeap.maybeAt_setMaybe_self _ _ _ hlt

/-- C18: the cheap path and the generic path of `AssignNode` agree. In an unfinished
assembler (Maybe not in state Value or Null, value cell absent or existing), for a
non-null node `v` whose `AsInt` returns `i` and a nil error, `AssignNode(v)` returns a
nil error and leaves the stored value `i` and the Maybe in state Value: the same
observations as after `AssignInt(i)`, which is also what the generic path gives; when
the assembler has a value cell the two results are equal outright. In every assembler,
`AssignNode` of a non-null node whose `AsInt` returns an error returns that error and
changes nothing, and `AssignNode` of a null node is `AssignNull`. -/
theorem AssignNode_agrees_with_AssignInt (na : _Int__Assembler) (h : NodeHeap) (m : Maybe)
    (v : Node) (i : GoInt)
    (hm : h.maybeAt na.m = some m) (hv : m ≠ .Maybe_Value) (hn : m ≠ .Maybe_Null)
    (hw : na.w = none ∨ (h.intAt na.w).isSome = true)
    (hnull : v.IsNull = false) (hi : Node.AsInt h v = .returned (i, none)) :
    ((na.AssignNode h v).ret = .returned none ∧
      (na.AssignNode h v).heap.intAt (na.AssignNode h v).recv.w = some ⟨i⟩ ∧
      (na.AssignNode h v).heap.maybeAt (na.AssignNode h v).recv.m = some .Maybe_Value ∧
      (na.AssignNode h v).recv.m = na.m) ∧
    ((na.AssignInt h i).ret = .returned none ∧
      (na.AssignInt h i).heap.intAt (na.AssignInt h i).recv.w = some ⟨i⟩ ∧
      (na.AssignInt h i).heap.maybeAt (na.AssignInt h i).recv.m = some .Maybe_Value ∧
      (na.AssignInt h i).recv.m = na.m) ∧
    na.AssignNodeGeneric h v = na.AssignInt h i ∧
    (na.w ≠ none → na.AssignNode h v = na.AssignInt h i) ∧
    (∀ (na2 : _Int__Assembler) (h2 : NodeHeap) (v2 : Node) (x : GoInt) (e : GoError),
      v2.IsNull = false → Node.AsInt h2 v2 = .returned (x, some e) →
      na2.AssignNode h2 v2 = ⟨na2, h2, .returned (some e)⟩) ∧
    (∀ (na2 : _Int__Assembler) (h2 : NodeHeap) (v2 : Node),
      v2.IsNull = true → na2.AssignNode h2 v2 = na2.AssignNull h2) := by
  have hobs := AssignInt_observed na h m i hm hv hn hw
  obtain ⟨ma, hp, hlt, _⟩ := NodeHeap.maybeAt_some h na.m m hm
  have hfin : ¬ (m = .Maybe_Value ∨ m = .Maybe_Null) := fun hc => hc.elim hv hn
  have hgen : na.AssignNodeGeneric h v = na.AssignInt h i := by
    unfold _Int__Assembler.AssignNodeGeneric
    simp [hnull, hi]
  refine ⟨?_, hobs, hgen, ?_, ?_, ?_⟩
  · cases v with
    | Null => simp [Node.IsNull] at hnull
    | Undef => simp [Node.AsInt] at hi
    | other isNull r =>
      have he : na.AssignNode h (.other isNull r) = na.AssignInt h i := by
        simp only [Node.IsNull] at hnull
        simp only [Node.AsInt, Outcome.returned.injEq] at hi
        unfold _Int__Assembler.AssignNode
        simp [Node.IsNull, hnull, Node.AsInt, hi]
      rw [he]
      exact hobs
    | ofInt v2 =>
      have hc2 : h.intAt v2 = some ⟨i⟩ := by
        simp only [Node.AsInt, IntNode.AsInt] at hi
        cases hc : h.intAt v2 with
        | none => rw [hc] at hi; cases hi
        | some c =>
          rw [hc] at hi
          simp only [Outcome.returned.injEq, Prod.mk.injEq, and_true] at hi
          rcases c with ⟨x⟩
          simp only at hi
          rw [hi]
      rcases na with ⟨w0, m0⟩
      simp only at hp hm hw
      subst hp
      cases w0 with
      | none =>
        have he : _Int__Assembler.AssignNode ⟨none, some ma⟩ h (.ofInt v2) =
            ⟨⟨v2, some ma⟩, h.setMaybe ma .Maybe_Value, .returned none⟩ := by
          unfold _Int__Assembler.AssignNode
          simp [Node.IsNull, IntNode.IsNull, hm, hfin]
        rw [he]
        refine ⟨rfl, ?_, ?_, rfl⟩
        · simp only
          rw [NodeHeap.intAt_setMaybe]
          exact hc2
        · exact NodeHeap.maybeAt_setMaybe_self _ _ _ hlt
      | some wa =>
        rcases hw with hw | hw
        · cases hw
        · cases hc : h.intAt (some wa) with
          | none => rw [hc] at hw; cases hw
          | some c =>
            obtain ⟨hwlt, _⟩ := NodeHeap.intAt_some h wa c hc
            have he : _Int__Assembler.AssignNode ⟨some wa, some ma⟩ h (.ofInt v2) =
                ⟨⟨some wa, some ma⟩, (h.setInt wa ⟨i⟩).setMaybe ma .Maybe_Value,
                  .returned none⟩ := by
              unfold _Int__Assembler.AssignNode
              simp [Node.IsNull, IntNode.IsNull, hm, hfin, hc, hc2]
            rw [he]
            refine ⟨rfl, ?_, ?_, rfl⟩
            · simp only
              rw [NodeHeap.intAt_setMaybe]
              exact NodeHeap.intAt_setInt_self _ _ _ hwlt
            · exact NodeHeap.maybeAt_setMaybe_self _ _ _ hlt
  · intro hwne
    cases hwn : na.w with
    | none => exact absurd hwn hwne
    | some wa =>
      rcases hw with hw | hw
      · exact absurd hw hwne
      · cases hc : h.intAt na.w with
        | none => rw [hc] at hw; cases hw
        | some c =>
          rw [AssignInt_of_unfinished na h m i ma wa c hp hm hv hn hwn hc]
          cases v with
          | Null => simp [Node.IsNull] at hnull
          | Undef => simp [Node.AsInt] at hi
          | other isNull r =>
            simp only [Node.IsNull] at hnull
            simp only [Node.AsInt, Outcome.returned.injEq] at hi
            rw [← AssignInt_of_unfinished na h m i ma wa c hp hm hv hn hwn hc]
            unfold _Int__Assembler.AssignNode
            simp [Node.IsNull, hnull, Node.AsInt, hi]
          | ofInt v2 =>
            have hc2 : h.intAt v2 = some ⟨i⟩ := by
              simp only [Node.AsInt, IntNode.AsInt] at hi
              cases hc3 : h.intAt v2 with
              | none => rw [hc3] at hi; cases hi
              | some c3 =>
                rw [hc3] at hi
                simp only [Outcome.returned.injEq, Prod.mk.injEq, and_true] at hi
                rcases c3 with ⟨x⟩
                simp only at hi
                rw [hi]
            rcases na with ⟨w0, m0⟩
            simp only at hp hm hwn hc
            subst hp hwn
            unfold _Int__Assembler.AssignNode
            simp [Node.IsNull, IntNode.IsNull, hm, hfin, hc, hc2]
  · intro na2 h2 v2 x e hnull2 hi2
    cases v2 with
    | ofInt n => exact absurd hi2 (IntNode.AsInt_no_error h2 n x e)
    | Null => simp [Node.IsNull] at hnull2
    | Undef =>
      simp only [Node.AsInt, Outcome.returned.injEq, Prod.mk.injEq, Option.some.injEq] at hi2
      unfold _Int__Assembler.AssignNode
      simp [Node.IsNull, Node.AsInt, hi2.2]
    | other isNull r =>
      simp only [Node.IsNull] at hnull2
      simp only [Node.AsInt, Outcome.returned.injEq] at hi2
      unfold _Int__Assembler.AssignNode
      simp [Node.IsNull, hnull2, Node.AsInt, hi2]
  · intro na2 h2 v2 hnull2
    unfold _Int__Assembler.AssignNode
    simp [hnull2]

end Gendemo

namespace Gendemo

open Schema (Outcome PanicValue)

/-- Witness of C18: a fresh Builder, whose cell the value of the Int node at address 0
is copied to; that node holds 3. -/
theorem AssignNode_agrees_with_AssignInt_witness :
    (sampleBuilder.2.maybeAt sampleBuilder.1._Int__Assembler.m = some .Maybe_Absent ∧
      Node.AsInt sampleBuilder.2 (.ofInt (some 0)) = .returned (3, none)) ∧
    (sampleBuilder.1._Int__Assembler.AssignNode sampleBuilder.2 (.ofInt (some 0))).ret =
      .returned none ∧
    (sampleBuilder.1._Int__Assembler.AssignNode sampleBuilder.2 (.ofInt (some 0))).heap.intAt
      (sampleBuilder.1._Int__Assembler.AssignNode sampleBuilder.2 (.ofInt (some 0))).recv.w =
        some ⟨3⟩ ∧
    sampleBuilder.1._Int__Assembler.AssignNode sampleBuilder.2 (.ofInt (some 0)) =
      sampleBuilder.1._Int__Assembler.AssignInt sampleBuilder.2 3 :=
  have hw := AssignNode_agrees_with_AssignInt sampleBuilder.1._Int__Assembler sampleBuilder.2
    .Maybe_Absent (.ofInt (some 0)) 3 (by decide) (by decide) (by decide)
    (Or.inr (by decide)) (by decide) (by decide)
  ⟨⟨by decide, by decide⟩, hw.1.1, hw.1.2.1, hw.2.2.2.1 (by decide)⟩

end Gendemo

namespace Gendemo

open Schema (Outcome PanicValue)

/-! ## After a rejected wrong-kind assign -/

/-- C21, the claim as stated fails: on a fresh Builder (Maybe in state Absent)
`AssignBool` is rejected with a returned WrongKind error and leaves Builder and heap as
they were; the `AssignInt(7)` that follows does not panic: it returns a nil error, and
`Build` then returns the node with value 7. -/
theorem rejected_assembler_accepts_AssignInt :
    sampleBuilder.2.maybeAt sampleBuilder.1._Int__Assembler.m = some .Maybe_Absent ∧
    sampleBuilder.1._Int__Assembler.AssignBool =
      .returned (some (.ErrWrongKind "gendemo.Int" "AssignBool")) ∧
    sampleBuilder.1.call sampleBuilder.2 .AssignBool = ((sampleBuilder.1, sampleBuilder.2), none) ∧
    ((sampleBuilder.1.call sampleBuilder.2 .AssignBool).1.1.AssignInt
      (sampleBuilder.1.call sampleBuilder.2 .AssignBool).1.2 7).ret = .returned none ∧
    (_Int__Builder.callAll [.AssignBool, .AssignInt 7] sampleBuilder).1.Build
      (_Int__Builder.callAll [.AssignBool, .AssignInt 7] sampleBuilder).2 =
        .returned (.ofInt (some 1)) ∧
    Node.AsInt (_Int__Builder.callAll [.AssignBool, .AssignInt 7] sampleBuilder).2
      (.ofInt (some 1)) = .returned (7, none) := by
  decide

/-- C21, amended: a wrong-kind assign (`AssignBool`, `AssignFloat`, `AssignString`,
`AssignBytes`, `AssignLink`, `BeginMap`, `BeginList`) on an unfinished Int assembler is
rejected with a returned WrongKind error, without a panic and with nothing stored, and
it leaves the assembler and the heap exactly as they were, so the assembler is still
unfinished: the same operation is rejected again in the same way, and `AssignInt(v)`
then succeeds, returning a nil error, storing `v` and moving the Maybe to Value. -/
theorem wrong_kind_rejection_leaves_assembler_unfinished (nb : _Int__Builder) (h : NodeHeap)
    (m : Maybe) (op : BuilderOp) (v : GoInt)
    (hm : h.maybeAt nb._Int__Assembler.m = some m)
    (hv : m ≠ .Maybe_Value) (hn : m ≠ .Maybe_Null)
    (hw : nb._Int__Assembler.w = none ∨ (h.intAt nb._Int__Assembler.w).isSome = true)
    (hop : op.isWrongKind = true) :
    nb.call h op = ((nb, h), none) ∧
    (nb.call h op).1.1.call (nb.call h op).1.2 op = ((nb, h), none) ∧
    (nb._Int__Assembler.AssignBool = .returned (some (.ErrWrongKind "gendemo.Int" "AssignBool")) ∧
      nb._Int__Assembler.AssignFloat =
        .returned (some (.ErrWrongKind "gendemo.Int" "AssignFloat")) ∧
      nb._Int__Assembler.AssignString =
        .returned (some (.ErrWrongKind "gendemo.Int" "AssignString")) ∧
      nb._Int__Assembler.AssignBytes =
        .returned (some (.ErrWrongKind "gendemo.Int" "AssignBytes")) ∧
      nb._Int__Assembler.AssignLink =
        .returned (some (.ErrWrongKind "gendemo.Int" "AssignLink")) ∧
      (∀ sizeHint, nb._Int__Assembler.BeginMap sizeHint =
        .returned (none, some (.ErrWrongKind "gendemo.Int" "BeginMap"))) ∧
      (∀ sizeHint, nb._Int__Assembler.BeginList sizeHint =
        .returned (none, some (.ErrWrongKind "gendemo.Int" "BeginList")))) ∧
    (((nb.call h op).1.1._Int__Assembler.AssignInt (nb.call h op).1.2 v).ret = .returned none ∧
      ((nb.call h op).1.1._Int__Assembler.AssignInt (nb.call h op).1.2 v).heap.intAt
        ((nb.call h op).1.1._Int__Assembler.AssignInt (nb.call h op).1.2 v).recv.w = some ⟨v⟩ ∧
      ((nb.call h op).1.1._Int__Assembler.AssignInt (nb.call h op).1.2 v).heap.maybeAt
        ((nb.call h op).1.1._Int__Assembler.AssignInt (nb.call h op).1.2 v).recv.m =
          some .Maybe_Value) := by
  have hcall : nb.call h op = ((nb, h), none) := by
    cases op <;> first | rfl | cases hop
  have hobs := AssignInt_observed nb._Int__Assembler h m v hm hv hn hw
  rw [hcall]
  exact ⟨rfl, hcall, ⟨rfl, rfl, rfl, rfl, rfl, fun _ => rfl, fun _ => rfl⟩,
    hobs.1, hobs.2.1, hobs.2.2.1⟩

/-- Witness of C21: a fresh Builder, `BeginMap(4)`, then `AssignInt(7)`. -/
theorem wrong_kind_rejection_leaves_assembler_unfinished_witness :
    sampleBuilder.2.maybeAt sampleBuilder.1._Int__Assembler.m = some .Maybe_Absent ∧
    sampleBuilder.1.call sampleBuilder.2 (.BeginMap 4) = ((sampleBuilder.1, sampleBuilder.2), none) ∧
    ((sampleBuilder.1.call sampleBuilder.2 (.BeginMap 4)).1.1._Int__Assembler.AssignInt
      (sampleBuilder.1.call sampleBuilder.2 (.BeginMap 4)).1.2 7).ret = .returned none :=
  have hw := wrong_kind_rejection_leaves_assembler_unfinished sampleBuilder.1 sampleBuilder.2
    .Maybe_Absent (.BeginMap 4) 7 (by decide) (by decide) (by decide) (Or.inr (by decide))
    (by decide)
  ⟨by decide, hw.1, hw.2.2.2.1⟩

end Gendemo

namespace Schema

/-! ## TypeStruct up to the first repeated field name -/

theorem exists_first_repeat {α β : Type} (g : α → β) (l : List α) :
    ¬ (l.map g).Nodup →
      ∃ pre x post, l = pre ++ x :: post ∧ (pre.map g).Nodup ∧ g x ∈ pre.map g := by
  induction l using List.reverseRecOn with
  | nil => intro hn; simp at hn
  | append_singleton init last ih =>
    intro hn
    by_cases hi : (init.map g).Nodup
    · refine ⟨init, last, [], rfl, hi, ?_⟩
      by_contra hmem
      apply hn
      rw [List.map_append, List.nodup_append]
      refine ⟨hi, by simp, ?_⟩
      intro a ha hb
      simp only [List.map_cons, List.map_nil, List.mem_singleton] at hb
      exact hmem (hb ▸ ha)
    · obtain ⟨pre, x, post, hl, hp, hx⟩ := ih hi
      exact ⟨pre, x, post ++ [last], by rw [hl]; simp, hp, hx⟩

theorem linkLoop_at_first_repeat (t : TypePtr) (f : StructField) (post : List StructField)
    (rest : List StructField) :
    ∀ (i : Nat) (pre : List StructField) (st : TypeStruct),
      st.fields = pre ++ (rest ++ f :: post) → pre.length = i →
      (rest.map (fun f => f.name)).Nodup →
      (∀ g ∈ rest, g.name ∉ st.fieldsMap.keys) →
      (f.name ∈ st.fieldsMap.keys ∨ f.name ∈ rest.map (fun f => f.name)) →
      linkLoop t i (rest ++ f :: post) st =
        ({ st with
            fields := pre ++ (linkedFields rest t ++ f :: post)
            fieldsMap := ⟨st.fieldsMap.entries ++
              (rest.map (fun f => f.name)).zip (List.range' i rest.length)⟩ },
         .panicked (.fieldNameUsed st.name f.name)) := by
  induction rest with
  | nil =>
    intro i pre st hf _ _ _ hmem
    have hk : f.name ∈ st.fieldsMap.keys := by
      rcases hmem with hk | hk
      · exact hk
      · simp at hk
    have hs : (st.fieldsMap.get? f.name).isSome = true := (GoMap.get?_isSome_iff _ _).mpr hk
    rcases st with ⟨a, b, c, ⟨d⟩, e⟩
    simp only [List.nil_append] at hf
    simp only [List.nil_append, linkLoop, hs, if_true]
    simp [linkedFields, hf]
  | cons g rest ih =>
    intro i pre st hf hi hnd hdis hmem
    have hgk : st.fieldsMap.get? g.name = none :=
      (GoMap.get?_eq_none_iff _ _).mpr (hdis g (List.mem_cons_self _ _))
    simp only [List.map_cons, List.nodup_cons] at hnd
    have hstep := ih (i + 1) (pre ++ [{ g with parent := some t }])
      { st with fieldsMap := st.fieldsMap.set g.name i, fields := setParent st.fields i t }
      (by
        simp only [hf, ← hi, List.cons_append, setParent_append]
        simp)
      (by simp [hi]) hnd.2
      (by
        intro x hx
        rw [GoMap.set_of_absent _ _ _ hgk]
        simp only [GoMap.keys, List.map_append, List.map_cons, List.map_nil, List.mem_append,
          List.mem_singleton, not_or]
        refine ⟨hdis x (List.mem_cons_of_mem _ hx), ?_⟩
        intro hxg
        exact hnd.1 (hxg ▸ List.mem_map_of_mem (fun f => f.name) hx))
      (by
        rw [GoMap.set_of_absent _ _ _ hgk]
        simp only [GoMap.keys, List.map_append, List.map_cons, List.map_nil, List.mem_append,
          List.mem_singleton]
        rcases hmem with hk | hk
        · exact Or.inl (Or.inl hk)
        · simp only [List.map_cons, List.mem_cons] at hk
          rcases hk with hk | hk
          · exact Or.inl (Or.inr hk)
          · exact Or.inr hk)
    simp only [List.cons_append, linkLoop, hgk, Option.isSome_none, Bool.false_eq_true, if_false,
      List.append_eq]
    rw [hstep, GoMap.set_of_absent _ _ _ hgk]
    simp [linkedFields, List.range'_succ]

/-- C23: `TypeStruct` is not atomic when a field name repeats. Called with an unused type
name and a field list with a repeated name, it panics with `type already has field
named` at the first field `f` whose name occurred before; by then the struct is
registered: the lookup map holds it under the type name, the enumeration list has it
appended, so the TypeSystem differs from the one before the call; the fields before `f`
are linked to the struct (parent set, entered in the name-to-field mapping) and `f` and
the fields after it are not. A later declaration under that type name, by any of the ten
declare methods, panics with `type name already used`. -/
theorem TypeStruct_registers_before_field_panic (c : Compiler) (h : Heap) (name : TypeName)
    (fields : structFieldList) (rstrat : StructRepresentation) (ts : TypeSystem)
    (hts : h.systemAt c.ts = some ts) (hfree : ts.types.get? name = none)
    (hrep : ¬ fields.names.Nodup) :
    ∃ (pre : List StructField) (f : StructField) (post : List StructField),
      fields.x = pre ++ f :: post ∧ (pre.map (fun f => f.name)).Nodup ∧
      f.name ∈ pre.map (fun f => f.name) ∧
      (c.TypeStruct h name fields rstrat).ret = .panicked (.fieldNameUsed name f.name) ∧
      ∃ ts2 : TypeSystem,
        (c.TypeStruct h name fields rstrat).heap.systemAt c.ts = some ts2 ∧
        ts2 ≠ ts ∧
        ts2.types.get? name = some h.objs.length ∧
        ts2.list = ts.list ++ [h.objs.length] ∧
        (c.TypeStruct h name fields rstrat).heap.typeAt h.objs.length =
          some (.ofStruct ⟨c.ts, name, linkedFields pre h.objs.length ++ f :: post,
            linkedFieldsMap pre, rstrat⟩) ∧
        ∀ d : Decl, d.name = name →
          (c.declare (c.TypeStruct h name fields rstrat).heap d).ret =
            .panicked (.typeNameUsed name) := by
  obtain ⟨a, hc, _, hlt⟩ := Heap.systemAt_some h c.ts ts hts
  have hrep2 : ¬ (fields.x.map (fun f => f.name)).Nodup := hrep
  obtain ⟨pre, f, post, hx, hpre, hfm⟩ := exists_first_repeat (fun f => f.name) fields.x hrep2
  have hloop := linkLoop_at_first_repeat h.objs.length f post pre 0 []
    ⟨c.ts, name, fields.x, GoMap.make, rstrat⟩ (by simp [hx]) rfl hpre
    (by simp [GoMap.keys, GoMap.make]) (Or.inr hfm)
  rw [← hx] at hloop
  refine ⟨pre, f, post, hx, hpre, hfm, ?_, ?_⟩
  · rw [Compiler.TypeStruct_of_free c h name fields rstrat ts a hc hts hfree, hloop]
  · rw [Compiler.TypeStruct_of_free c h name fields rstrat ts a hc hts hfree, hloop]
    have hsys : (Heap.mk (h.systems.set a ⟨ts.types.set name h.objs.length,
        ts.list ++ [h.objs.length]⟩) (h.objs ++ [SchemaType.ofStruct
          { ts := c.ts, name := name, fields := [] ++ (linkedFields pre h.objs.length ++ f :: post),
            fieldsMap := ⟨(GoMap.make : GoMap StructFieldName Nat).entries ++
              (pre.map (fun f => f.name)).zip (List.range' 0 pre.length)⟩,
            rstrat := rstrat }])).systemAt c.ts =
        some ⟨ts.types.set name h.objs.length, ts.list ++ [h.objs.length]⟩ := by
      simp [hc, Heap.systemAt, List.getElem?_set_self, hlt]
    refine ⟨⟨ts.types.set name h.objs.length, ts.list ++ [h.objs.length]⟩, hsys, ?_,
      GoMap.get?_set_self _ _ _, rfl, ?_, ?_⟩
    · intro heq
      have hg := GoMap.get?_set_self ts.types name h.objs.length
      rw [← heq] at hfree
      simp only at hfree
      rw [hfree] at hg
      cases hg
    · simp [Heap.typeAt, linkedFieldsMap, GoMap.make, List.range_eq_range']
    · intro d hd
      obtain ⟨obj, ho⟩ := Compiler.declare_of_used c _ d _ hsys
        (by rw [hd]; simp [GoMap.get?_set_self])
      rw [ho, hd]

/-- Witness of C23: after `Init`, the struct `S` with the fields `x, x`. -/
theorem TypeStruct_registers_before_field_panic_witness :
    (sampleHeap.systemAt sampleCompiler.ts = some ⟨GoMap.make, []⟩ ∧
      (⟨GoMap.make, []⟩ : TypeSystem).types.get? "S" = none ∧
      ¬ sampleRepeatFields.names.Nodup) ∧
    ∃ (pre : List StructField) (f : StructField) (post : List StructField),
      sampleRepeatFields.x = pre ++ f :: post ∧ (pre.map (fun f => f.name)).Nodup ∧
      f.name ∈ pre.map (fun f => f.name) ∧
      (sampleCompiler.TypeStruct sampleHeap "S" sampleRepeatFields (.other "tuple")).ret =
        .panicked (.fieldNameUsed "S" f.name) ∧
      ∃ ts2 : TypeSystem,
        (sampleCompiler.TypeStruct sampleHeap "S" sampleRepeatFields
          (.other "tuple")).heap.systemAt sampleCompiler.ts = some ts2 ∧
        ts2 ≠ ⟨GoMap.make, []⟩ ∧
        ts2.types.get? "S" = some 0 ∧
        ts2.list = [0] ∧
        (sampleCompiler.TypeStruct sampleHeap "S" sampleRepeatFields
          (.other "tuple")).heap.typeAt 0 =
            some (.ofStruct ⟨sampleCompiler.ts, "S", linkedFields pre 0 ++ f :: post,
              linkedFieldsMap pre, .other "tuple"⟩) ∧
        ∀ d : Decl, d.name = "S" →
          (sampleCompiler.declare (sampleCompiler.TypeStruct sampleHeap "S" sampleRepeatFields
            (.other "tuple")).heap d).ret = .panicked (.typeNameUsed "S") :=
  ⟨⟨by decide, by decide, by decide⟩,
    TypeStruct_registers_before_field_panic sampleCompiler sampleHeap "S" sampleRepeatFields
      (.other "tuple") ⟨GoMap.make, []⟩ (by decide) (by decide) (by decide)⟩

end Schema

namespace Schema

/-! ## The registry invariant -/

theorem GoMap.mem_entries_set {κ ν : Type} [DecidableEq κ] (m : GoMap κ ν) (k : κ) (v : ν)
    (e : κ × ν) (he : e ∈ (m.set k v).entries) : e ∈ m.entries ∨ e = (k, v) := by
  unfold GoMap.set at he
  split at he
  · simp only [List.mem_map] at he
    obtain ⟨e0, he0, hf⟩ := he
    by_cases hk : e0.1 = k
    · right
      simp only [hk, if_true] at hf
      exact hf.symm
    · left
      simp only [hk, if_false] at hf
      exact hf ▸ he0
  · simp only [List.mem_append, List.mem_singleton] at he
    exact he

theorem GoMap.get?_set_isSome {κ ν : Type} [DecidableEq κ] (m : GoMap κ ν) (k n : κ) (v : ν)
    (hn : (m.get? n).isSome = true) : ((m.set k v).get? n).isSome = true := by
  by_cases hk : n = k
  · rw [hk, GoMap.get?_set_self]
    rfl
  · rw [GoMap.get?_set_of_ne _ _ _ _ hk]
    exact hn

theorem Decl.typeObject_Name (d : Decl) (ts : Option TsPtr) (t : TypePtr) :
    (d.typeObject ts t).Name = d.name := by
  cases d <;> rfl

theorem Heap.nameAt_append (h : Heap) (objs : List SchemaType) (p : TypePtr)
    (hp : p < h.objs.length) (systems : List TypeSystem) :
    (Heap.mk systems (h.objs ++ objs)).nameAt p = h.nameAt p := by
  simp [Heap.nameAt, Heap.typeAt, List.getElem?_append_left hp]

/-- A declare call that returns was given a free name, and distinct field names. -/
theorem Compiler.declare_returned (c : Compiler) (h : Heap) (d : Decl) (ts : TypeSystem)
    (hts : h.systemAt c.ts = some ts) (hret : (c.declare h d).ret = .returned ()) :
    ts.types.get? d.name = none ∧ d.fieldNamesDistinct := by
  obtain ⟨a, hc, _, _⟩ := Heap.systemAt_some h c.ts ts hts
  cases hfree : ts.types.get? d.name with
  | some p =>
    obtain ⟨obj, ho⟩ := Compiler.declare_of_used c h d ts hts (by simp [hfree])
    rw [ho] at hret
    cases hret
  | none =>
    refine ⟨rfl, ?_⟩
    cases d with
    | typeStruct name fields rstrat =>
      by_contra hnd
      simp only [Compiler.declare, Decl.name] at hfree hret
      rw [Compiler.TypeStruct_of_free c h name fields rstrat ts a hc hts hfree] at hret
      obtain ⟨f, _, hp⟩ := linkLoop_of_repeat h.objs.length fields.x 0
        ⟨c.ts, name, fields.x, GoMap.make, rstrat⟩ (fun hc2 => hnd hc2.1)
      simp only at hret
      rw [hp] at hret
      cases hret
    | _ => trivial

/-- The result of `addAnonType` with a Type that exists, on a Compiler with an
in-progress TypeSystem. -/
theorem Compiler.addAnonType_of_valid (c : Compiler) (h : Heap) (t : TypePtr)
    (obj : SchemaType) (ts : TypeSystem) (a : TsPtr) (hc : c.ts = some a)
    (hts : h.systemAt c.ts = some ts) (hobj : h.typeAt t = some obj) :
    c.addAnonType h t =
      ⟨h.setSystem a { ts with types := ts.types.set obj.Name t }, .returned ()⟩ := by
  rw [hc] at hts
  simp [Compiler.addAnonType, hobj, hc, hts]

theorem Compiler.addAnonType_returned (c : Compiler) (h : Heap) (t : TypePtr)
    (hret : (c.addAnonType h t).ret = .returned ()) : ∃ obj, h.typeAt t = some obj := by
  unfold Compiler.addAnonType at hret
  cases hobj : h.typeAt t with
  | none => rw [hobj] at hret; cases hret
  | some obj => exact ⟨obj, rfl⟩

theorem registryOrdered_declare (c : Compiler) (h : Heap) (D : List TypeName) (d : Decl)
    (hord : registryOrdered c h D) (hret : (c.declare h d).ret = .returned ()) :
    registryOrdered c (c.declare h d).heap (D ++ [d.name]) ∧
    (registryConsistent c h → registryConsistent c (c.declare h d).heap) := by
  obtain ⟨ts, hts, hv, hnames, hnd, hkeys⟩ := hord
  obtain ⟨a, hc, _, hlt⟩ := Heap.systemAt_some h c.ts ts hts
  obtain ⟨hfree, hdist⟩ := Compiler.declare_returned c h d ts hts hret
  have hfreshD : d.name ∉ D := by
    intro hm
    have := hkeys d.name hm
    rw [hfree] at this
    cases this
  have hsys : (Heap.mk (h.systems.set a ⟨ts.types.set d.name h.objs.length,
      ts.list ++ [h.objs.length]⟩) (h.objs ++ [d.typeObject c.ts h.objs.length])).systemAt c.ts =
      some ⟨ts.types.set d.name h.objs.length, ts.list ++ [h.objs.length]⟩ := by
    simp [hc, Heap.systemAt, List.getElem?_set_self, hlt]
  have hold : ∀ p ∈ ts.list, (Heap.mk (h.systems.set a ⟨ts.types.set d.name h.objs.length,
      ts.list ++ [h.objs.length]⟩) (h.objs ++ [d.typeObject c.ts h.objs.length])).nameAt p =
      h.nameAt p := fun p hp => Heap.nameAt_append h _ p (hv.2 p hp) _
  have hnew : (Heap.mk (h.systems.set a ⟨ts.types.set d.name h.objs.length,
      ts.list ++ [h.objs.length]⟩) (h.objs ++ [d.typeObject c.ts h.objs.length])).nameAt
      h.objs.length = some d.name := by
    simp [Heap.nameAt, Heap.typeAt, Decl.typeObject_Name]
  rw [Compiler.declare_of_free c h d ts a hc hts hfree hdist]
  refine ⟨⟨_, hsys, ?_, ?_, ?_, ?_⟩, ?_⟩
  · refine ⟨?_, ?_⟩
    · intro e he
      simp only at he
      rw [GoMap.set_of_absent _ _ _ hfree] at he
      simp only [List.length_append, List.length_singleton]
      rcases List.mem_append.mp he with he | he
      · exact Nat.lt_add_right _ (hv.1 e he)
      · simp only [List.mem_singleton] at he
        subst he
        simp
    · intro p hp
      simp only [List.length_append, List.length_singleton]
      rcases List.mem_append.mp hp with hp | hp
      · exact Nat.lt_add_right _ (hv.2 p hp)
      · simp only [List.mem_singleton] at hp
        subst hp
        simp
  · simp only [List.map_append, List.map_cons, List.map_nil]
    rw [hnew, List.map_congr_left hold, hnames]
  · rw [List.nodup_append]
    refine ⟨hnd, by simp, ?_⟩
    intro x hx hx2
    simp only [List.mem_singleton] at hx2
    exact hfreshD (hx2 ▸ hx)
  · intro n hn
    simp only
    rcases List.mem_append.mp hn with hn | hn
    · exact GoMap.get?_set_isSome _ _ _ _ (hkeys n hn)
    · simp only [List.mem_singleton] at hn
      rw [hn, GoMap.get?_set_self]
      rfl
  · intro hcons ts2 hts2 p hp n hname
    rw [hsys] at hts2
    cases hts2
    simp only at hp ⊢
    rcases List.mem_append.mp hp with hp | hp
    · rw [hold p hp] at hname
      have hne : n ≠ d.name := by
        intro hnd2
        have hm : some n ∈ ts.list.map h.nameAt := hname ▸ List.mem_map_of_mem h.nameAt hp
        rw [hnames] at hm
        simp only [List.mem_map, Option.some.injEq] at hm
        obtain ⟨x, hx, hxn⟩ := hm
        exact hfreshD (hnd2 ▸ hxn ▸ hx)
      rw [GoMap.get?_set_of_ne _ _ _ _ hne]
      exact hcons ts hts p hp n hname
    · simp only [List.mem_singleton] at hp
      subst hp
      rw [hnew] at hname
      cases hname
      exact GoMap.get?_set_self _ _ _

theorem registryOrdered_addAnonType (c : Compiler) (h : Heap) (D : List TypeName)
    (t : TypePtr) (hord : registryOrdered c h D)
    (hret : (c.addAnonType h t).ret = .returned ()) :
    registryOrdered c (c.addAnonType h t).heap D ∧
    (h.nameAt t ∉ c.listedNames h → registryConsistent c h →
      registryConsistent c (c.addAnonType h t).heap) := by
  obtain ⟨ts, hts, hv, hnames, hnd, hkeys⟩ := hord
  obtain ⟨a, hc, _, hlt⟩ := Heap.systemAt_some h c.ts ts hts
  obtain ⟨obj, hobj⟩ := Compiler.addAnonType_returned c h t hret
  have htlt : t < h.objs.length := by
    simp only [Heap.typeAt] at hobj
    exact (List.getElem?_eq_some.mp hobj).1
  have hsys : (h.setSystem a { ts with types := ts.types.set obj.Name t }).systemAt c.ts =
      some { ts with types := ts.types.set obj.Name t } := by
    simp [hc, Heap.systemAt, Heap.setSystem, List.getElem?_set_self, hlt]
  have hname : ∀ p, (h.setSystem a { ts with types := ts.types.set obj.Name t }).nameAt p =
      h.nameAt p := fun p => rfl
  rw [Compiler.addAnonType_of_valid c h t obj ts a hc hts hobj]
  refine ⟨⟨_, hsys, ⟨?_, ?_⟩, ?_, hnd, ?_⟩, ?_⟩
  · intro e he
    rcases GoMap.mem_entries_set _ _ _ _ he with he | he
    · exact hv.1 e he
    · subst he
      exact htlt
  · intro p hp
    exact hv.2 p hp
  · exact hnames
  · intro n hn
    exact GoMap.get?_set_isSome _ _ _ _ (hkeys n hn)
  · intro hfresh hcons ts2 hts2 p hp n hn
    rw [hsys] at hts2
    cases hts2
    simp only at hp ⊢
    rw [hname] at hn
    have hne : n ≠ obj.Name := by
      intro hnn
      apply hfresh
      have ht : h.nameAt t = some obj.Name := by simp [Heap.nameAt, hobj]
      rw [ht, ← hnn, ← hn]
      simp only [Compiler.listedNames, hts]
      exact List.mem_map_of_mem h.nameAt hp
    rw [GoMap.get?_set_of_ne _ _ _ _ hne]
    exact hcons ts hts p hp n hn

theorem registryOrdered_alloc (c : Compiler) (h : Heap) (D : List TypeName) (obj : SchemaType)
    (hord : registryOrdered c h D) :
    registryOrdered c (h.allocType obj).1 D ∧
    c.listedNames (h.allocType obj).1 = c.listedNames h ∧
    (registryConsistent c h → registryConsistent c (h.allocType obj).1) := by
  obtain ⟨ts, hts, hv, hnames, hnd, hkeys⟩ := hord
  have hts2 : (h.allocType obj).1.systemAt c.ts = some ts := by
    rw [Heap.systemAt_allocType]
    exact hts
  have hold : ∀ p ∈ ts.list, (h.allocType obj).1.nameAt p = h.nameAt p :=
    fun p hp => Heap.nameAt_append h _ p (hv.2 p hp) _
  refine ⟨⟨ts, hts2, ⟨?_, ?_⟩, ?_, hnd, hkeys⟩, ?_, ?_⟩
  · intro e he
    simp only [Heap.allocType, List.length_append, List.length_singleton]
    exact Nat.lt_add_right _ (hv.1 e he)
  · intro p hp
    simp only [Heap.allocType, List.length_append, List.length_singleton]
    exact Nat.lt_add_right _ (hv.2 p hp)
  · rw [List.map_congr_left hold, hnames]
  · simp only [Compiler.listedNames, hts2, hts]
    exact List.map_congr_left hold
  · intro hcons ts3 hts3 p hp n hn
    rw [hts2] at hts3
    cases hts3
    rw [hold p hp] at hn
    exact hcons ts hts p hp n hn

end Schema

namespace Schema

theorem registerAll_invariant (c : Compiler) (ops : List RegOp) :
    ∀ (h h2 : Heap) (D : List TypeName), registryOrdered c h D →
      c.registerAll ops h = some h2 →
      registryOrdered c h2 (D ++ declaredNames ops) ∧
      (c.anonNamesFresh ops h → registryConsistent c h → registryConsistent c h2) := by
  induction ops with
  | nil =>
    intro h h2 D hord hrun
    simp only [Compiler.registerAll, Option.some.injEq] at hrun
    subst hrun
    simp only [declaredNames, List.append_nil]
    exact ⟨hord, fun _ hc => hc⟩
  | cons op ops ih =>
    intro h h2 D hord hrun
    unfold Compiler.registerAll at hrun
    cases hret : (c.register h op).ret with
    | panicked p => rw [hret] at hrun; cases hrun
    | returned u =>
      rw [hret] at hrun
      simp only at hrun
      cases op with
      | declare d =>
        obtain ⟨hord2, hcons2⟩ := registryOrdered_declare c h D d hord hret
        obtain ⟨hord3, hcons3⟩ := ih _ h2 (D ++ [d.name]) hord2 hrun
        refine ⟨?_, ?_⟩
        · simpa [declaredNames] using hord3
        · intro hfresh hcons
          exact hcons3 hfresh (hcons2 hcons)
      | anonNew obj =>
        obtain ⟨hord1, hlisted, hcons1⟩ := registryOrdered_alloc c h D obj hord
        obtain ⟨hord2, hcons2⟩ := registryOrdered_addAnonType c _ D _ hord1 hret
        obtain ⟨hord3, hcons3⟩ := ih _ h2 D hord2 hrun
        refine ⟨?_, ?_⟩
        · simpa [declaredNames] using hord3
        · intro hfresh hcons
          refine hcons3 hfresh.2 (hcons2 ?_ (hcons1 hcons))
          rw [hlisted]
          have hn : (h.allocType obj).1.nameAt (h.allocType obj).2 = some obj.Name := by
            simp [Heap.nameAt, Heap.typeAt_allocType_new]
          rw [hn]
          exact hfresh.1
      | anonOld t =>
        obtain ⟨hord2, hcons2⟩ := registryOrdered_addAnonType c h D t hord hret
        obtain ⟨hord3, hcons3⟩ := ih _ h2 D hord2 hrun
        refine ⟨?_, ?_⟩
        · simpa [declaredNames] using hord3
        · intro hfresh hcons
          exact hcons3 hfresh.2 (hcons2 hfresh.1 hcons)

theorem anonNamesFresh_of_declares (c : Compiler) (ops : List RegOp)
    (hd : ∀ op ∈ ops, ∃ d, op = .declare d) : ∀ h, c.anonNamesFresh ops h := by
  induction ops with
  | nil => intro h; trivial
  | cons op ops ih =>
    intro h
    obtain ⟨d, rfl⟩ := hd op (List.mem_cons_self _ _)
    exact ih (fun o ho => hd o (List.mem_cons_of_mem _ ho)) _

/-- C22, the claim as stated fails: after `Init`, `TypeBool("A")` and `addAnonType` with
a List type named `A`, neither of which panics, the enumeration list holds the Bool type
`A` at address 0, but lookup of `A` returns the List type at address 1. -/
theorem addAnonType_overwrites_lookup_of_listed_type :
    sampleCompiler.registerAll sampleCollision sampleHeap =
      some ⟨[⟨⟨[("A", 1)]⟩, [0]⟩],
        [.ofBool ⟨some 0, "A"⟩, .ofList ⟨some 0, "A", "Int", false⟩]⟩ ∧
    (⟨[⟨⟨[("A", 1)]⟩, [0]⟩],
      [.ofBool ⟨some 0, "A"⟩, .ofList ⟨some 0, "A", "Int", false⟩]⟩ : Heap).systemAt
        sampleCompiler.ts = some ⟨⟨[("A", 1)]⟩, [0]⟩ ∧
    (⟨[⟨⟨[("A", 1)]⟩, [0]⟩],
      [.ofBool ⟨some 0, "A"⟩, .ofList ⟨some 0, "A", "Int", false⟩]⟩ : Heap).nameAt 0 =
        some "A" ∧
    (⟨⟨[("A", 1)]⟩, [0]⟩ : TypeSystem).lookup
      ⟨[⟨⟨[("A", 1)]⟩, [0]⟩], [.ofBool ⟨some 0, "A"⟩, .ofList ⟨some 0, "A", "Int", false⟩]⟩
      "A" = some (.ofList ⟨some 0, "A", "Int", false⟩) ∧
    (⟨⟨[("A", 1)]⟩, [0]⟩ : TypeSystem).enumerate
      ⟨[⟨⟨[("A", 1)]⟩, [0]⟩], [.ofBool ⟨some 0, "A"⟩, .ofList ⟨some 0, "A", "Int", false⟩]⟩ =
        [some (.ofBool ⟨some 0, "A"⟩)] := by
  decide

/-- C22, amended: in every Compiler state reached from `Init` by a sequence of
registration calls of which none panics (the ten declare methods, and `addAnonType`
with a new or an existing Type), the names of the Types in the enumeration list are
pairwise distinct and are the names given to the declare calls, in the order of the
calls, and all pointers of the TypeSystem are valid. Every Type in the enumeration list
is exactly the Type that lookup returns for its name, provided no `addAnonType` call was
given a Type bearing the name of a Type in the list at that time; so in particular when
all calls are declare calls. -/
theorem registry_invariant (c0 : Compiler) (h0 : Heap) (ops : List RegOp) (h : Heap)
    (hrun : (c0.Init h0).1.registerAll ops (c0.Init h0).2 = some h) :
    ∃ ts, h.systemAt (c0.Init h0).1.ts = some ts ∧
      ts.list.map h.nameAt = (declaredNames ops).map some ∧
      (declaredNames ops).Nodup ∧
      (ts.list.map h.nameAt).Nodup ∧
      ts.pointersValid h ∧
      ((c0.Init h0).1.anonNamesFresh ops (c0.Init h0).2 →
        ∀ p ∈ ts.list, ∀ n, h.nameAt p = some n →
          ts.types.get? n = some p ∧ ts.lookup h n = h.typeAt p) ∧
      ((∀ op ∈ ops, ∃ d, op = .declare d) →
        ∀ p ∈ ts.list, ∀ n, h.nameAt p = some n →
          ts.types.get? n = some p ∧ ts.lookup h n = h.typeAt p) := by
  obtain ⟨hsys, hvalid⟩ := Compiler.Init_system c0 h0
  have hstart : registryOrdered (c0.Init h0).1 (c0.Init h0).2 [] :=
    ⟨⟨GoMap.make, []⟩, hsys, hvalid, rfl, List.nodup_nil, fun n hn => by cases hn⟩
  have hcstart : registryConsistent (c0.Init h0).1 (c0.Init h0).2 := by
    intro ts hts p hp
    rw [hsys] at hts
    cases hts
    cases hp
  obtain ⟨⟨ts, hts, hv, hnames, hnd, _⟩, hcons⟩ :=
    registerAll_invariant (c0.Init h0).1 ops (c0.Init h0).2 h [] hstart hrun
  simp only [List.nil_append] at hnames hnd
  have hlook : registryConsistent (c0.Init h0).1 h →
      ∀ p ∈ ts.list, ∀ n, h.nameAt p = some n →
        ts.types.get? n = some p ∧ ts.lookup h n = h.typeAt p := by
    intro hc p hp n hn
    have hg := hc ts hts p hp n hn
    exact ⟨hg, by simp [TypeSystem.lookup, hg]⟩
  refine ⟨ts, hts, hnames, hnd, ?_, hv, ?_, ?_⟩
  · rw [hnames]
    exact hnd.map (fun a b hab => Option.some.inj hab)
  · intro hfresh
    exact hlook (hcons hfresh hcstart)
  · intro hdecl
    exact hlook (hcons (anonNamesFresh_of_declares _ ops hdecl _) hcstart)

/-- Witness of C22: after `Init`, the calls `TypeBool("A")`, `addAnonType` with a List
type of another name, and `TypeInt("B")`. -/
theorem registry_invariant_witness :
    sampleCompiler.registerAll
      [.declare (.typeBool "A"), .anonNew (.ofList ⟨some 0, "[A]", "A", false⟩),
        .declare (.typeInt "B")] sampleHeap =
      some ⟨[⟨⟨[("A", 0), ("[A]", 1), ("B", 2)]⟩, [0, 2]⟩],
        [.ofBool ⟨some 0, "A"⟩, .ofList ⟨some 0, "[A]", "A", false⟩, .ofInt ⟨some 0, "B"⟩]⟩ ∧
    ∃ ts, (⟨[⟨⟨[("A", 0), ("[A]", 1), ("B", 2)]⟩, [0, 2]⟩],
        [.ofBool ⟨some 0, "A"⟩, .ofList ⟨some 0, "[A]", "A", false⟩,
          .ofInt ⟨some 0, "B"⟩]⟩ : Heap).systemAt sampleCompiler.ts = some ts ∧
      ts.list.map (⟨[⟨⟨[("A", 0), ("[A]", 1), ("B", 2)]⟩, [0, 2]⟩],
        [.ofBool ⟨some 0, "A"⟩, .ofList ⟨some 0, "[A]", "A", false⟩,
          .ofInt ⟨some 0, "B"⟩]⟩ : Heap).nameAt = [some "A", some "B"] :=
  have hrun : sampleCompiler.registerAll
      [.declare (.typeBool "A"), .anonNew (.ofList ⟨some 0, "[A]", "A", false⟩),
        .declare (.typeInt "B")] sampleHeap =
      some ⟨[⟨⟨[("A", 0), ("[A]", 1), ("B", 2)]⟩, [0, 2]⟩],
        [.ofBool ⟨some 0, "A"⟩, .ofList ⟨some 0, "[A]", "A", false⟩, .ofInt ⟨some 0, "B"⟩]⟩ :=
    by decide
  have hw := registry_invariant ⟨none⟩ ⟨[], []⟩
    [.declare (.typeBool "A"), .anonNew (.ofList ⟨some 0, "[A]", "A", false⟩),
      .declare (.typeInt "B")] _ hrun
  ⟨hrun, by
    obtain ⟨ts, hts, hnames, _⟩ := hw
    exact ⟨ts, hts, hnames⟩⟩

end Schema
